import Mathlib

/-!
# Verification of the fragment merger and suggestion engine

A shallow embedding of the line-merging helpers, of the block
deduplication and of the global mocks of
`src/scripts/jest-test-gen-helpers.mjs`, of the rule loop and the context
metadata of `src/scripts/suggest-test-blocks.mjs`, of `getExampleValue`,
`getAutoMocks` and the navigation mocks of `src/scripts/suggest-helpers.mjs`,
and of the entry point, the hook dependencies, the value hints and the result
of `src/scripts/analyze-ast-helper.mjs`.

JavaScript strings are modelled as lists of characters.  The regular
expressions of the source are kept as syntax trees and run by a
backtracking matcher with the ECMAScript priorities (leftmost start,
alternatives left to right, greedy and lazy repetition, capture groups,
back-references).  Plain objects used as dictionaries are modelled with
their own properties in insertion order together with what a lookup finds
on `Object.prototype`.  A thrown `TypeError` is the result `none`, or an
error of `Except`.  JavaScript numbers are of a type left open, with the
operations on them provided by a host; where the rounding of the arithmetic
matters, they are the integers that are doubles.
-/

namespace TestGen

/-- A JavaScript string. -/
abbrev Str := List Char

/-! ## Characters -/

/-- The characters matched by `\s` and stripped by `trim`: ECMAScript
WhiteSpace and LineTerminator. -/
def isSpace (c : Char) : Bool :=
  let n := c.toNat
  n == 0x09 || n == 0x0A || n == 0x0B || n == 0x0C || n == 0x0D || n == 0x20 ||
  n == 0xA0 || n == 0x1680 || (0x2000 ≤ n && n ≤ 0x200A) || n == 0x2028 ||
  n == 0x2029 || n == 0x202F || n == 0x205F || n == 0x3000 || n == 0xFEFF

/-- The characters a `.` does not match: ECMAScript LineTerminator. -/
def isLineTerminator (c : Char) : Bool :=
  let n := c.toNat
  n == 0x0A || n == 0x0D || n == 0x2028 || n == 0x2029

/-- The class `[\w$]`. -/
def isWordOrDollar (c : Char) : Bool :=
  let n := c.toNat
  (0x30 ≤ n && n ≤ 0x39) || (0x41 ≤ n && n ≤ 0x5A) || (0x61 ≤ n && n ≤ 0x7A) ||
  n == 0x5F || n == 0x24

/-! ## String methods -/

/-- `s.startsWith(p)`. -/
def startsWith (s p : Str) : Bool := p.isPrefixOf s

/-- `s.endsWith(p)`. -/
def endsWith (s p : Str) : Bool := p.isSuffixOf s

/-- `s.includes(p)`. -/
def includes : Str → Str → Bool
  | [], p => p.isEmpty
  | c :: cs, p => p.isPrefixOf (c :: cs) || includes cs p

/-- `s.trim()`. -/
def trim (s : Str) : Str :=
  ((s.dropWhile isSpace).reverse.dropWhile isSpace).reverse

/-- Worker of `splitOnChar`: `cur` is the current piece, reversed. -/
def splitOnCharAux (sep : Char) : Str → Str → List Str
  | [], cur => [cur.reverse]
  | c :: cs, cur =>
    if c == sep then cur.reverse :: splitOnCharAux sep cs []
    else splitOnCharAux sep cs (c :: cur)

/-- `s.split(sep)` for a one-character separator string. -/
def splitOnChar (sep : Char) (s : Str) : List Str := splitOnCharAux sep s []

/-- `arr.join(sep)`. -/
def join (sep : Str) : List Str → Str
  | [] => []
  | [a] => a
  | a :: b :: rest => a ++ sep ++ join sep (b :: rest)

/-- `filter(Boolean)` on strings: the empty string is the only falsy one. -/
def truthy (s : Str) : Bool := !s.isEmpty

/-- `Array.from(new Set(arr))`: first occurrences, in order. -/
def uniq : List Str → List Str
  | [] => []
  | a :: rest => a :: (uniq rest).filter (fun b => b != a)

/-- `set.add(x)` on an insertion-ordered set. -/
def setAdd (s : List Str) (x : Str) : List Str := if s.contains x then s else s ++ [x]

/-! ## Comparison of strings -/

/-- The UTF-16 code units of a character. -/
def utf16 (c : Char) : List Nat :=
  let n := c.toNat
  if n < 0x10000 then [n]
  else [0xD800 + (n - 0x10000) / 0x400, 0xDC00 + (n - 0x10000) % 0x400]

/-- The UTF-16 code units of a string. -/
def units (s : Str) : List Nat := s.flatMap utf16

/-- The order of `Array.prototype.sort` without a comparator: strings are
compared by their UTF-16 code units. -/
def codeUnitLE (a b : Str) : Prop := units a ≤ units b

instance : DecidableRel codeUnitLE := fun a b => inferInstanceAs (Decidable (units a ≤ units b))

instance : IsTotal Str codeUnitLE := ⟨fun a b => le_total (units a) (units b)⟩

instance : IsTrans Str codeUnitLE := ⟨fun _ _ _ h1 h2 => le_trans h1 h2⟩

/-- `arr.sort()` on an array of strings. -/
def sortDefault (l : List Str) : List Str := l.insertionSort codeUnitLE

/-- `arr.sort((a, b) => cmp(a, b))`: a stable sort by a comparator. -/
def sortBy (cmp : Str → Str → Int) (l : List Str) : List Str :=
  l.insertionSort (fun a b => cmp a b ≤ 0)

/-! ## Regular expressions -/

/-- The syntax of the regular expressions used by the source. -/
inductive Re where
  /-- Matches the empty string. -/
  | eps : Re
  /-- One character of a class. -/
  | set (p : Char → Bool) : Re
  /-- Concatenation. -/
  | cat (a b : Re) : Re
  /-- Alternation, the left alternative first. -/
  | alt (a b : Re) : Re
  /-- Greedy repetition. -/
  | star (a : Re) : Re
  /-- Lazy repetition. -/
  | lazyStar (a : Re) : Re
  /-- Capture group. -/
  | group (i : Nat) (a : Re) : Re
  /-- Back-reference. -/
  | backref (i : Nat) : Re
  /-- The assertion `^` (no `m` flag). -/
  | bol : Re

namespace Re

/-- A literal character. -/
def chr (c : Char) : Re := set (fun d => d == c)

/-- A literal string. -/
def lit : Str → Re
  | [] => eps
  | [c] => chr c
  | c :: cs => cat (chr c) (lit cs)

/-- The repetition `a+`. -/
def plus (a : Re) : Re := cat a (star a)

/-- The option `a?`. -/
def opt (a : Re) : Re := alt a eps

/-- The class `\s`. -/
def space : Re := set isSpace

/-- The wildcard `.`. -/
def dot : Re := set (fun c => !isLineTerminator c)

/-- The class `['"]`. -/
def quote : Re := set (fun c => c == '\'' || c == '"')

/-- The class `[^'"]`. -/
def notQuote : Re := set (fun c => !(c == '\'' || c == '"'))

/-- Concatenation of a list of expressions. -/
def seq : List Re → Re
  | [] => eps
  | [a] => a
  | a :: rest => cat a (seq rest)

end Re

/-- The state of a match attempt: the index reached, the input left and the
captures made. -/
structure MState where
  pos : Nat
  rest : Str
  caps : List (Nat × Str)

/-- The last capture made for group `i`. -/
def getCap (i : Nat) : List (Nat × Str) → Option Str
  | [] => none
  | (j, s) :: rest => if j == i then some s else getCap i rest

/-- Repetition of `step`: at most `fuel` rounds, each of which must consume
input. -/
def starLoop (step : MState → (MState → Option MState) → Option MState) (greedy : Bool) :
    Nat → MState → (MState → Option MState) → Option MState
  | 0, s, k => k s
  | fuel + 1, s, k =>
    let again := fun (_ : Unit) =>
      step s (fun t => if t.rest.length < s.rest.length then starLoop step greedy fuel t k
                       else none)
    if greedy then
      match again () with
      | some r => some r
      | none => k s
    else
      match k s with
      | some r => some r
      | none => again ()

/-- The backtracking matcher in continuation-passing style. -/
def Re.run : Re → MState → (MState → Option MState) → Option MState
  | .eps, s, k => k s
  | .set p, s, k =>
    match s.rest with
    | [] => none
    | c :: cs => if p c then k { s with pos := s.pos + 1, rest := cs } else none
  | .cat a b, s, k => a.run s (fun t => b.run t k)
  | .alt a b, s, k =>
    match a.run s k with
    | some r => some r
    | none => b.run s k
  | .star a, s, k => starLoop a.run true s.rest.length s k
  | .lazyStar a, s, k => starLoop a.run false s.rest.length s k
  | .group i a, s, k =>
    a.run s (fun t => k { t with caps := (i, s.rest.take (t.pos - s.pos)) :: t.caps })
  | .backref i, s, k =>
    match getCap i s.caps with
    | none => k s
    | some w =>
      if w.isPrefixOf s.rest then
        k { s with pos := s.pos + w.length, rest := s.rest.drop w.length }
      else none
  | .bol, s, k => if s.pos == 0 then k s else none

/-- A successful match: where it starts, the matched text and the captures. -/
structure Match where
  index : Nat
  text : Str
  caps : List (Nat × Str)
  /-- The index just after the match. -/
  stop : Nat
  /-- The input after the match. -/
  after : Str

/-- Group `i` of a match; group 0 is the whole match. -/
def Match.get (m : Match) (i : Nat) : Option Str :=
  if i == 0 then some m.text else getCap i m.caps

/-- A match attempt at one index. -/
def Re.matchAt (r : Re) (pos : Nat) (rest : Str) : Option Match :=
  match r.run ⟨pos, rest, []⟩ some with
  | none => none
  | some t => some ⟨pos, rest.take (t.pos - pos), t.caps, t.pos, t.rest⟩

/-- The leftmost match at or after index `pos`, where `rest` is the input
from `pos` on. -/
def Re.searchFrom (r : Re) : Nat → Str → Option Match
  | pos, [] => r.matchAt pos []
  | pos, c :: cs =>
    match r.matchAt pos (c :: cs) with
    | some m => some m
    | none => r.searchFrom (pos + 1) cs

/-- `s.match(r)` for a regular expression without the `g` flag. -/
def Re.exec (r : Re) (s : Str) : Option Match := r.searchFrom 0 s

/-- `r.test(s)`. -/
def Re.test (r : Re) (s : Str) : Bool := (r.exec s).isSome

/-- Worker of `replaceAll`: `pos` is the index of `rest` in the input. -/
def Re.replaceAllAux (r : Re) (f : Match → Str) : Nat → Nat → Str → Str
  | 0, _, rest => rest
  | fuel + 1, pos, rest =>
    match r.searchFrom pos rest with
    | none => rest
    | some m =>
      let skipped := rest.take (m.index - pos)
      if m.stop == m.index then
        match m.after with
        | [] => skipped ++ f m
        | c :: cs => skipped ++ f m ++ c :: r.replaceAllAux f fuel (m.stop + 1) cs
      else skipped ++ f m ++ r.replaceAllAux f fuel m.stop m.after

/-- `s.replace(r, f)` for a regular expression with the `g` flag. -/
def Re.replaceAll (r : Re) (f : Match → Str) (s : Str) : Str :=
  r.replaceAllAux f (s.length + 1) 0 s

/-- `s.replace(r, f)` for a regular expression without the `g` flag. -/
def Re.replaceFirst (r : Re) (f : Match → Str) (s : Str) : Str :=
  match r.exec s with
  | none => s
  | some m => s.take m.index ++ f m ++ m.after

/-- Worker of `splitRe`: `q` is the index of `rest`, `cur` the piece since
the last separator, reversed. -/
def Re.splitAux (r : Re) : Nat → Nat → Str → Str → List Str
  | 0, _, cur, rest => [cur.reverse ++ rest]
  | _ + 1, _, cur, [] => [cur.reverse]
  | fuel + 1, q, cur, c :: cs =>
    match r.matchAt q (c :: cs) with
    | none => r.splitAux fuel (q + 1) (c :: cur) cs
    | some m =>
      if m.stop + cur.length == q then r.splitAux fuel (q + 1) (c :: cur) cs
      else cur.reverse :: r.splitAux fuel m.stop [] m.after

/-- `s.split(r)` for a regular expression without capture groups. -/
def Re.split (r : Re) (s : Str) : List Str :=
  match s with
  | [] => if (r.matchAt 0 []).isSome then [] else [[]]
  | _ => r.splitAux (s.length + 1) 0 [] s


/-! ## Plain objects used as dictionaries -/

/-- The property names every plain object inherits from `Object.prototype`;
a lookup of one of them on `{}` finds a function (or, for `__proto__`, the
prototype itself), which is truthy. -/
def objectPrototypeKeys : List Str :=
  ["constructor", "__defineGetter__", "__defineSetter__", "hasOwnProperty",
   "__lookupGetter__", "__lookupSetter__", "isPrototypeOf", "propertyIsEnumerable",
   "toString", "valueOf", "__proto__", "toLocaleString"].map String.toList

/-- The value of a string of decimal digits. -/
def digitsValue (k : Str) : Nat := k.foldl (fun n c => 10 * n + (c.toNat - 48)) 0

/-- An array index: the canonical decimal form of a number below `2^32 - 1`.
Own properties with such names are enumerated first, in numeric order. -/
def arrayIndex (k : Str) : Option Nat :=
  if !k.isEmpty && k.all Char.isDigit && (k.head? != some '0' || k.length == 1)
      && digitsValue k < 4294967295 then
    some (digitsValue k)
  else none

/-- The own properties of a plain object, in creation order. -/
abbrev Dict (V : Type) := List (Str × V)

/-- An own property. -/
def Dict.own {V : Type} (d : Dict V) (k : Str) : Option V :=
  match d with
  | [] => none
  | (j, v) :: rest => if j == k then some v else Dict.own rest k

/-- The assignment `d[k] = v` of an own property. -/
def Dict.put {V : Type} (d : Dict V) (k : Str) (v : V) : Dict V :=
  match d with
  | [] => [(k, v)]
  | (j, w) :: rest => if j == k then (j, v) :: rest else (j, w) :: Dict.put rest k v

/-- `Object.entries(d)`: array indices in ascending order, then the other
names in creation order. -/
def Dict.entries {V : Type} (d : Dict V) : List (Str × V) :=
  (d.filter (fun e => (arrayIndex e.1).isSome)).insertionSort
      (fun a b => digitsValue a.1 ≤ digitsValue b.1)
    ++ d.filter (fun e => (arrayIndex e.1).isNone)

/-! ## `mergeLinesHelper` -/

/-- The expression `/\r?\n/`. -/
def reLineBreak : Re := .cat (.opt (.chr '\r')) (.chr '\n')

/-- The expression `/from\s+["'](.+)["']/`. -/
def reFromPath : Re :=
  .seq [.lit "from".toList, .plus .space, .quote, .group 1 (.plus .dot), .quote]

/-- The expression `/import\s+\{([^}]+)\}/`. -/
def reImportNames : Re :=
  .seq [.lit "import".toList, .plus .space, .chr '{',
        .group 1 (.plus (.set (fun c => c != '}'))), .chr '}']

/-- The expression `/import\s+([^\s\{]+)\s+from/`. -/
def reImportDefault : Re :=
  .seq [.lit "import".toList, .plus .space,
        .group 1 (.plus (.set (fun c => !(isSpace c || c == '{')))),
        .plus .space, .lit "from".toList]

/-- The expression `/jest\.mock\(["'](.+)["']/`. -/
def reMockModule : Re :=
  .seq [.lit "jest.mock(".toList, .quote, .group 1 (.plus .dot), .quote]

/-- The expression `split(/\r?\n/).map(l => l.trim()).filter(Boolean)`. -/
def cleanLines (text : Str) : List Str :=
  ((reLineBreak.split text).map trim).filter truthy

/-- Adding the names `ns` to the set stored for `path` in `importByPath`.
When `path` is not an own property but is found on `Object.prototype`, no set
was created and `.add` is not a function: the call throws. -/
def addImportNames (d : Dict (List Str)) (path : Str) (ns : List Str) :
    Option (Dict (List Str)) :=
  match d.own path with
  | some names => some (d.put path (ns.foldl setAdd names))
  | none => none

/-- One round of the `forEach` that fills `importByPath`. -/
def importStep (d : Dict (List Str)) (line : Str) : Option (Dict (List Str)) :=
  if startsWith line "import ".toList then
    match (reFromPath.exec line).bind (fun m => m.get 1) with
    | none => some d
    | some path =>
      let d1 : Dict (List Str) :=
        if (d.own path).isNone && !objectPrototypeKeys.contains path then d.put path [] else d
      match (reImportNames.exec line).bind (fun m => m.get 1) with
      | some inner => addImportNames d1 path ((splitOnChar ',' inner).map trim)
      | none =>
        match (reImportDefault.exec line).bind (fun m => m.get 1) with
        | some name => addImportNames d1 path [name]
        | none => some d1
  else some d

/-- The `forEach` that fills `importByPath`. -/
def importByPath : List Str → Dict (List Str) → Option (Dict (List Str))
  | [], d => some d
  | line :: rest, d =>
    match importStep d line with
    | none => none
    | some d1 => importByPath rest d1

/-- The statement rebuilt for one entry of `importByPath`. -/
def importStatement (entry : Str × List Str) : Str :=
  let namesArr := sortDefault entry.2
  let tail := " from \"".toList ++ entry.1 ++ "\";".toList
  let single : Bool :=
    match namesArr with
    | [n] => !includes n "*".toList
    | _ => false
  if single then
    "import ".toList ++ join ", ".toList namesArr ++ tail
  else if namesArr.any (fun n => includes n "*".toList) then
    "import ".toList ++ join ", ".toList namesArr ++ tail
  else
    "import \x7b ".toList ++ join ", ".toList namesArr ++ " \x7d".toList ++ tail

/-- An entry of `mockByModule`. -/
structure MockEntry where
  code : Str
  isExtended : Bool

/-- The object `mockByModule`: its own properties and, once an assignment to
`__proto__` has replaced its prototype, the entry that is its prototype. -/
structure MockObj where
  own : Dict MockEntry
  proto : Option MockEntry

/-- Whether `mockByModule[mod]` is truthy. -/
def MockObj.truthyAt (o : MockObj) (mod : Str) : Bool :=
  match o.own.own mod with
  | some _ => true
  | none =>
    if mod == "__proto__".toList then true
    else
      match o.proto with
      | some e =>
        if mod == "code".toList then truthy e.code
        else if mod == "isExtended".toList then e.isExtended
        else objectPrototypeKeys.contains mod
      | none => objectPrototypeKeys.contains mod

/-- Whether `mockByModule[mod].isExtended` is truthy, for a truthy
`mockByModule[mod]`. -/
def MockObj.extendedAt (o : MockObj) (mod : Str) : Bool :=
  match o.own.own mod with
  | some e => e.isExtended
  | none =>
    if mod == "__proto__".toList then
      match o.proto with
      | some e => e.isExtended
      | none => false
    else false

/-- The assignment `mockByModule[mod] = e`. -/
def MockObj.assign (o : MockObj) (mod : Str) (e : MockEntry) : MockObj :=
  if mod == "__proto__".toList then { o with proto := some e }
  else { o with own := o.own.put mod e }

/-- The registration of a block under its module. -/
def registerMock (o : MockObj) (mod : Option Str) (e : MockEntry) : MockObj :=
  match mod with
  | none => o
  | some m =>
    if !o.truthyAt m || (e.isExtended && !o.extendedAt m) then o.assign m e else o

/-- The state of the `while` loop that collects the mocks, taken one line at a
time: `obj` is `mockByModule`, `consumed` is `consumedMockLineIdxs`, and
`pending` is set while the inner `while` is looking for the closing line of an
extended mock (the module of that mock and its lines so far, last first). -/
structure MockScan where
  obj : MockObj
  consumed : List Nat
  pending : Option (Option Str × List Str)

/-- The module of a line that starts a mock. -/
def mockModule (line : Str) : Option Str := (reMockModule.exec line).bind (fun m => m.get 1)

/-- The block of lines joined and registered. -/
def closeBlock (o : MockObj) (mod : Option Str) (revLines : List Str) (ext : Bool) : MockObj :=
  registerMock o mod ⟨join "\n".toList revLines.reverse, ext⟩

/-- What the loops do with the line of index `i`. Inside an extended mock the
line is taken into the block whatever it is, and a line whose trimmed text
ends with `}));` closes the block; outside, a line that starts with
`jest.mock(` opens a block, extended when it includes `=> ({`, and any other
line is skipped. -/
def mockStep (st : MockScan) (i : Nat) (line : Str) : MockScan :=
  match st.pending with
  | some (mod, revLines) =>
    if endsWith (trim line) "\x7d));".toList then
      { obj := closeBlock st.obj mod (line :: revLines) true,
        consumed := i :: st.consumed, pending := none }
    else { st with consumed := i :: st.consumed, pending := some (mod, line :: revLines) }
  | none =>
    if startsWith line "jest.mock(".toList then
      if includes line "=> (\x7b".toList then
        { st with consumed := i :: st.consumed, pending := some (mockModule line, [line]) }
      else
        { st with obj := closeBlock st.obj (mockModule line) [line] false,
                  consumed := i :: st.consumed }
    else st

/-- The scan of all the lines from index `i` on; a block still open after the
last line is registered without a closing line. -/
def mockScan : Nat → List Str → MockScan → MockScan
  | _, [], st =>
    match st.pending with
    | some (mod, revLines) => { st with obj := closeBlock st.obj mod revLines true, pending := none }
    | none => st
  | i, line :: rest, st => mockScan (i + 1) rest (mockStep st i line)

/-- The lines that are neither imports nor mocks nor consumed by a mock
block, without repetition, in order of appearance; `seen` is `otherSet`. -/
def otherLines (consumed : List Nat) : Nat → List Str → List Str → List Str
  | _, [], _ => []
  | i, line :: rest, seen =>
    if !startsWith line "import ".toList && !startsWith line "jest.mock(".toList
        && !consumed.contains i then
      if !seen.contains line then line :: otherLines consumed (i + 1) rest (line :: seen)
      else otherLines consumed (i + 1) rest seen
    else otherLines consumed (i + 1) rest seen

/-- The lines the merge works on: those of the skeleton, then the new ones
not already in it. -/
def allLinesOf (originalContent mergedLines : Str) : List Str :=
  let origLines := cleanLines originalContent
  origLines ++ (cleanLines mergedLines).filter (fun l => !origLines.contains l)

/-- The rebuilt import statements, sorted. -/
def importsOf (allLines : List Str) : Option (List Str) :=
  (importByPath allLines []).map (fun d => sortDefault (d.entries.map importStatement))

/-- The surviving mock blocks, sorted by `localeCompare`. -/
def mocksOf (localeCompare : Str → Str → Int) (allLines : List Str) : List Str :=
  sortBy localeCompare (((mockScan 0 allLines ⟨⟨[], none⟩, [], none⟩).obj.own.entries).map
    (fun e => e.2.code))

/-- The remaining lines. -/
def othersOf (allLines : List Str) : List Str :=
  otherLines (mockScan 0 allLines ⟨⟨[], none⟩, [], none⟩).consumed 0 allLines []

/-- The function `mergeLinesHelper(originalContent, mergedLines)`; the collation
`String.prototype.localeCompare` is a parameter. `none` stands for a thrown
`TypeError`. -/
def mergeLinesHelper (localeCompare : Str → Str → Int) (originalContent mergedLines : Str) :
    Option Str :=
  let allLines := allLinesOf originalContent mergedLines
  match importsOf allLines with
  | none => none
  | some imports =>
    some (join "\n".toList
      (imports ++ mocksOf localeCompare allLines ++ othersOf allLines) ++ "\n".toList)


/-! ## `groupImports` -/

/-- The expression `/(import\s+.*\s+from\s+['"])(\.\/)/g`. -/
def reRelativeImport : Re :=
  .cat (.group 1 (.seq [.lit "import".toList, .plus .space, .star .dot, .plus .space,
                        .lit "from".toList, .plus .space, .quote]))
       (.group 2 (.lit "./".toList))

/-- The tail `\s+from\s+['"]([^'"]+)['"]` with the path in group 2. -/
def reFromTail : List Re :=
  [.plus .space, .lit "from".toList, .plus .space, .quote, .group 2 (.plus .notQuote), .quote]

/-- The expression `/^import\s+\{([^}]+)\}\s+from\s+['"]([^'"]+)['"]/`. -/
def reNamedImport : Re :=
  .seq ([.bol, .lit "import".toList, .plus .space, .chr '{',
         .group 1 (.plus (.set (fun c => c != '}'))), .chr '}'] ++ reFromTail)

/-- The expression `/^import\s+([\w$]+)\s+from\s+['"]([^'"]+)['"]/`. -/
def reDefaultImport : Re :=
  .seq ([.bol, .lit "import".toList, .plus .space,
         .group 1 (.plus (.set isWordOrDollar))] ++ reFromTail)

/-- The expression `/^import\s+\*\s+as\s+([\w$]+)\s+from\s+['"]([^'"]+)['"]/`. -/
def reStarImport : Re :=
  .seq ([.bol, .lit "import".toList, .plus .space, .chr '*', .plus .space,
         .lit "as".toList, .plus .space, .group 1 (.plus (.set isWordOrDollar))] ++ reFromTail)

/-- A value stored in `importMap`: a set of names or, after
`importMap[line] = importMap[line] || new Set()` for a line that names a
property of `Object.prototype`, the inherited function. -/
inductive ImportVal where
  | names (s : List Str) : ImportVal
  | inherited : ImportVal

/-- The `length` of the function that `Object.prototype` holds under a name;
`Array.from` reads it. -/
def prototypeFunctionLength (k : Str) : Nat :=
  if k == "__defineGetter__".toList || k == "__defineSetter__".toList then 2
  else if k == "toString".toList || k == "valueOf".toList || k == "toLocaleString".toList then 0
  else 1

/-- The two objects filled by `groupImports`. -/
structure ImportMaps where
  importMap : Dict ImportVal
  defaultImports : Dict (List Str)

/-- The statement `if (!importMap[path]) importMap[path] = new Set();`. -/
def ensureImportSet (d : Dict ImportVal) (path : Str) : Dict ImportVal :=
  if (d.own path).isNone && !objectPrototypeKeys.contains path then d.put path (.names [])
  else d

/-- The calls `importMap[path].add(n)` for the names `ns`; `.add` is missing
on an inherited function. -/
def addToImportMap (d : Dict ImportVal) (path : Str) (ns : List Str) :
    Option (Dict ImportVal) :=
  match d.own path with
  | some (.names s) => some (d.put path (.names (ns.foldl setAdd s)))
  | _ => none

/-- One round of the `forEach` over the import lines. -/
def groupImportsStep (m : ImportMaps) (line : Str) : Option ImportMaps :=
  match reNamedImport.exec line with
  | some r =>
    let names := (splitOnChar ',' ((r.get 1).getD [])).map trim
    let path := (r.get 2).getD []
    (addToImportMap (ensureImportSet m.importMap path) path names).map
      (fun d => { m with importMap := d })
  | none =>
    match reDefaultImport.exec line with
    | some r =>
      let defName := (r.get 1).getD []
      let path := (r.get 2).getD []
      if objectPrototypeKeys.contains path then none
      else
        some { importMap := ensureImportSet m.importMap path,
               defaultImports := m.defaultImports.put path
                 (setAdd ((m.defaultImports.own path).getD []) defName) }
    | none =>
      match reStarImport.exec line with
      | some r =>
        let path := (r.get 2).getD []
        (addToImportMap (ensureImportSet m.importMap path) path
            ["* as ".toList ++ (r.get 1).getD []]).map
          (fun d => { m with importMap := d })
      | none =>
        match m.importMap.own line with
        | some _ => some m
        | none =>
          if line == "__proto__".toList then some m
          else if objectPrototypeKeys.contains line then
            some { m with importMap := m.importMap.put line .inherited }
          else some { m with importMap := m.importMap.put line (.names []) }

/-- The `forEach` over the import lines. -/
def groupImportsFill : List Str → ImportMaps → Option ImportMaps
  | [], m => some m
  | line :: rest, m =>
    match groupImportsStep m line with
    | none => none
    | some m1 => groupImportsFill rest m1

/-- The statements pushed for one path; `none` when `Array.from` of an
inherited function yields `undefined` entries, on which `startsWith` throws. -/
def groupImportsEmit (m : ImportMaps) (path : Str) : Option (List Str) :=
  if startsWith path "import".toList then some [path]
  else
    let all : Option (List Str) :=
      match m.importMap.own path with
      | some (.names s) => some s
      | some .inherited => if prototypeFunctionLength path == 0 then some [] else none
      | none => some []
    match all with
    | none => none
    | some s =>
      let names := s.filter (fun n => !startsWith n "* as ".toList)
      let stars := s.filter (fun n => startsWith n "* as ".toList)
      let defaults := (m.defaultImports.own path).getD []
      let hasDefault := !defaults.isEmpty
      let hasNamed := !names.isEmpty
      let tail := " from \"".toList ++ path ++ "\";".toList
      let first : List Str :=
        if hasDefault && hasNamed then
          ["import ".toList ++ join ", ".toList defaults ++ "\x7b ".toList
            ++ join ", ".toList (sortDefault names) ++ " \x7d".toList ++ tail]
        else if hasDefault then
          ["import ".toList ++ join ", ".toList defaults ++ tail]
        else if hasNamed then
          ["import \x7b ".toList ++ join ", ".toList (sortDefault names) ++ " \x7d".toList ++ tail]
        else []
      some (first ++ stars.map (fun star => "import ".toList ++ star ++ tail))

/-- The `forEach` over the sorted paths. -/
def groupImportsEmitAll (m : ImportMaps) : List Str → Option (List Str)
  | [] => some []
  | path :: rest =>
    match groupImportsEmit m path, groupImportsEmitAll m rest with
    | some a, some b => some (a ++ b)
    | _, _ => none

/-- The function `groupImports(importLinesArr)`. -/
def groupImports (importLinesArr : List Str) : Option (List Str) :=
  let lines := importLinesArr.map
    (reRelativeImport.replaceAll (fun r => (r.get 1).getD [] ++ "../".toList))
  match groupImportsFill lines ⟨[], []⟩ with
  | none => none
  | some m =>
    let allPaths := sortDefault
      (uniq (m.importMap.entries.map Prod.fst ++ m.defaultImports.entries.map Prod.fst))
    groupImportsEmitAll m allPaths

/-! ## `groupMocks` -/

/-- The expression `/jest\.mock\((['\"])([^'\"]+)\1\s*(,|\))/`. -/
def reMockCall : Re :=
  .seq [.lit "jest.mock(".toList, .group 1 .quote, .group 2 (.plus .notQuote), .backref 1,
        .star .space, .group 3 (.alt (.chr ',') (.chr ')'))]

/-- The expression `/,\s*(\(\s*\)|\(.*?\))\s*=>|,\s*function/`. -/
def reFactory : Re :=
  .alt
    (.seq [.chr ',', .star .space,
           .group 1 (.alt (.seq [.chr '(', .star .space, .chr ')'])
                          (.seq [.chr '(', .lazyStar .dot, .chr ')'])),
           .star .space, .lit "=>".toList])
    (.seq [.chr ',', .star .space, .lit "function".toList])

/-- The module a mock block targets: group 2 of the first `jest.mock("...")`
call found in it. -/
def mockKey (mockBlock : Str) : Option Str := (reMockCall.exec mockBlock).bind (fun r => r.get 2)

/-- Whether a mock block has a factory, as `groupMocks` tests it. -/
def isFactory (mockBlock : Str) : Bool := reFactory.test mockBlock

/-- One round of the `forEach` over the mock blocks. A name found on
`Object.prototype` counts as already present, with a value that is no factory;
an assignment of a string to `__proto__` has no effect. -/
def groupMocksStep (d : Dict Str) (mockBlock : Str) : Dict Str :=
  if mockBlock.isEmpty then d
  else
    match mockKey mockBlock with
    | some moduleName =>
      match d.own moduleName with
      | some prev =>
        if isFactory mockBlock && !isFactory prev then d.put moduleName mockBlock else d
      | none =>
        if moduleName == "__proto__".toList then d
        else if objectPrototypeKeys.contains moduleName then
          if isFactory mockBlock then d.put moduleName mockBlock else d
        else d.put moduleName mockBlock
    | none => d.put "others".toList mockBlock

/-- The function `groupMocks(allMocks)`. -/
def groupMocks (allMocks : List Str) : List Str :=
  ((allMocks.foldl groupMocksStep []).entries).map Prod.snd

/-! ## `groupHelper` -/

/-- The argument `linesAdded`; a missing field is an empty set. -/
structure LinesAdded where
  importedLines : List Str
  mockedLines : List Str
  testingLibraryLines : List Str
  globalMockLines : List Str

/-- `arr.indexOf(x)`, or the length of `arr` when `x` is absent. -/
def indexOf (arr : List Str) (x : Str) : Nat :=
  match arr with
  | [] => 0
  | a :: rest => if a == x then 0 else indexOf rest x + 1

/-- Worker of `firstNonEmpty`: `idx` is the index of the head of the list. -/
def firstNonEmptyAux (arr : List Str) : Nat → List Str → List Str
  | _, [] => []
  | idx, line :: rest =>
    if truthy line && indexOf arr line == idx then line :: firstNonEmptyAux arr (idx + 1) rest
    else firstNonEmptyAux arr (idx + 1) rest

/-- `arr.filter((line, idx, arr) => line && arr.indexOf(line) === idx)`. -/
def firstNonEmpty (arr : List Str) : List Str := firstNonEmptyAux arr 0 arr

/-- A group of lines appended to `allLines` when it is not empty. -/
def appendGroup (allLines : Str) (group : List Str) : Str :=
  if group.isEmpty then allLines else allLines ++ join "\n".toList group ++ "\n".toList

/-- The function `groupHelper(importLinesSet, mockLinesSet, linesAdded)`. -/
def groupHelper (importLinesSet mockLinesSet : List Str) (linesAdded : LinesAdded) :
    Option Str :=
  let allImports := uniq (importLinesSet ++ linesAdded.importedLines)
  let importPart : Option Str :=
    if allImports.isEmpty then some []
    else (groupImports allImports).map (fun g => join "\n".toList g ++ "\n".toList)
  match importPart with
  | none => none
  | some imports =>
    let allMocks := uniq (mockLinesSet ++ linesAdded.mockedLines ++ linesAdded.globalMockLines)
    let testingLibraryLines := uniq linesAdded.testingLibraryLines
    let allLines :=
      appendGroup (appendGroup imports (groupMocks allMocks)) (sortDefault testingLibraryLines)
    some (join "\n".toList (firstNonEmpty ((splitOnChar '\n' allLines).map trim)) ++ "\n".toList)

/-- The function `mergeLines(importLinesSet, mockLinesSet, linesAdded, content)`. -/
def mergeLines (localeCompare : Str → Str → Int) (importLinesSet mockLinesSet : List Str)
    (linesAdded : LinesAdded) (content : Str) : Option Str :=
  match groupHelper importLinesSet mockLinesSet linesAdded with
  | none => none
  | some mergedLines => mergeLinesHelper localeCompare content mergedLines


/-! ## The line scan of `normalizeSkeleton` -/

/-- The expression `/import\s*\{/`. -/
def reImportBrace : Re := .seq [.lit "import".toList, .star .space, .chr '{']

/-- The expression `/\{([^}]*)\}/`. -/
def reBraces : Re := .seq [.chr '{', .group 1 (.star (.set (fun c => c != '}'))), .chr '}']

/-- The expression `/[\s,]+/`. -/
def reSpacesCommas : Re := .plus (.set (fun c => isSpace c || c == ','))

/-- The expression `/\{\s*,/g`. -/
def reBraceComma : Re := .seq [.chr '{', .star .space, .chr ',']

/-- The expression `/,\s*\}/g`. -/
def reCommaBrace : Re := .seq [.chr ',', .star .space, .chr '}']

/-- The helper `cleanImportBlock(block)`. -/
def cleanImportBlock (block : List Str) : Str :=
  let joined := join "\n".toList block
  let joined1 :=
    if reImportBrace.test joined then
      reBraces.replaceFirst (fun r =>
        "\x7b ".toList
          ++ join ", ".toList ((((reSpacesCommas.split ((r.get 1).getD [])).map trim)).filter truthy)
          ++ " \x7d".toList) joined
    else joined
  reCommaBrace.replaceAll (fun _ => " \x7d".toList)
    (reBraceComma.replaceAll (fun _ => "\x7b".toList) joined1)

/-- The variables of the scan. -/
structure ScanState where
  importBlocks : List Str
  mockBlocks : List Str
  currentBlock : List Str
  inImport : Bool
  inMock : Bool

/-- The flush made when a new statement starts while a block is open. -/
def flushOpen (st : ScanState) : ScanState :=
  if !st.currentBlock.isEmpty then
    { importBlocks :=
        if st.inImport then st.importBlocks ++ [cleanImportBlock st.currentBlock]
        else st.importBlocks,
      mockBlocks :=
        if st.inMock then st.mockBlocks ++ [join "\n".toList st.currentBlock]
        else st.mockBlocks,
      currentBlock := [], inImport := false, inMock := false }
  else st

/-- The body of the `for` loop over the lines. -/
def scanStep (st : ScanState) (line : Str) : ScanState :=
  let trimmed := trim line
  if startsWith trimmed "import ".toList then
    let st1 := flushOpen st
    { st1 with currentBlock := st1.currentBlock ++ [line], inImport := true }
  else if st.inImport && (endsWith trimmed ";".toList || endsWith trimmed "'".toList
      || endsWith trimmed "\"".toList) then
    { st with importBlocks := st.importBlocks ++ [cleanImportBlock (st.currentBlock ++ [line])],
              currentBlock := [], inImport := false }
  else if st.inImport then
    { st with currentBlock := st.currentBlock ++ [line] }
  else if startsWith trimmed "jest.mock(".toList then
    let st1 := flushOpen st
    let st2 := { st1 with currentBlock := st1.currentBlock ++ [line], inMock := true }
    if endsWith trimmed ");".toList then
      { st2 with mockBlocks := st2.mockBlocks ++ [join "\n".toList st2.currentBlock],
                 currentBlock := [], inMock := false }
    else st2
  else if st.inMock && endsWith trimmed ");".toList then
    { st with mockBlocks := st.mockBlocks ++ [join "\n".toList (st.currentBlock ++ [line])],
              currentBlock := [], inMock := false }
  else if st.inMock then
    { st with currentBlock := st.currentBlock ++ [line] }
  else st

/-- The scan of `normalizeSkeleton` over the lines of the normalised content:
the import blocks and the mock blocks it collects. -/
def scanBlocks (lines : List Str) : List Str × List Str :=
  let st := flushOpen (lines.foldl scanStep ⟨[], [], [], false, false⟩)
  (st.importBlocks, st.mockBlocks)


/-! ## `suggestTestBlocks` -/

/-- The rules of the registry `blockAlgorithms`, named by their `type`. -/
inductive RuleId where
  | render | conditional | props | eventHandlers | state | apiCalls | effects
  | errorHandling | branches | customHooks | memoization | internalFunctions
  | propTypes | context | hoc | performance
  deriving DecidableEq

/-- The registry `blockAlgorithms`, in the order of the array. -/
def blockAlgorithms : List RuleId :=
  [.render, .conditional, .props, .eventHandlers, .state, .apiCalls, .effects,
   .errorHandling, .branches, .customHooks, .memoization, .internalFunctions,
   .propTypes, .context, .hoc, .performance]

/-- The object `results.performance`, a missing field being an empty list. -/
structure Performance (F : Type) where
  missingDeps : List F
  unusedDeps : List F
  mutableDeps : List F
  inlineFunctionsInJSX : List F
  expensiveCalculationsInJSX : List F

/-- The fields of the analysis result that the guards read. A field guarded
by `Array.isArray` is `none` when it is missing or not an array;
`exportDefault` holds the truthiness of `exportDefault.isHOC`. -/
structure Results (F : Type) where
  returnedJSX : List F
  jsxElements : List F
  conditionalRendering : List F
  props : Option (List F)
  eventHandlers : Option (List F)
  stateVars : Option (List F)
  apiCalls : Option (List F)
  effectDeps : Option (List F)
  errorHandling : Option (List F)
  branches : Option (List F)
  customHooks : Option (List F)
  memoization : Option (List F)
  internalFunctions : Option (List F)
  propTypes : Option (List F)
  contexts : Option (List F)
  exportDefault : Option Bool
  performance : Option (Performance F)

/-- The guard `Array.isArray(x) && x.length`. -/
def nonEmptyArray {F : Type} : Option (List F) → Bool
  | some l => !l.isEmpty
  | none => false

/-- The member `condition` of a rule. -/
def RuleId.condition {F : Type} (r : RuleId) (results : Results F) : Bool :=
  match r with
  | .render => !results.returnedJSX.isEmpty || !results.jsxElements.isEmpty
  | .conditional => !results.conditionalRendering.isEmpty
  | .props => nonEmptyArray results.props
  | .eventHandlers => nonEmptyArray results.eventHandlers
  | .state => nonEmptyArray results.stateVars
  | .apiCalls => nonEmptyArray results.apiCalls
  | .effects => nonEmptyArray results.effectDeps
  | .errorHandling => nonEmptyArray results.errorHandling
  | .branches => nonEmptyArray results.branches
  | .customHooks => nonEmptyArray results.customHooks
  | .memoization => nonEmptyArray results.memoization
  | .internalFunctions => nonEmptyArray results.internalFunctions
  | .propTypes => nonEmptyArray results.propTypes
  | .context => nonEmptyArray results.contexts
  | .hoc => results.exportDefault == some true
  | .performance =>
    match results.performance with
    | none => false
    | some perf =>
      !perf.missingDeps.isEmpty || !perf.unusedDeps.isEmpty || !perf.mutableDeps.isEmpty
        || !perf.inlineFunctionsInJSX.isEmpty || !perf.expensiveCalculationsInJSX.isEmpty

/-- The `type` of the value the member `fn` of a rule returns: the literal
passed to `blockHelper`, or `undefined` for `generatePerformanceSuggestions`,
which returns an array. -/
def RuleId.blockType : RuleId → Option Str
  | .render => some "render".toList
  | .conditional => some "conditional".toList
  | .props => some "props".toList
  | .eventHandlers => some "eventHandlers".toList
  | .state => some "state".toList
  | .apiCalls => some "apiCalls".toList
  | .effects => some "effects".toList
  | .errorHandling => some "errorHandling".toList
  | .branches => some "branches".toList
  | .customHooks => some "customHooks".toList
  | .memoization => some "memoization".toList
  | .internalFunctions => some "internalFunctions".toList
  | .propTypes => some "propTypes".toList
  | .context => some "context".toList
  | .hoc => some "hoc".toList
  | .performance => none

/-- A value pushed to `suggestions`, as the deduplication sees it: its `type`
and `code` (`none` for `undefined`) and everything else it carries. -/
structure Block (M : Type) where
  type : Option Str
  code : Option Str
  info : M

/-- The text the generators produce, left open: for each rule the code text
(`codeLines.join('\n')`) and the other members of the value returned. -/
structure Generators (F M : Type) where
  code : RuleId → Results F → Str
  info : RuleId → Results F → M

/-- The value `fn(results)` of a rule. -/
def RuleId.fn {F M : Type} (g : Generators F M) (r : RuleId) (results : Results F) : Block M :=
  { type := r.blockType,
    code := if r = .performance then none else some (g.code r results),
    info := g.info r results }

/-- A value inside a template literal: `undefined` prints as its name. -/
def templateText : Option Str → Str
  | some s => s
  | none => "undefined".toList

/-- The key of the deduplication. -/
def blockKey {M : Type} (block : Block M) : Str :=
  templateText block.type ++ "|".toList ++ templateText block.code

/-- The `filter` with the set `seen`. -/
def dedupeBlocks {M : Type} : List Str → List (Block M) → List (Block M)
  | _, [] => []
  | seen, block :: rest =>
    if seen.contains (blockKey block) then dedupeBlocks seen rest
    else block :: dedupeBlocks (blockKey block :: seen) rest

/-- The function `suggestTestBlocks(context)`. -/
def suggestTestBlocks {F M : Type} (g : Generators F M) (context : Results F) : List (Block M) :=
  let suggestions := blockAlgorithms.foldl
    (fun suggestions r =>
      if r.condition context then suggestions ++ [r.fn g context] else suggestions) []
  dedupeBlocks [] suggestions

/-- The `(type, code)` pair of a block. -/
def Block.pair {M : Type} (block : Block M) : Option Str × Option Str := (block.type, block.code)

/-- The blocks produced by the rules whose guard holds, in registry order. -/
def producedBlocks {F M : Type} (g : Generators F M) (context : Results F) : List (Block M) :=
  (blockAlgorithms.filter (fun r => r.condition context)).map (fun r => r.fn g context)

/-- A list of blocks without every block whose pair equals that of a block
in `earlier` or of an earlier block of the list. -/
def dropRepeatedPairs {M : Type} :
    List (Option Str × Option Str) → List (Block M) → List (Block M)
  | _, [] => []
  | earlier, block :: rest =>
    if block.pair ∈ earlier then dropRepeatedPairs earlier rest
    else block :: dropRepeatedPairs (earlier ++ [block.pair]) rest


/-! ## Notions used to state the properties -/

/-- The expression `/from\s+['"]([^'"]+)['"]/`: the module an import
statement names after `from`. -/
def reModuleAfterFrom : Re :=
  .seq [.lit "from".toList, .plus .space, .quote, .group 1 (.plus .notQuote), .quote]

/-- The module a line names after `from`. -/
def moduleAfterFrom (line : Str) : Option Str :=
  (reModuleAfterFrom.exec line).bind (fun m => m.get 1)

/-- The modules named by the import statements of a text, in the order of
its lines. -/
def importModulesOf (text : Str) : List Str :=
  ((splitOnChar '\n' text).filter (fun l => startsWith l "import ".toList)).filterMap
    moduleAfterFrom

/-- Every registered block starts with the line that opened it. -/
def MocksStartWithCall (o : MockObj) : Prop :=
  ∀ e ∈ o.own, startsWith e.2.code "jest.mock(".toList = true

/-- The block being read starts with the line that opened it. -/
def PendingStartsWithCall (pending : Option (Option Str × List Str)) : Prop :=
  ∀ m revLines, pending = some (m, revLines) →
    ∃ first tl, revLines.reverse = first :: tl ∧ startsWith first "jest.mock(".toList = true


/-! ## JavaScript values -/

/-- A JavaScript value: a primitive, or an object (array, function, plain
object) of a type `O` left open. Numbers are of a type `N` left open, whose
equality is the one of `Array.prototype.includes`. -/
inductive JSVal (N O : Type) where
  | undefined : JSVal N O
  | null : JSVal N O
  | bool (b : Bool) : JSVal N O
  | num (n : N) : JSVal N O
  | str (s : Str) : JSVal N O
  | obj (o : O) : JSVal N O
  deriving DecidableEq

/-- What the host provides: the arithmetic and the printing of numbers, the
printing of objects and the case mapping of strings. Objects are taken to be
serialisable by `JSON.stringify`. -/
structure Host (N O : Type) where
  /-- The sum `value + 1`. -/
  plusOne : N → N
  /-- The difference `value - 1`. -/
  minusOne : N → N
  /-- The number `42`. -/
  fortyTwo : N
  /-- Whether a number is truthy (neither zero nor `NaN`). -/
  numTruthy : N → Bool
  /-- `String(n)`. -/
  numToString : N → Str
  /-- `JSON.stringify(n)`. -/
  numJson : N → Str
  /-- `String(o)`. -/
  objToString : O → Str
  /-- `JSON.stringify(o)`: a string or `undefined`. -/
  objJson : O → Option Str
  /-- `s.toLowerCase()`. -/
  toLowerCase : Str → Str

/-- Whether a value is truthy. -/
def JSVal.truthy {N O : Type} (host : Host N O) : JSVal N O → Bool
  | .undefined => false
  | .null => false
  | .bool b => b
  | .num n => host.numTruthy n
  | .str s => !s.isEmpty
  | .obj _ => true

/-- The operator `a || b`. -/
def JSVal.or {N O : Type} (host : Host N O) (a b : JSVal N O) : JSVal N O :=
  if a.truthy host then a else b

/-- `String(v)`. -/
def JSVal.toStr {N O : Type} (host : Host N O) : JSVal N O → Str
  | .undefined => "undefined".toList
  | .null => "null".toList
  | .bool b => if b then "true".toList else "false".toList
  | .num n => host.numToString n
  | .str s => s
  | .obj o => host.objToString o

/-- A hexadecimal digit, in lower case. -/
def hexDigit (n : Nat) : Char :=
  if n < 10 then Char.ofNat (48 + n) else Char.ofNat (87 + n)

/-- A character inside a JSON string. -/
def jsonChar (c : Char) : Str :=
  let n := c.toNat
  if n == 0x08 then "\\b".toList
  else if n == 0x09 then "\\t".toList
  else if n == 0x0A then "\\n".toList
  else if n == 0x0C then "\\f".toList
  else if n == 0x0D then "\\r".toList
  else if n == 0x22 then "\\\"".toList
  else if n == 0x5C then "\\\\".toList
  else if n < 0x20 then "\\u00".toList ++ [hexDigit (n / 16), hexDigit (n % 16)]
  else [c]

/-- `JSON.stringify(s)` for a string. -/
def jsonQuote (s : Str) : Str := '"' :: s.flatMap jsonChar ++ ['"']

/-- `JSON.stringify(v)`. -/
def jsonStringify {N O : Type} (host : Host N O) : JSVal N O → JSVal N O
  | .undefined => .undefined
  | .null => .str "null".toList
  | .bool b => .str (if b then "true".toList else "false".toList)
  | .num n => .str (host.numJson n)
  | .str s => .str (jsonQuote s)
  | .obj o =>
    match host.objJson o with
    | some t => .str t
    | none => .undefined

/-! ## `getExampleValue` -/

/-- The members of a definition object that `getExampleValue` reads. The
members `possibleValues` and `enum` are `none` when they are no array. -/
structure Def (N O : Type) where
  type : JSVal N O
  valueType : JSVal N O
  tsType : JSVal N O
  name : JSVal N O
  key : JSVal N O
  exampleArray : JSVal N O
  possibleValues : Option (List (JSVal N O))
  defaultValue : JSVal N O
  enum : Option (List (JSVal N O))
  default : JSVal N O

/-- The constant `NAME_STRING`. -/
def NAME_STRING : List Str := ["name", "label", "text", "title"].map String.toList

/-- The constant `NAME_NUMBER`. -/
def NAME_NUMBER : List Str := ["count", "age", "total", "amount", "id"].map String.toList

/-- The constant `NAME_BOOLEAN`. -/
def NAME_BOOLEAN : List Str := ["is", "has", "enabled", "active"].map String.toList

/-- The constant `NAME_ARRAY`. -/
def NAME_ARRAY : List Str := ["list", "items", "values"].map String.toList

/-- The constant `NAME_OBJECT`. -/
def NAME_OBJECT : List Str := ["data", "info", "meta"].map String.toList

/-- The constant `TYPE_STRING`. -/
def TYPE_STRING : List Str := ["string"].map String.toList

/-- The constant `TYPE_NUMBER`. -/
def TYPE_NUMBER : List Str := ["number", "int", "float", "double"].map String.toList

/-- The constant `TYPE_BOOLEAN`. -/
def TYPE_BOOLEAN : List Str := ["boolean", "bool"].map String.toList

/-- The constant `TYPE_ARRAY`. -/
def TYPE_ARRAY : List Str := ["array"].map String.toList

/-- The constant `TYPE_OBJECT`. -/
def TYPE_OBJECT : List Str := ["object"].map String.toList

/-- The constant `TYPE_FUNCTION`. -/
def TYPE_FUNCTION : List Str := ["function", "func", "handler", "callback"].map String.toList

/-- The function `getGeneralExample(type, nameLower)`. -/
def getGeneralExample {N O : Type} (host : Host N O) (type nameLower : Str) : JSVal N O :=
  if TYPE_STRING.any (fun t => includes type t) then .str "\"example\"".toList
  else if TYPE_NUMBER.any (fun t => includes type t) then .num host.fortyTwo
  else if TYPE_BOOLEAN.any (fun t => includes type t) then .bool true
  else if TYPE_ARRAY.any (fun t => includes type t) then .str "[1, 2, 3]".toList
  else if TYPE_OBJECT.any (fun t => includes type t) then .str "\x7b foo: \"bar\" \x7d".toList
  else if NAME_STRING.any (fun pat => includes nameLower pat) then .str "\"example\"".toList
  else if NAME_NUMBER.any (fun pat => includes nameLower pat) then .num host.fortyTwo
  else if NAME_BOOLEAN.any (fun pat => startsWith nameLower pat) then .bool true
  else if NAME_ARRAY.any (fun pat => includes nameLower pat) then .str "[1, 2, 3]".toList
  else if NAME_OBJECT.any (fun pat => includes nameLower pat) then
    .str "\x7b foo: \"bar\" \x7d".toList
  else .str "null".toList

/-- The function `getRenderExample(type, nameLower)`. -/
def getRenderExample {N O : Type} (host : Host N O) (type nameLower : Str) : JSVal N O :=
  if nameLower == "children".toList then
    .str "<span data-testid=\"test-child\">Test</span>".toList
  else getGeneralExample host type nameLower

/-- The function `getHandlerExample(type, nameLower)`. -/
def getHandlerExample {N O : Type} (type nameLower : Str) : JSVal N O :=
  if TYPE_FUNCTION.any (fun t => includes type t) then .str "jest.fn()".toList
  else if includes nameLower "handler".toList || includes nameLower "callback".toList
      || startsWith nameLower "on".toList then .str "jest.fn()".toList
  else .str "jest.fn()".toList

/-- The first element of a member that is a non-empty array. -/
def firstOfArray {N O : Type} : Option (List (JSVal N O)) → Option (JSVal N O)
  | some (v :: _) => some v
  | _ => none

/-- The function `getExampleValue(def, usageType)`; `def` is `none` when the
argument is no object. -/
def getExampleValue {N O : Type} (host : Host N O) (d : Option (Def N O)) (usageType : Str) :
    JSVal N O :=
  match d with
  | none => .undefined
  | some d =>
    let typeRaw := ((d.type.or host d.valueType).or host d.tsType).or host (.str [])
    let type := host.toLowerCase (typeRaw.toStr host)
    let name := (d.name.or host d.key).or host (.str [])
    let nameLower := host.toLowerCase (name.toStr host)
    if d.exampleArray.truthy host then d.exampleArray
    else
      match firstOfArray d.possibleValues with
      | some v => jsonStringify host v
      | none =>
        match d.defaultValue with
        | .undefined =>
          match firstOfArray d.enum with
          | some v => jsonStringify host v
          | none =>
            match d.default with
            | .undefined =>
              if usageType == "render".toList then getRenderExample host type nameLower
              else if usageType == "handler".toList then getHandlerExample type nameLower
              else getGeneralExample host type nameLower
            | v => jsonStringify host v
        | v => jsonStringify host v

/-! ## `compareHookDependencies` and `getUsedVariablesInFunction` -/

/-- The report of `compareHookDependencies`. -/
structure HooksDependences where
  missingDeps : List Str
  unusedDeps : List Str
  mutableDeps : List Str
  deriving DecidableEq

/-- The function `compareHookDependencies(usedVars, declaredDeps)`; `name` is
the member `name` of a fact. -/
def compareHookDependencies {F : Type} (name : F → Str) (usedVars declaredDeps : List F) :
    HooksDependences :=
  let usedNames := uniq (usedVars.map name)
  let declaredNames := uniq (declaredDeps.map name)
  { missingDeps := usedNames.filter (fun n => !declaredNames.contains n),
    unusedDeps := declaredNames.filter (fun n => !usedNames.contains n),
    mutableDeps :=
      (declaredDeps.filter (fun dep =>
        includes (name dep) "[".toList || includes (name dep) "\x7b".toList
          || includes (name dep) "(".toList || includes (name dep) ".".toList)).map name }

/-- The argument of `getUsedVariablesInFunction`, as the function reads it:
whether it has a truthy member `body`, and the facts for the identifiers (not
in a declaring position) and member accesses that the walk of the node visits,
in order. -/
structure FunctionNode (F : Type) where
  hasBody : Bool
  references : List F

/-- The function `getUsedVariablesInFunction(fnNode)`. The collection `usedVars`
is a `Set`, which has no method `push`: the first reference visited throws. -/
def getUsedVariablesInFunction {F : Type} (fnNode : Option (FunctionNode F)) :
    Option (List F) :=
  match fnNode with
  | none => some []
  | some node =>
    if !node.hasBody then some []
    else if node.references.isEmpty then some []
    else none

/-! ## `analyzeASTHelper` -/

/-- The entry point that `findMainComponent` returns: a record made of the
members listed here (and `params`, `loc`), without a member `body`. -/
structure MainComponent where
  type : Str
  name : Option Str
  isHOC : Bool
  hocName : Option Str
  wrappedComponent : Option Str
  deriving DecidableEq

/-- The entry point as the argument of `getUsedVariablesInFunction`. -/
def MainComponent.asFunctionNode {F : Type} (_ : MainComponent) : FunctionNode F :=
  { hasBody := false, references := [] }

/-- What the detectors called by `analyzeASTHelper` return for a file; each
detector walks the tree with the external traverser and returns an array. A
value stands for a run in which every detector call returned: a file on which
a detector throws, as `findPropValueHints` can, has none. -/
structure Detected (F : Type) where
  customHooks : List F
  memoization : List F
  propTypes : List F
  stateVars : List F
  effectDeps : List F
  returnedJSX : List F
  eventHandlers : List F
  apiCalls : List F
  errorHandling : List F
  conditionalRendering : List F
  mainComponent : MainComponent
  jsxElements : List F
  internalFunctions : List F
  props : List F
  branches : List F
  inlineFunctionsInJSX : List F
  expensiveCalculationsInJSX : List F
  contexts : List F

/-- The object `resultados`: the members that the guards of the rules read
(`results`, in which `exportDefault` and `performance` are not set) and those
about the entry point, the hook dependencies and the rendered markup. -/
structure Bundle (F : Type) where
  results : Results F
  mainComponent : MainComponent
  usedVariablesInFunction : List F
  hooksDependences : HooksDependences
  inlineFunctionsInJSX : List F
  expensiveCalculationsInJSX : List F

/-- The function `analyzeASTHelper(ast)`, from what the detectors return, for
a run in which every detector call returned; `none` stands for a `TypeError`
thrown after that, by `getUsedVariablesInFunction`. -/
def analyzeASTHelper {F : Type} (name : F → Str) (d : Detected F) : Option (Bundle F) :=
  match getUsedVariablesInFunction (some (d.mainComponent.asFunctionNode : FunctionNode F)) with
  | none => none
  | some usedVariablesInFunction =>
    some
      { results :=
          { returnedJSX := d.returnedJSX,
            jsxElements := d.jsxElements,
            conditionalRendering := d.conditionalRendering,
            props := some d.props,
            eventHandlers := some d.eventHandlers,
            stateVars := some d.stateVars,
            apiCalls := some d.apiCalls,
            effectDeps := some d.effectDeps,
            errorHandling := some d.errorHandling,
            branches := some d.branches,
            customHooks := some d.customHooks,
            memoization := some d.memoization,
            internalFunctions := some d.internalFunctions,
            propTypes := some d.propTypes,
            contexts := some d.contexts,
            exportDefault := none,
            performance := none },
        mainComponent := d.mainComponent,
        usedVariablesInFunction := usedVariablesInFunction,
        hooksDependences := compareHookDependencies name usedVariablesInFunction d.effectDeps,
        inlineFunctionsInJSX := d.inlineFunctionsInJSX,
        expensiveCalculationsInJSX := d.expensiveCalculationsInJSX }

/-! ## `findPropValueHints` -/

/-- A value of a hint: a string, a number or a boolean. -/
inductive HintVal (N : Type) where
  | str (s : Str) : HintVal N
  | num (n : N) : HintVal N
  | bool (b : Bool) : HintVal N
  deriving DecidableEq

/-- An expression node, as the visitors of `findPropValueHints` read it. -/
inductive Node (N : Type) where
  /-- An `Identifier`. -/
  | identifier (name : Str) : Node N
  /-- A `StringLiteral`. -/
  | stringLiteral (value : Str) : Node N
  /-- A `NumericLiteral`. -/
  | numericLiteral (value : N) : Node N
  /-- A `BooleanLiteral`. -/
  | booleanLiteral (value : Bool) : Node N
  /-- A `MemberExpression` with its object and the name of its property. -/
  | memberExpression (object : Node N) (property : Option Str) : Node N
  /-- Any other node, with its member `value` when that is a string, a number
  or a boolean. -/
  | other (value : Option (HintVal N)) : Node N

/-- The member `value` of a node, when it is a string, a number or a boolean. -/
def Node.value {N : Type} : Node N → Option (HintVal N)
  | .stringLiteral s => some (.str s)
  | .numericLiteral n => some (.num n)
  | .booleanLiteral b => some (.bool b)
  | .other v => v
  | _ => none

/-- The name of a node that is an `Identifier`. -/
def Node.identifierName {N : Type} : Node N → Option Str
  | .identifier name => some name
  | _ => none

/-- A node for which `findPropValueHints` has a visitor, with the members the
visitor reads; for a `SwitchCase`, `discriminant` is the one of the enclosing
`switch`. -/
inductive Visited (N : Type) where
  | callExpression (callee : Node N) (arguments : List (Node N)) : Visited N
  | binaryExpression (operator : Str) (left right : Node N) : Visited N
  | switchCase (test : Option (Node N)) (discriminant : Node N) : Visited N
  | assignmentPattern (left right : Node N) : Visited N
  | unaryExpression (operator : Str) (argument : Node N) : Visited N
  | ifStatement (test : Node N) : Visited N

/-- An entry of `hints`; a member that is not set is `none`. -/
structure Hint (N : Type) where
  exampleArray : Option Str
  possibleValues : Option (List (HintVal N))
  defaultValue : Option (HintVal N)
  deriving DecidableEq

/-- How a call of `findPropValueHints` can fail: with a `TypeError`, or by
writing a member of a built-in object (`Object.prototype` or one of its
functions) found under an inherited name, after which the model stops. -/
inductive HintFailure where
  | typeError : HintFailure
  | builtinModified : HintFailure
  deriving DecidableEq

/-- The expression `/class|option|list|items|array/i`. -/
def reArrayLikeName : Re :=
  let ci : Str → Re := fun s =>
    .seq (s.map (fun c => Re.set (fun d => d == c || d == c.toUpper)))
  .alt (ci "class".toList) (.alt (ci "option".toList) (.alt (ci "list".toList)
    (.alt (ci "items".toList) (ci "array".toList))))

/-- The statements
`if (!hints[propName]) hints[propName] = { possibleValues: [] };
if (!hints[propName].possibleValues.includes(value)) hints[propName].possibleValues.push(value);`.
An entry without `possibleValues`, and a value inherited from
`Object.prototype`, have no `possibleValues` to call `includes` on. -/
def addPossibleValue {N : Type} [DecidableEq N] (hints : Dict (Hint N)) (propName : Str)
    (value : HintVal N) : Except HintFailure (Dict (Hint N)) :=
  match hints.own propName with
  | some h =>
    match h.possibleValues with
    | some vs =>
      .ok (hints.put propName
        { h with possibleValues := some (if vs.contains value then vs else vs ++ [value]) })
    | none => .error .typeError
  | none =>
    if objectPrototypeKeys.contains propName then .error .typeError
    else .ok (hints.put propName ⟨none, some [value], none⟩)

/-- The statements of the `.map` branch: the entry is created empty when
missing, and `exampleArray` is set when it has none. -/
def addExampleArray {N : Type} (hints : Dict (Hint N)) (propName : Str) :
    Except HintFailure (Dict (Hint N)) :=
  let sample : Str :=
    if reArrayLikeName.test propName then "[\x7b id: 1, label: \"Example\" \x7d]".toList
    else "[1, 2, 3]".toList
  match hints.own propName with
  | some h =>
    match h.exampleArray with
    | some _ => .ok hints
    | none => .ok (hints.put propName { h with exampleArray := some sample })
  | none =>
    if objectPrototypeKeys.contains propName then .error .builtinModified
    else .ok (hints.put propName ⟨some sample, none, none⟩)

/-- The statements of the `AssignmentPattern` visitor: the entry is created
empty when missing, and `defaultValue` is set. -/
def setDefaultValue {N : Type} (hints : Dict (Hint N)) (propName : Str) (value : HintVal N) :
    Except HintFailure (Dict (Hint N)) :=
  match hints.own propName with
  | some h => .ok (hints.put propName { h with defaultValue := some value })
  | none =>
    if objectPrototypeKeys.contains propName then .error .builtinModified
    else .ok (hints.put propName ⟨none, none, some value⟩)

/-- The operators of the first and third branch of the `BinaryExpression`
visitor. -/
def isEqualityOperator (operator : Str) : Bool :=
  operator == "===".toList || operator == "==".toList || operator == "!==".toList
    || operator == "!=".toList

/-- The example of the second branch of the `BinaryExpression` visitor. -/
def relationalExample {N O : Type} (host : Host N O) (operator : Str) (value : N) : N :=
  if operator == "<".toList || operator == "<=".toList then host.minusOne value
  else host.plusOne value

/-- The visitor `CallExpression`. -/
def visitCallExpression {N : Type} [DecidableEq N] (hints : Dict (Hint N)) (callee : Node N)
    (arguments : List (Node N)) : Except HintFailure (Dict (Hint N)) :=
  match callee with
  | .memberExpression object property =>
    let afterMap : Except HintFailure (Dict (Hint N)) :=
      match property, object with
      | some p, .identifier propName =>
        if p == "map".toList then addExampleArray hints propName else .ok hints
      | _, _ => .ok hints
    match afterMap with
    | .error e => .error e
    | .ok hints1 =>
      match property, object, arguments with
      | some p, .identifier propName, .stringLiteral value :: _ =>
        if ["includes", "indexOf", "startsWith", "endsWith"].contains (String.mk p) then
          addPossibleValue hints1 propName (.str value)
        else .ok hints1
      | _, _, _ => .ok hints1
  | _ => .ok hints

/-- The visitor `BinaryExpression`. -/
def visitBinaryExpression {N O : Type} [DecidableEq N] (host : Host N O)
    (hints : Dict (Hint N)) (operator : Str) (left right : Node N) :
    Except HintFailure (Dict (Hint N)) :=
  match left with
  | .identifier propName =>
    match right.value with
    | some (.str value) =>
      if isEqualityOperator operator then addPossibleValue hints propName (.str value)
      else .ok hints
    | some (.num value) =>
      if ["<", ">", "<=", ">="].contains (String.mk operator) then
        addPossibleValue hints propName (.num (relationalExample host operator value))
      else .ok hints
    | some (.bool value) =>
      if isEqualityOperator operator then addPossibleValue hints propName (.bool value)
      else .ok hints
    | none => .ok hints
  | _ => .ok hints

/-- The visitor of one node. -/
def visitNode {N O : Type} [DecidableEq N] (host : Host N O) (hints : Dict (Hint N)) :
    Visited N → Except HintFailure (Dict (Hint N))
  | .callExpression callee arguments => visitCallExpression hints callee arguments
  | .binaryExpression operator left right => visitBinaryExpression host hints operator left right
  | .switchCase test discriminant =>
    match test.bind Node.value, discriminant with
    | some value, .identifier propName => addPossibleValue hints propName value
    | _, _ => .ok hints
  | .assignmentPattern left right =>
    match left, right.value with
    | .identifier propName, some value => setDefaultValue hints propName value
    | _, _ => .ok hints
  | .unaryExpression operator argument =>
    match argument with
    | .identifier propName =>
      if operator == "!".toList then addPossibleValue hints propName (.bool false)
      else .ok hints
    | _ => .ok hints
  | .ifStatement test =>
    match test with
    | .identifier propName => addPossibleValue hints propName (.bool true)
    | _ => .ok hints

/-- The walk over the nodes, in the order in which the traverser visits them. -/
def visitAll {N O : Type} [DecidableEq N] (host : Host N O) :
    List (Visited N) → Dict (Hint N) → Except HintFailure (Dict (Hint N))
  | [], hints => .ok hints
  | node :: rest, hints =>
    match visitNode host hints node with
    | .error e => .error e
    | .ok hints1 => visitAll host rest hints1

/-- The function `findPropValueHints(ast)`, from the nodes of the tree that
have a visitor, in the order of the walk. -/
def findPropValueHints {N O : Type} [DecidableEq N] (host : Host N O)
    (visited : List (Visited N)) : Except HintFailure (Dict (Hint N)) :=
  visitAll host visited []

/-! ## `cleanSuggestedTestBlocks` -/

/-- An entry of `meta.contextsHelpers`: the members of its `contextMeta` that
the deduplication reads (`none` for `undefined`) and everything else. -/
structure Helper (Q : Type) where
  importLine : Option Str
  mockLine : Option Str
  mockVarName : Option Str
  rest : Q
  deriving DecidableEq

/-- The member `meta` of a block, as `cleanSuggestedTestBlocks` reads it:
`contextsHelpers` when it is an array, the text `JSON.stringify(mocksObjs)`
when `mocksObjs` is an array, and `usesTestingLibrary`. -/
structure BlockMeta (Q : Type) where
  contextsHelpers : Option (List (Helper Q))
  mocksObjs : Option Str
  usesTestingLibrary : Option Bool
  deriving DecidableEq

/-- A block, as `cleanSuggestedTestBlocks` reads it. -/
structure SuggestedBlock (Q P : Type) where
  meta : Option (BlockMeta Q)
  type : Option Str
  code : Option Str
  rest : P
  deriving DecidableEq

/-- `arr.findIndex(x => x.contextMeta?.importLine === key)`. -/
def findImportLine {Q : Type} (key : Str) : List (Helper Q) → Option Nat
  | [] => none
  | x :: rest =>
    if x.importLine == some key then some 0 else (findImportLine key rest).map (· + 1)

/-- Worker of `uniqueHelpers`: `i` is the index of the head of the list. -/
def uniqueHelpersAux {Q : Type} (arr : List (Helper Q)) : Nat → List (Helper Q) → List (Helper Q)
  | _, [] => []
  | i, h :: rest =>
    if findImportLine (h.importLine.getD []) arr == some i then
      h :: uniqueHelpersAux arr (i + 1) rest
    else uniqueHelpersAux arr (i + 1) rest

/-- The filter of `contextsHelpers` by `importLine`. -/
def uniqueHelpers {Q : Type} (arr : List (Helper Q)) : List (Helper Q) :=
  uniqueHelpersAux arr 0 arr

/-- A boolean inside a template literal. -/
def templateBool : Option Bool → Str
  | some true => "true".toList
  | some false => "false".toList
  | none => "undefined".toList

/-- The end of every key:
`|usesTestingLibrary:${...}|type:${block.type}|code:${(block.code||'').slice(0,40)}`,
in UTF-16 code units (`slice` counts code units). -/
def keyTail (usesTestingLibrary : Option Bool) (type code : Option Str) : List Nat :=
  units ("|usesTestingLibrary:".toList ++ templateBool usesTestingLibrary ++ "|type:".toList
      ++ templateText type ++ "|code:".toList)
    ++ (units (code.getD [])).take 40

/-- The text of a helper in the key. -/
def helperKey {Q : Type} (h : Helper Q) : Str :=
  templateText h.importLine ++ "|".toList ++ templateText h.mockLine ++ "|".toList
    ++ templateText h.mockVarName

/-- The key `uniqueKey` of a block with the member `meta`. -/
def uniqueKey {Q : Type} (m : BlockMeta Q) (type code : Option Str) : List Nat :=
  match m.contextsHelpers with
  | some helpers =>
    units (join "||".toList ((uniqueHelpers helpers).map helperKey))
      ++ keyTail m.usesTestingLibrary type code
  | none =>
    match m.mocksObjs with
    | some mocksKey =>
      units ("mocksObjs:".toList ++ mocksKey) ++ keyTail m.usesTestingLibrary type code
    | none => units "noHelpers".toList ++ keyTail m.usesTestingLibrary type code

/-- The key of a block, when it has the member `meta`. -/
def SuggestedBlock.key {Q P : Type} (block : SuggestedBlock Q P) : Option (List Nat) :=
  block.meta.map (fun m => uniqueKey m block.type block.code)

/-- The block after the body of the `forEach`: its `contextsHelpers` are
replaced by the filtered ones. -/
def SuggestedBlock.cleaned {Q P : Type} (block : SuggestedBlock Q P) : SuggestedBlock Q P :=
  { block with
    meta := block.meta.map (fun m =>
      { m with contextsHelpers := m.contextsHelpers.map uniqueHelpers }) }

/-- The body of the `forEach`: `st.1` is `seen`, `st.2` is `cleanedBlocks`. -/
def cleanStep {Q P : Type} (st : List (List Nat) × List (SuggestedBlock Q P))
    (block : SuggestedBlock Q P) : List (List Nat) × List (SuggestedBlock Q P) :=
  match block.key with
  | none => (st.1, st.2 ++ [block])
  | some k =>
    if st.1.contains k then st else (st.1 ++ [k], st.2 ++ [block.cleaned])

/-- The function `cleanSuggestedTestBlocks(suggestedTestBlocks)`. -/
def cleanSuggestedTestBlocks {Q P : Type} (suggestedTestBlocks : List (SuggestedBlock Q P)) :
    List (SuggestedBlock Q P) :=
  (suggestedTestBlocks.foldl cleanStep ([], [])).2

/-! ## The contexts of `suggestContextBlock` -/

/-- An entry of `ast.contexts`: the members that `getExampleValue` reads
(`toDef`), those that `suggestContextBlock` reads, and everything else.
`isExported` is `some false` when the member is `false`, `some true` when it
is `true`. -/
structure ContextFact (N O P : Type) extends Def N O where
  isProvider : Bool
  isHook : Bool
  valueShape : JSVal N O
  created : Bool
  isExported : Option Bool
  rest : P

/-- The members of the analysis result that `suggestContextBlock` reads for
`meta.contexts`: `contexts` when it is an array, and the lookup
`contextDefaultValues[name]`. -/
structure ContextView (N O P : Type) where
  contexts : Option (List (ContextFact N O P))
  contextDefaultValues : Str → JSVal N O

/-- An entry of `meta.contexts`: the fact, with the members `valueShape`,
`warning` and `isExported` set by the two `map` calls. -/
structure EnrichedContext (N O P : Type) where
  fact : ContextFact N O P
  valueShape : JSVal N O
  warning : Option Str
  isExported : Option Bool

/-- The member `valueShape` set by the first `map`. -/
def enrichedValueShape {N O P : Type} (host : Host N O) (contextDefaultValues : Str → JSVal N O)
    (ctx : ContextFact N O P) : JSVal N O :=
  let recorded := contextDefaultValues (ctx.name.toStr host)
  let fallback :=
    (ctx.valueShape.or host ctx.defaultValue).or host
      (getExampleValue host (some ctx.toDef) "context".toList)
  if ctx.created then
    match recorded with
    | .undefined => fallback
    | v => v
  else fallback

/-- The text of the warning for a context that is not exported. -/
def exportWarning {N O : Type} (host : Host N O) (name : JSVal N O) : Str :=
  "// ⚠️ WARNING: Context '".toList ++ name.toStr host
    ++ "' is not exported as a named export.\n// This may cause test failures. Consider exporting it: 'export const ".toList
    ++ name.toStr host ++ " = ...'".toList

/-- The member `contexts` of the `meta` of the block that `suggestContextBlock`
returns. -/
def metaContexts {N O P : Type} (host : Host N O) (ast : ContextView N O P) :
    List (EnrichedContext N O P) :=
  let contexts :=
    match ast.contexts with
    | some cs => cs.filter (fun (ctx : ContextFact N O P) => ctx.isProvider)
    | none => []
  contexts.map (fun (ctx : ContextFact N O P) =>
    { fact := ctx,
      valueShape := enrichedValueShape host ast.contextDefaultValues ctx,
      warning := if ctx.isExported == some false then some (exportWarning host ctx.name) else none,
      isExported := ctx.isExported })

/-! ## Notions used to state the properties of the analysis -/

/-- A host for the examples: integers as numbers (the arithmetic of JavaScript
numbers is exact on integers below `2^53` in magnitude), no objects but plain
empty ones, and the case mapping of ASCII letters. -/
def sampleHost : Host Int Unit :=
  { plusOne := fun n => n + 1,
    minusOne := fun n => n - 1,
    fortyTwo := 42,
    numTruthy := fun n => n != 0,
    numToString := fun n => (toString n).toList,
    numJson := fun n => (toString n).toList,
    objToString := fun _ => "[object Object]".toList,
    objJson := fun _ => some "\x7b\x7d".toList,
    toLowerCase := fun s => s.map Char.toLower }

/-- A definition object without any of the members that `getExampleValue`
reads. -/
def Def.blank {N O : Type} : Def N O :=
  { type := .undefined, valueType := .undefined, tsType := .undefined, name := .undefined,
    key := .undefined, exampleArray := .undefined, possibleValues := none,
    defaultValue := .undefined, enum := none, default := .undefined }

/-- The lower-cased text of the declared type, as `getExampleValue` computes
it. -/
def Def.typeText {N O : Type} (host : Host N O) (d : Def N O) : Str :=
  host.toLowerCase ((((d.type.or host d.valueType).or host d.tsType).or host (.str [])).toStr host)

/-- The lower-cased text of the name, as `getExampleValue` computes it. -/
def Def.nameText {N O : Type} (host : Host N O) (d : Def N O) : Str :=
  host.toLowerCase (((d.name.or host d.key).or host (.str [])).toStr host)

/-- The hints of a definition in their order of priority, each with the value
it gives when it applies: the example array; the JSON text of the first
possible value; the JSON text of the default value; the JSON text of the first
enumerated value; the JSON text of the static default. -/
def hintCandidates {N O : Type} (host : Host N O) (d : Def N O) : List (Option (JSVal N O)) :=
  [ if d.exampleArray.truthy host then some d.exampleArray else none,
    (firstOfArray d.possibleValues).map (jsonStringify host),
    match d.defaultValue with
    | .undefined => none
    | v => some (jsonStringify host v),
    (firstOfArray d.enum).map (jsonStringify host),
    match d.default with
    | .undefined => none
    | v => some (jsonStringify host v) ]

/-- The value of the first hint that applies. -/
def firstHint {N O : Type} (host : Host N O) (d : Def N O) : Option (JSVal N O) :=
  (hintCandidates host d).findSome? id

/-- A rule of the generic heuristic: whether it reads the type or the name,
whether a token must be a prefix or may occur anywhere, its tokens and its
value. -/
structure ExampleRule (N O : Type) where
  onType : Bool
  asPrefix : Bool
  tokens : List Str
  value : JSVal N O

/-- Whether a rule matches a type and a name. -/
def ExampleRule.applies {N O : Type} (r : ExampleRule N O) (type nameLower : Str) : Bool :=
  r.tokens.any (fun t =>
    if r.asPrefix then startsWith (if r.onType then type else nameLower) t
    else includes (if r.onType then type else nameLower) t)

/-- The rules of the generic heuristic in their order, for given tokens of
the number and boolean types. -/
def exampleRulesWith {N O : Type} (host : Host N O) (numberTokens booleanTokens : List Str) :
    List (ExampleRule N O) :=
  [ ⟨true, false, ["string".toList], .str "\"example\"".toList⟩,
    ⟨true, false, numberTokens, .num host.fortyTwo⟩,
    ⟨true, false, booleanTokens, .bool true⟩,
    ⟨true, false, ["array".toList], .str "[1, 2, 3]".toList⟩,
    ⟨true, false, ["object".toList], .str "\x7b foo: \"bar\" \x7d".toList⟩,
    ⟨false, false, ["name", "label", "text", "title"].map String.toList,
      .str "\"example\"".toList⟩,
    ⟨false, false, ["count", "age", "total", "amount", "id"].map String.toList,
      .num host.fortyTwo⟩,
    ⟨false, true, ["is", "has", "enabled", "active"].map String.toList, .bool true⟩,
    ⟨false, false, ["list", "items", "values"].map String.toList, .str "[1, 2, 3]".toList⟩,
    ⟨false, false, ["data", "info", "meta"].map String.toList,
      .str "\x7b foo: \"bar\" \x7d".toList⟩ ]

/-- The value of the first rule that matches, or the text `null`. -/
def firstRuleValue {N O : Type} (rules : List (ExampleRule N O)) (type nameLower : Str) :
    JSVal N O :=
  match rules.find? (fun r => r.applies type nameLower) with
  | some r => r.value
  | none => .str "null".toList

/-- The rules with the type tokens `string`, `number`, `boolean`, `array`,
`object` only. -/
def exampleRulesFiveTokens {N O : Type} (host : Host N O) : List (ExampleRule N O) :=
  exampleRulesWith host ["number".toList] ["boolean".toList]

/-- The rules with the type tokens of the source: `number`, `int`, `float`,
`double` for a number and `boolean`, `bool` for a boolean. -/
def exampleRules {N O : Type} (host : Host N O) : List (ExampleRule N O) :=
  exampleRulesWith host (["number", "int", "float", "double"].map String.toList)
    (["boolean", "bool"].map String.toList)

/-- A context fact with the given name, kind and value shape, and no other
member set. -/
def ContextFact.simple {N O : Type} (name : Str) (isProvider isHook : Bool)
    (valueShape : JSVal N O) : ContextFact N O Unit :=
  { toDef := { (Def.blank : Def N O) with name := .str name },
    isProvider := isProvider, isHook := isHook, valueShape := valueShape, created := false,
    isExported := some true, rest := () }


/-! ## `findExportDefault` and `findMainComponent` -/

/-- The entry point with the members `params` and `loc`; a member that is not
set is `none`. -/
structure EntryPoint (L : Type) extends MainComponent where
  params : Option (List (Option Str))
  loc : Option L
  deriving DecidableEq

/-- The initialiser of a declarator, as `findMainComponent` reads it: an arrow
function or a function expression with the names of its parameters
(`p.name`, `undefined` for a pattern), or anything else. -/
inductive Init where
  | arrowFunctionExpression (params : List (Option Str)) : Init
  | functionExpression (params : List (Option Str)) : Init
  | other : Init

/-- A declarator of a `VariableDeclaration`: `id?.name`, `init` and the value
of `d.loc || d.init.loc`. -/
structure Declarator (L : Type) where
  idName : Option Str
  init : Option Init
  loc : L

/-- The member `declaration` of an export, as the two functions read it. -/
inductive Declaration (L : Type) where
  | functionDeclaration (idName : Option Str) (params : List (Option Str)) (loc : L) :
      Declaration L
  | classDeclaration (idName : Option Str) (loc : L) : Declaration L
  | variableDeclaration (declarations : List (Declarator L)) : Declaration L
  /-- An `Identifier` with its `name`. -/
  | identifier (name : Option Str) (loc : L) : Declaration L
  /-- A `CallExpression` with `callee.name` and `arguments[0]?.name`. -/
  | callExpression (calleeName : Option Str) (firstArgumentName : Option Str) (loc : L) :
      Declaration L
  /-- Any other node: an arrow function, a function expression, an object. -/
  | other : Declaration L

/-- A statement of the program body. The export declarations of a module are
statements of its body, which the traverser visits in source order. -/
inductive Statement (L : Type) where
  | exportDefaultDeclaration (declaration : Declaration L) : Statement L
  | exportNamedDeclaration (declaration : Option (Declaration L)) : Statement L
  /-- A `FunctionDeclaration` of the body with `id?.name`. -/
  | functionDeclaration (idName : Option Str) : Statement L
  /-- A `ClassDeclaration` of the body with `id?.name`. -/
  | classDeclaration (idName : Option Str) : Statement L
  | other : Statement L

/-- Whether a name is truthy: neither `undefined` nor empty. -/
def nameTruthy : Option Str → Bool
  | some s => truthy s
  | none => false

/-- An entry point with the members `type`, `name`, `params` and `loc`. -/
def EntryPoint.plain {L : Type} (type : Str) (name : Option Str)
    (params : Option (List (Option Str))) (loc : Option L) : EntryPoint L :=
  { type := type, name := name, isHOC := false, hocName := none, wrappedComponent := none,
    params := params, loc := loc }

/-- The `switch` of the visitor `ExportDefaultDeclaration`: the value assigned
to `result`, or `none` in the `default` case. -/
def exportDefaultResult {L : Type} : Declaration L → Option (EntryPoint L)
  | .functionDeclaration idName params loc =>
    some (.plain "function".toList idName (some params) (some loc))
  | .classDeclaration idName loc => some (.plain "class".toList idName none (some loc))
  | .identifier name loc => some (.plain "identifier".toList name none (some loc))
  | .callExpression calleeName firstArgumentName loc =>
    some { type := "hoc".toList, name := none, isHOC := true, hocName := calleeName,
           wrappedComponent := firstArgumentName, params := none, loc := some loc }
  | _ => none

/-- One round of the traversal of `findExportDefault`. -/
def exportDefaultStep {L : Type} (result : Option (EntryPoint L)) :
    Statement L → Option (EntryPoint L)
  | .exportDefaultDeclaration declaration =>
    match exportDefaultResult declaration with
    | some r => some r
    | none => result
  | _ => result

/-- The name of a statement of the body that is a function or class
declaration with a truthy name. -/
def Statement.declaredName {L : Type} : Statement L → Option Str
  | .functionDeclaration idName => if nameTruthy idName then idName else none
  | .classDeclaration idName => if nameTruthy idName then idName else none
  | _ => none

/-- The expression `fileName.split("/").pop()?.split(".")[0]`. -/
def fileBase (fileName : Str) : Option Str :=
  ((splitOnChar '/' fileName).getLast?).bind (fun last => (splitOnChar '.' last).head?)

/-- The first fallback of `findExportDefault`: for an identifier without a
name, the name of the first function or class declaration of the body. -/
def nameFromBody {L : Type} (body : List (Statement L)) (result : EntryPoint L) : EntryPoint L :=
  if result.type == "identifier".toList && result.name.isNone then
    match body.findSome? Statement.declaredName with
    | some n => { result with name := some n }
    | none => result
  else result

/-- The second fallback of `findExportDefault`: the name of the file. -/
def nameFromFile {L : Type} (fileName : Str) (result : EntryPoint L) : EntryPoint L :=
  if !nameTruthy result.name && fileName.length > 0 then
    match fileBase fileName with
    | some base => if truthy base then { result with name := some base } else result
    | none => result
  else result

/-- The last fallback of `findExportDefault`: the name `Component`. -/
def nameFinal {L : Type} (result : EntryPoint L) : EntryPoint L :=
  if !nameTruthy result.name then { result with name := some "Component".toList } else result

/-- The fallbacks of `findExportDefault` for a result without a truthy name. -/
def inferName {L : Type} (body : List (Statement L)) (fileName : Str) (result : EntryPoint L) :
    EntryPoint L :=
  if nameTruthy result.name then result
  else nameFinal (nameFromFile fileName (nameFromBody body result))

/-- The function `findExportDefault(ast, fileName)`; `none` is `null`. -/
def findExportDefault {L : Type} (body : List (Statement L)) (fileName : Str) :
    Option (EntryPoint L) :=
  (body.foldl exportDefaultStep none).map (inferName body fileName)

/-- The candidates pushed for a declarator. -/
def Declarator.candidates {L : Type} (d : Declarator L) : List (EntryPoint L) :=
  match d.init with
  | some (.arrowFunctionExpression params) =>
    [.plain "arrow".toList d.idName (some params) (some d.loc)]
  | some (.functionExpression params) =>
    [.plain "function".toList d.idName (some params) (some d.loc)]
  | _ => []

/-- The candidates pushed by the visitor `ExportNamedDeclaration` for one
declaration. -/
def Declaration.candidates {L : Type} : Declaration L → List (EntryPoint L)
  | .functionDeclaration idName params loc =>
    [.plain "function".toList idName (some params) (some loc)]
  | .classDeclaration idName loc => [.plain "class".toList idName none (some loc)]
  | .variableDeclaration declarations =>
    declarations.foldl (fun acc d => acc ++ d.candidates) []
  | _ => []

/-- One round of the traversal of `findMainComponent`. -/
def candidatesStep {L : Type} (candidates : List (EntryPoint L)) :
    Statement L → List (EntryPoint L)
  | .exportNamedDeclaration (some declaration) => candidates ++ declaration.candidates
  | _ => candidates

/-- A pattern character under the flag `i`. -/
def Re.chrIgnoreCase (c : Char) : Re := .set (fun d => d == c.toLower || d == c.toUpper)

/-- The expression `/Provider|Context/i`. -/
def reProviderContext : Re :=
  .alt (.seq ("Provider".toList.map Re.chrIgnoreCase))
       (.seq ("Context".toList.map Re.chrIgnoreCase))

/-- The test `/Provider|Context/i.test(c.name)`; `undefined` is tested as its
name. -/
def EntryPoint.nameMatches {L : Type} (c : EntryPoint L) : Bool :=
  reProviderContext.test (templateText c.name)

/-- The function `findMainComponent(ast, fileName)`. -/
def findMainComponent {L : Type} (body : List (Statement L)) (fileName : Str) : EntryPoint L :=
  match findExportDefault body fileName with
  | some exportDefault => exportDefault
  | none =>
    let candidates := body.foldl candidatesStep []
    let main : Option (EntryPoint L) :=
      match candidates.find? EntryPoint.nameMatches with
      | some c => some c
      | none => candidates.head?
    match main with
    | some c => c
    | none =>
      let unknown : Str → EntryPoint L := fun name =>
        .plain "unknown".toList (some name) none none
      if fileName.length > 0 then
        match fileBase fileName with
        | some base => if truthy base then unknown base else unknown "Component".toList
        | none => unknown "Component".toList
      else unknown "Component".toList

/-! ## `getAutoMocks` -/

/-- The constant `EXCLUDE_AUTOMOCKS`. -/
def EXCLUDE_AUTOMOCKS : List Str :=
  ["react", "react-dom", "@testing-library/react", "classnames", "next/navigation",
   "react-hot-toast", "react-spinners"].map String.toList

/-- An entry of `imports`, as `getAutoMocks` and the navigation mocks read it:
`source` (`none` for `undefined`) and `specifiers` when it is an array (of
strings, the local names). -/
structure ImportFact where
  source : Option Str
  specifiers : Option (List Str)
  deriving DecidableEq

/-- The test `imp.source && !EXCLUDE_AUTOMOCKS.some(ex => imp.source === ex)`. -/
def ImportFact.mockable (imp : ImportFact) : Bool :=
  match imp.source with
  | some source => truthy source && !EXCLUDE_AUTOMOCKS.any (fun ex => source == ex)
  | none => false

/-- The callback of `imp.specifiers.some(...)` for the set of used names. -/
def specifierUsed (usedSet : List Str) (spec : Str) : Bool :=
  usedSet.contains spec
    || usedSet.any (fun name =>
        includes name ".".toList && spec == ((splitOnChar '.' name).head?).getD [])

/-- The array `results` of `getAutoMocks`; `usedNames` is `none` when it is
falsy or neither an array nor a `Set`, and the list of its elements (strings)
otherwise. -/
def autoMockResults (imports : List ImportFact) (usedNames : Option (List Str)) : List Str :=
  match usedNames with
  | none => (imports.filter ImportFact.mockable).map (fun imp => imp.source.getD [])
  | some names =>
    let usedSet := uniq names
    (imports.filter (fun imp =>
        if !imp.mockable then false
        else
          match imp.specifiers with
          | some specifiers => specifiers.any (specifierUsed usedSet)
          | none => false)).map (fun imp => imp.source.getD [])

/-- The array `uniqueResults` of `getAutoMocks`: the modules that the comment
names. -/
def autoMockSources (imports : List ImportFact) (usedNames : Option (List Str)) : List Str :=
  uniq (autoMockResults imports usedNames)

/-- `s.trimEnd()`. -/
def trimEnd (s : Str) : Str := (s.reverse.dropWhile isSpace).reverse

/-- The function `getAutoMocks(imports, usedNames)`; `imports` is `none` when
it is no array. -/
def getAutoMocks (imports : Option (List ImportFact)) (usedNames : Option (List Str)) : Str :=
  match imports with
  | none => []
  | some imports =>
    let uniqueResults := autoMockSources imports usedNames
    let mockLines : Str :=
      if !uniqueResults.isEmpty then
        "// Uses mock(s): ".toList
          ++ join ", ".toList (uniqueResults.map (fun m => "'".toList ++ m ++ "'".toList))
          ++ " (customize if needed)".toList
      else []
    trimEnd mockLines

/-! ## The navigation mocks and `allGlobalMockLines` -/

/-- A navigation mock: the members `code`, `type` and `extended`; a member
that is not set is `none` or `false`. -/
structure NavMock where
  code : Option Str
  type : Option Str
  extended : Bool
  deriving DecidableEq

/-- The members of the analysis result that the navigation mocks read:
`imports`, the names of `hooks` and `paramsKeys`, each `none` when it is no
array. -/
structure NavFacts where
  imports : Option (List ImportFact)
  hooks : Option (List Str)
  paramsKeys : Option (List Str)

/-- The test `imports.some(imp => imp.source === 'next/navigation' &&
imp.specifiers.includes(hook))`; `none` stands for the `TypeError` thrown
for an entry of that module whose `specifiers` is no array. -/
def importsNavigationHook (hook : Str) : List ImportFact → Option Bool
  | [] => some false
  | imp :: rest =>
    if imp.source == some "next/navigation".toList then
      match imp.specifiers with
      | none => none
      | some specifiers =>
        if specifiers.contains hook then some true else importsNavigationHook hook rest
    else importsNavigationHook hook rest

/-- The test `Array.isArray(ast.imports) && ast.imports.some(...)`. -/
def hasNavigationImport (ast : NavFacts) (hook : Str) : Option Bool :=
  match ast.imports with
  | none => some false
  | some imports => importsNavigationHook hook imports

/-- The test `Array.isArray(ast.hooks) && ast.hooks.some(h => h.name === hook)`. -/
def hasHookCall (ast : NavFacts) (hook : Str) : Bool :=
  match ast.hooks with
  | none => false
  | some hooks => hooks.contains hook

/-- The function `generateUseParamsMock(ast)`: the outer `none` is a
`TypeError`, the inner one is `null`. -/
def generateUseParamsMock (ast : NavFacts) : Option (Option NavMock) :=
  match hasNavigationImport ast "useParams".toList with
  | none => none
  | some hasUseParamsImport =>
    let paramsKeys := ast.paramsKeys.getD []
    if hasUseParamsImport && hasHookCall ast "useParams".toList && !paramsKeys.isEmpty then
      let paramsObj := join ",\n".toList
        (paramsKeys.map (fun k => "  \"".toList ++ k ++ "\": \"mocked_".toList ++ k ++ "\"".toList))
      let code := join "\n".toList
        [ "jest.mock(\"next/navigation\", () => (\x7b".toList,
          "  ...jest.requireActual(\"next/navigation\"),".toList,
          "  useParams: jest.fn(() => (\x7b\n".toList ++ paramsObj ++ "\n  \x7d))".toList,
          "\x7d));".toList ]
      some (some { code := some code, type := some "next/navigation".toList, extended := true })
    else some none

/-- The function `generateUseRouterMock(ast)`. -/
def generateUseRouterMock (ast : NavFacts) : Option (Option NavMock) :=
  match hasNavigationImport ast "useRouter".toList with
  | none => none
  | some hasUseRouterImport =>
    if hasUseRouterImport && hasHookCall ast "useRouter".toList then
      let code := join "\n".toList
        [ "jest.mock(\"next/navigation\", () => (\x7b".toList,
          "  ...jest.requireActual(\"next/navigation\"),".toList,
          "  useRouter: jest.fn(() => (\x7b".toList,
          "    push: jest.fn(),".toList,
          "    replace: jest.fn(),".toList,
          "    prefetch: jest.fn(),".toList,
          "    back: jest.fn(),".toList,
          "    forward: jest.fn(),".toList,
          "    refresh: jest.fn(),".toList,
          "    pathname: \"/mock-path\",".toList,
          "    query: \x7b\x7d,".toList,
          "    asPath: \"/mock-path\"".toList,
          "  \x7d))".toList,
          "\x7d));".toList ]
      some (some { code := some code, type := some "next/navigation".toList, extended := true })
    else some none

/-- The function `generateUseMocks(ast)`. -/
def generateUseMocks (ast : NavFacts) : Option (List NavMock) :=
  match generateUseParamsMock ast with
  | none => none
  | some useParams =>
    match generateUseRouterMock ast with
    | none => none
    | some useRouter => some (useParams.toList ++ useRouter.toList)

/-- The members of the `meta` of a block that carry navigation mocks:
`mocksObjs` and `useParamsMockObj`; a member that is not set is `none`. -/
structure BlockMocks where
  mocksObjs : Option (List NavMock)
  useParamsMockObj : Option NavMock
  deriving DecidableEq

/-- The rules whose generator sets `meta.mocksObjs` to the value of
`generateUseMocks(ast)`. -/
def RuleId.setsMocksObjs : RuleId → Bool
  | .render | .conditional | .customHooks | .branches | .errorHandling | .effects
  | .apiCalls | .state | .eventHandlers | .props => true
  | _ => false

/-- The navigation members of the `meta` of the value that the member `fn` of
a rule returns, for the value `mocksObjs` of `generateUseMocks(ast)`: no
generator sets `useParamsMockObj`, and the array returned for the rule
`performance` has no `meta`. -/
def RuleId.blockMocks (mocksObjs : List NavMock) (r : RuleId) : Option BlockMocks :=
  if r = .performance then none
  else some { mocksObjs := if r.setsMocksObjs then some mocksObjs else none,
              useParamsMockObj := none }

/-- One round of the `forEach` of `allGlobalMockLines`; `none` when the mock
is assigned to `__proto__`, which replaces the prototype of the object and is
where the model stops. -/
def globalMockStep (globalMocksByModule : Dict NavMock) (meta : Option BlockMocks) :
    Option (Dict NavMock) :=
  match meta.bind (fun m => m.useParamsMockObj) with
  | none => some globalMocksByModule
  | some obj =>
    if !nameTruthy obj.type then some globalMocksByModule
    else
      let type := obj.type.getD []
      match globalMocksByModule.own type with
      | some prev =>
        if obj.extended && !prev.extended then some (globalMocksByModule.put type obj)
        else some globalMocksByModule
      | none =>
        if objectPrototypeKeys.contains type then
          if obj.extended then
            if type == "__proto__".toList then none
            else some (globalMocksByModule.put type obj)
          else some globalMocksByModule
        else some (globalMocksByModule.put type obj)

/-- The `forEach` of `allGlobalMockLines`. -/
def globalMocksFill : List (Option BlockMocks) → Dict NavMock → Option (Dict NavMock)
  | [], d => some d
  | meta :: rest, d =>
    match globalMockStep d meta with
    | none => none
    | some d1 => globalMocksFill rest d1

/-- The function `allGlobalMockLines(blocks)`, from the `meta` of the blocks. -/
def allGlobalMockLines (blocks : List (Option BlockMocks)) : Option Str :=
  match globalMocksFill blocks [] with
  | none => none
  | some globalMocksByModule =>
    let mocks := (globalMocksByModule.entries.map Prod.snd).filterMap (fun obj =>
      if nameTruthy obj.code then some (trim (obj.code.getD [])) else none)
    if !mocks.isEmpty then some (join "\n\n".toList mocks ++ "\n".toList) else some []

/-! ## The arithmetic of numbers on integers -/

/-- The number of low bits that a natural number has beyond 53 significant
bits, for numbers below `2 ^ (53 + fuel)`. -/
def excessBits : Nat → Nat → Nat
  | 0, _ => 0
  | fuel + 1, a => if a < 2 ^ 53 then 0 else excessBits fuel (a / 2) + 1

/-- The number (a double) nearest to an integer, ties to the even significand,
for integers below `2 ^ 1023` in magnitude, all of which round to a finite
number that is an integer. -/
def roundToDouble (z : Int) : Int :=
  let a := z.natAbs
  let e := excessBits 1024 a
  if e = 0 then z
  else
    let q := a / 2 ^ e
    let r := a % 2 ^ e
    let up := decide (r > 2 ^ (e - 1)) || (r == 2 ^ (e - 1) && q % 2 == 1)
    z.sign * (((if up then q + 1 else q) * 2 ^ e : Nat) : Int)

/-- A host in which the numbers are the doubles that are integers, with the
sum `value + 1` and the difference `value - 1` of JavaScript, and the other
operations of a given host. -/
def doubleHost {O : Type} (base : Host Int O) : Host Int O :=
  { base with
    plusOne := fun n => roundToDouble (n + 1),
    minusOne := fun n => roundToDouble (n - 1) }

/-! ## The helpers of `suggestContextBlock` -/

/-- The member `contextMeta.importLine` of the value that
`handlerContextsMockAndImport` returns for an entry of `meta.contexts`, `none`
when the name is falsy and the value has no `contextMeta`; `contextPath` is
the value of `ctx.path || ctx.importPath || ''` when it is a string that is
not empty. -/
def contextImportLine {N O P : Type} (host : Host N O) (contextPath : Option Str)
    (ctx : ContextFact N O P) : Option Str :=
  if !ctx.name.truthy host then none
  else
    let contextName := ctx.name.toStr host
    let path := match contextPath with
      | some p => if truthy p then p else "./".toList ++ contextName
      | none => "./".toList ++ contextName
    some ("import \x7b ".toList ++ contextName ++ " \x7d from \"".toList ++ path ++ "\";".toList)

/-- The `importLine` of each entry of the member `contextsHelpers` of the
`meta` of the block that `suggestContextBlock` returns: the helpers of the
listed contexts that have an `importLine`, without those whose `importLine` is
the one of an earlier helper. -/
def contextsHelpersImportLines {N O P : Type} (host : Host N O)
    (contextPath : ContextFact N O P → Option Str) (ast : ContextView N O P) : List Str :=
  uniq ((metaContexts host ast).filterMap
    (fun e => contextImportLine host (contextPath e.fact) e.fact))

/-! ## Notions used to state the properties of the entry point -/

/-- Whether a statement is a default export. -/
def Statement.isExportDefault {L : Type} : Statement L → Bool
  | .exportDefaultDeclaration _ => true
  | _ => false

/-- The exported functions, classes and function-valued variables of a
declaration, in source order. -/
def Declaration.exported {L : Type} : Declaration L → List (EntryPoint L)
  | .functionDeclaration idName params loc =>
    [.plain "function".toList idName (some params) (some loc)]
  | .classDeclaration idName loc => [.plain "class".toList idName none (some loc)]
  | .variableDeclaration declarations => declarations.flatMap Declarator.candidates
  | _ => []

/-- The exported functions, classes and function-valued variables of a
program body, in source order. -/
def exportedCandidates {L : Type} (body : List (Statement L)) : List (EntryPoint L) :=
  body.flatMap (fun s =>
    match s with
    | .exportNamedDeclaration (some declaration) => declaration.exported
    | _ => [])

/-- The text of a path after its last `/`. -/
def lastSegment (f : Str) : Str := (f.reverse.takeWhile (fun c => c != '/')).reverse

/-- The text of a string before its first `.`. -/
def beforeFirstDot (s : Str) : Str := s.takeWhile (fun c => c != '.')

/-- The base name of a path without its extension: the last segment without
its last `.` and what follows it. -/
def baseNameWithoutExtension (f : Str) : Str :=
  if (lastSegment f).contains '.' then
    ((lastSegment f).reverse.dropWhile (fun c => c != '.')).tail.reverse
  else lastSegment f

/-! ## Notions used to state the properties of the suggested blocks -/

/-- An analysis result in which every member that the guards read is an empty
array, or is not set. -/
def Results.empty {F : Type} : Results F :=
  { returnedJSX := [], jsxElements := [], conditionalRendering := [], props := some [],
    eventHandlers := some [], stateVars := some [], apiCalls := some [], effectDeps := some [],
    errorHandling := some [], branches := some [], customHooks := some [],
    memoization := some [], internalFunctions := some [], propTypes := some [],
    contexts := some [], exportDefault := none, performance := none }

/-- A component that imports `useParams` from `next/navigation`, calls it and
reads the key `id` of its result. -/
def sampleNavFacts : NavFacts :=
  { imports := some [⟨some "next/navigation".toList, some ["useParams".toList]⟩],
    hooks := some ["useParams".toList],
    paramsKeys := some ["id".toList] }

/-! ## Notions used to state the properties of the hints -/

/-- Whether `x op n` holds for two integers and one of the operators `<`,
`>`, `<=`, `>=`. -/
def relationHolds (operator : Str) (x n : Int) : Bool :=
  if operator == "<".toList then decide (x < n)
  else if operator == "<=".toList then decide (x ≤ n)
  else if operator == ">".toList then decide (x > n)
  else if operator == ">=".toList then decide (x ≥ n)
  else false


/-! # Theorems -/

/-! ## The final merge on concrete inputs -/

/-- C1. The final merge is not idempotent on a skeleton holding the one line
`import * as X from "p";`: the first pass returns `import {  } from "p";`
and the merge of that output with itself returns `import  from "p";`. -/
theorem mergeLinesHelper_second_pass_differs (localeCompare : Str → Str → Int) :
    mergeLinesHelper localeCompare "import * as X from \"p\";".toList []
        = some "import \x7b  \x7d from \"p\";\n".toList
      ∧ mergeLinesHelper localeCompare "import \x7b  \x7d from \"p\";\n".toList
          "import \x7b  \x7d from \"p\";\n".toList
        = some "import  from \"p\";\n".toList
      ∧ "import  from \"p\";\n".toList ≠ "import \x7b  \x7d from \"p\";\n".toList :=
  ⟨rfl, rfl, by decide⟩

/-- C2. For the module path `import-fresh`, `groupImports` applied to
`import { a } from "import-fresh";` and `import { b } from "import-fresh";`
returns, in either order, the one entry `import-fresh`, which is no import
statement and lists neither `a` nor `b`. -/
theorem groupImports_path_starting_with_import :
    groupImports ["import \x7b a \x7d from \"import-fresh\";".toList,
                  "import \x7b b \x7d from \"import-fresh\";".toList]
        = some ["import-fresh".toList]
      ∧ groupImports ["import \x7b b \x7d from \"import-fresh\";".toList,
                      "import \x7b a \x7d from \"import-fresh\";".toList]
        = some ["import-fresh".toList] := by
  decide

/-- C3. For two plain mocks of the module `constructor`, a name that every
plain object inherits, `groupMocks` returns no fragment at all. -/
theorem groupMocks_inherited_name :
    groupMocks ["jest.mock(\"constructor\");".toList, "jest.mock('constructor');".toList]
      = [] := by
  decide

/-- C4. For a skeleton with the lines `import a from "p"; // "x"` and
`import b from "p";` the output of the final merge has two import statements
for the module `p`. -/
theorem mergeLinesHelper_two_statements_one_module (localeCompare : Str → Str → Int) :
    mergeLinesHelper localeCompare
        "import a from \"p\"; // \"x\"\nimport b from \"p\";".toList []
        = some "import a from \"p\"; // \"x\";\nimport b from \"p\";\n".toList
      ∧ importModulesOf "import a from \"p\"; // \"x\";\nimport b from \"p\";\n".toList
        = ["p".toList, "p".toList] :=
  ⟨rfl, by decide⟩

/-- C5. For a plain `jest.mock("m");` followed by a mock of `m` whose factory
has a block body, the mock that survives the final merge is the plain one,
and the lines of the factory body are left among the remaining lines. -/
theorem mergeLinesHelper_block_body_factory_lost (localeCompare : Str → Str → Int) :
    mergeLinesHelper localeCompare []
        "jest.mock(\"m\");\njest.mock(\"m\", () => \x7b\nreturn \x7b f: jest.fn() \x7d;\n\x7d);".toList
      = some "jest.mock(\"m\");\nreturn \x7b f: jest.fn() \x7d;\n\x7d);\n".toList :=
  rfl

/-- C6. The final merge does not keep the binding form: the named import
`import { a } from "p";` comes out in the default form `import a from "p";`,
and the namespace import `import * as X from "p";` comes out as
`import {  } from "p";`, without its binding. -/
theorem mergeLinesHelper_binding_form_changed (localeCompare : Str → Str → Int) :
    mergeLinesHelper localeCompare [] "import \x7b a \x7d from \"p\";".toList
        = some "import a from \"p\";\n".toList
      ∧ mergeLinesHelper localeCompare [] "import * as X from \"p\";".toList
        = some "import \x7b  \x7d from \"p\";\n".toList :=
  ⟨rfl, rfl⟩

/-- C8. For the two lines `import a from "../b";` and `jest.mock("../c");` the
scan of `normalizeSkeleton` yields one import block made of both lines and no
mock block. -/
theorem scanBlocks_mock_line_joins_import_block :
    scanBlocks ["import a from \"../b\";".toList, "jest.mock(\"../c\");".toList]
      = (["import a from \"../b\";\njest.mock(\"../c\");".toList], []) := by
  decide

/-- C9. For two factory mocks of the modules `a` and `b` that both end with
the line `}));`, the output of `groupHelper` holds that closing line once: the
block of `b` comes out without it. -/
theorem groupHelper_drops_repeated_closing_line :
    groupHelper []
        ["jest.mock(\"a\", () => (\x7b\n  x: 1\n\x7d));".toList,
         "jest.mock(\"b\", () => (\x7b\n  y: 2\n\x7d));".toList]
        ⟨[], [], [], []⟩
      = some "jest.mock(\"a\", () => (\x7b\nx: 1\n\x7d));\njest.mock(\"b\", () => (\x7b\ny: 2\n".toList := by
  decide


/-! ## The rule loop and its deduplication -/

theorem foldl_push_eq_filter_map {α β : Type} (p : α → Bool) (f : α → β) (l : List α)
    (init : List β) :
    l.foldl (fun acc r => if p r then acc ++ [f r] else acc) init
      = init ++ (l.filter p).map f := by
  induction l generalizing init with
  | nil => simp
  | cons a l ih =>
    simp only [List.foldl_cons]
    rw [ih]
    by_cases h : p a <;> simp [h, List.filter_cons]

theorem bar_not_mem_blockType (r : RuleId) : '|' ∉ templateText r.blockType := by
  cases r <;> decide

theorem templateText_blockType_injective (r1 r2 : RuleId)
    (h : templateText r1.blockType = templateText r2.blockType) : r1 = r2 := by
  revert h
  cases r1 <;> cases r2 <;> decide

theorem append_bar_cancel (t1 t2 x y : Str) (h1 : '|' ∉ t1) (h2 : '|' ∉ t2)
    (h : t1 ++ '|' :: x = t2 ++ '|' :: y) : t1 = t2 := by
  induction t1 generalizing t2 with
  | nil =>
    cases t2 with
    | nil => rfl
    | cons b t2 =>
      simp only [List.nil_append, List.cons_append, List.cons.injEq] at h
      exact absurd (h.1 ▸ List.mem_cons_self _ _) h2
  | cons a t1 ih =>
    cases t2 with
    | nil =>
      simp only [List.nil_append, List.cons_append, List.cons.injEq] at h
      exact absurd (h.1 ▸ List.mem_cons_self _ _) h1
    | cons b t2 =>
      simp only [List.cons_append, List.cons.injEq] at h
      rw [h.1, ih t2 (fun hm => h1 (List.mem_cons_of_mem _ hm))
        (fun hm => h2 (List.mem_cons_of_mem _ hm)) h.2]

theorem blockKey_fn_injective {F M : Type} (g : Generators F M) (context : Results F)
    (r1 r2 : RuleId) (h : blockKey (r1.fn g context) = blockKey (r2.fn g context)) :
    r1 = r2 := by
  apply templateText_blockType_injective
  have h' : templateText r1.blockType ++ '|' :: templateText (r1.fn g context).code
      = templateText r2.blockType ++ '|' :: templateText (r2.fn g context).code := by
    simpa [blockKey, RuleId.fn] using h
  exact append_bar_cancel _ _ _ _ (bar_not_mem_blockType r1) (bar_not_mem_blockType r2) h'

theorem blockKey_eq_of_pair_eq {M : Type} (b c : Block M) (h : b.pair = c.pair) :
    blockKey b = blockKey c := by
  cases b; cases c
  simp only [Block.pair, Prod.mk.injEq] at h
  simp [blockKey, h.1, h.2]

theorem producedBlocks_key_iff_pair {F M : Type} (g : Generators F M) (context : Results F)
    (b c : Block M) (hb : b ∈ producedBlocks g context) (hc : c ∈ producedBlocks g context) :
    blockKey b = blockKey c ↔ b.pair = c.pair := by
  constructor
  · intro h
    obtain ⟨r1, _, rfl⟩ := List.mem_map.1 hb
    obtain ⟨r2, _, rfl⟩ := List.mem_map.1 hc
    rw [blockKey_fn_injective g context r1 r2 h]
  · exact blockKey_eq_of_pair_eq b c

theorem dedupeBlocks_eq_dropRepeatedPairs {M : Type} (l : List (Block M)) :
    ∀ (seen : List Str) (earlier : List (Option Str × Option Str)),
      (∀ b ∈ l, ∀ c ∈ l, (blockKey b = blockKey c ↔ b.pair = c.pair)) →
      (∀ b ∈ l, (blockKey b ∈ seen ↔ b.pair ∈ earlier)) →
      dedupeBlocks seen l = dropRepeatedPairs earlier l := by
  induction l with
  | nil => intro _ _ _ _; rfl
  | cons b rest ih =>
    intro seen earlier hinj hseen
    have hrest : ∀ x ∈ rest, ∀ y ∈ rest, (blockKey x = blockKey y ↔ x.pair = y.pair) :=
      fun x hx y hy => hinj x (List.mem_cons_of_mem _ hx) y (List.mem_cons_of_mem _ hy)
    have hb := hseen b (List.mem_cons_self _ _)
    by_cases hk : blockKey b ∈ seen
    · have hp : b.pair ∈ earlier := hb.1 hk
      have hc : seen.contains (blockKey b) = true := by simpa using hk
      simp only [dedupeBlocks, dropRepeatedPairs, hc, hp, if_true]
      exact ih seen earlier hrest (fun x hx => hseen x (List.mem_cons_of_mem _ hx))
    · have hp : b.pair ∉ earlier := fun h => hk (hb.2 h)
      have hc : seen.contains (blockKey b) = false := by simpa using hk
      simp only [dedupeBlocks, dropRepeatedPairs, hc, hp, if_false, Bool.false_eq_true]
      congr 1
      apply ih _ _ hrest
      intro x hx
      have hx' := hseen x (List.mem_cons_of_mem _ hx)
      have hxb := hinj x (List.mem_cons_of_mem _ hx) b (List.mem_cons_self _ _)
      simp only [List.mem_cons, List.mem_append, List.not_mem_nil, or_false]
      constructor
      · rintro (h | h)
        · exact Or.inr (hxb.1 h)
        · exact Or.inl (hx'.1 h)
      · rintro (h | h)
        · exact Or.inr (hx'.2 h)
        · exact Or.inl (hxb.2 h)

theorem mem_dropRepeatedPairs {M : Type} (l : List (Block M)) :
    ∀ (earlier : List (Option Str × Option Str)) (c : Block M),
      c ∈ dropRepeatedPairs earlier l → c ∈ l ∧ c.pair ∉ earlier := by
  induction l with
  | nil => intro _ _ h; simp [dropRepeatedPairs] at h
  | cons b rest ih =>
    intro earlier c h
    by_cases hp : b.pair ∈ earlier
    · simp only [dropRepeatedPairs, hp, if_true] at h
      exact ⟨List.mem_cons_of_mem _ (ih earlier c h).1, (ih earlier c h).2⟩
    · simp only [dropRepeatedPairs, hp, if_false, List.mem_cons] at h
      rcases h with h | h
      · subst h; exact ⟨List.mem_cons_self _ _, hp⟩
      · have := ih _ c h
        exact ⟨List.mem_cons_of_mem _ this.1, fun hc => this.2 (List.mem_append_left _ hc)⟩

theorem nodup_pairs_dropRepeatedPairs {M : Type} (l : List (Block M)) :
    ∀ (earlier : List (Option Str × Option Str)),
      ((dropRepeatedPairs earlier l).map Block.pair).Nodup := by
  induction l with
  | nil => intro _; simp [dropRepeatedPairs]
  | cons b rest ih =>
    intro earlier
    by_cases hp : b.pair ∈ earlier
    · simp only [dropRepeatedPairs, hp, if_true]; exact ih earlier
    · simp only [dropRepeatedPairs, hp, if_false, List.map_cons, List.nodup_cons]
      refine ⟨?_, ih _⟩
      intro hm
      obtain ⟨c, hc, hcp⟩ := List.mem_map.1 hm
      exact (mem_dropRepeatedPairs rest _ c hc).2 (by simp [hcp])

theorem first_kept_dropRepeatedPairs {M : Type} (l : List (Block M)) :
    ∀ (earlier : List (Option Str × Option Str)) (b : Block M), b ∈ l → b.pair ∉ earlier →
      ∃ c, l.find? (fun c => decide (c.pair = b.pair)) = some c
        ∧ c ∈ dropRepeatedPairs earlier l := by
  induction l with
  | nil => intro _ b h; simp at h
  | cons a rest ih =>
    intro earlier b hb hp
    by_cases hab : a.pair = b.pair
    · refine ⟨a, by simp [List.find?, hab], ?_⟩
      have : a.pair ∉ earlier := hab ▸ hp
      simp [dropRepeatedPairs, this]
    · have hb' : b ∈ rest := by
        rcases List.mem_cons.1 hb with h | h
        · exact absurd (h ▸ rfl) hab
        · exact h
      by_cases ha : a.pair ∈ earlier
      · obtain ⟨c, hc1, hc2⟩ := ih earlier b hb' hp
        exact ⟨c, by simp [List.find?, hab, hc1], by simp [dropRepeatedPairs, ha, hc2]⟩
      · have hp' : b.pair ∉ earlier ++ [a.pair] := by
          simp only [List.mem_append, List.mem_singleton, not_or]
          exact ⟨hp, fun h => hab h.symm⟩
        obtain ⟨c, hc1, hc2⟩ := ih _ b hb' hp'
        exact ⟨c, by simp [List.find?, hab, hc1], by simp [dropRepeatedPairs, ha, hc2]⟩

theorem suggestTestBlocks_eq_dedupe_produced {F M : Type} (g : Generators F M)
    (context : Results F) :
    suggestTestBlocks g context = dedupeBlocks [] (producedBlocks g context) := by
  simp only [suggestTestBlocks, producedBlocks]
  rw [foldl_push_eq_filter_map (fun r => RuleId.condition r context)
    (fun r => RuleId.fn g r context)]
  simp

/-- C10. The list returned by `suggestTestBlocks` is the list of the values
produced by the rules whose guard holds, in registry order, without every one
whose `(type, code)` pair equals that of an earlier one; no two entries of the
result have the same pair, and of the produced values with a given pair the
first is in the result. -/
theorem suggestTestBlocks_first_occurrences {F M : Type} (g : Generators F M)
    (context : Results F) :
    suggestTestBlocks g context = dropRepeatedPairs [] (producedBlocks g context)
      ∧ ((suggestTestBlocks g context).map Block.pair).Nodup
      ∧ ∀ b ∈ producedBlocks g context,
          ∃ c, (producedBlocks g context).find? (fun c => decide (c.pair = b.pair)) = some c
            ∧ c ∈ suggestTestBlocks g context := by
  have h : suggestTestBlocks g context = dropRepeatedPairs [] (producedBlocks g context) := by
    rw [suggestTestBlocks_eq_dedupe_produced]
    exact dedupeBlocks_eq_dropRepeatedPairs _ [] []
      (fun b hb c hc => producedBlocks_key_iff_pair g context b c hb hc) (by simp)
  refine ⟨h, ?_, ?_⟩
  · rw [h]; exact nodup_pairs_dropRepeatedPairs _ _
  · intro b hb
    rw [h]
    exact first_kept_dropRepeatedPairs _ [] b hb (by simp)


/-! ## The three sections of the final merge -/

theorem startsWith_append_right (s x p : Str) (h : startsWith s p = true) :
    startsWith (s ++ x) p = true := by
  unfold startsWith at *
  rw [List.isPrefixOf_iff_prefix] at *
  exact h.trans (List.prefix_append s x)

theorem startsWith_join_cons (sep first p : Str) (rest : List Str)
    (h : startsWith first p = true) : startsWith (join sep (first :: rest)) p = true := by
  cases rest with
  | nil => simpa [join] using h
  | cons b rest =>
    simp only [join, List.append_assoc]
    exact startsWith_append_right _ _ _ h

theorem startsWith_self_append (p x : Str) : startsWith (p ++ x) p = true := by
  unfold startsWith
  rw [List.isPrefixOf_iff_prefix]
  exact List.prefix_append p x

theorem importStatement_startsWith (entry : Str × List Str) :
    startsWith (importStatement entry) "import ".toList = true := by
  have hb : "import \x7b ".toList = "import ".toList ++ "\x7b ".toList := by decide
  unfold importStatement
  simp only []
  split_ifs
  · exact startsWith_append_right _ _ _ (startsWith_self_append _ _)
  · exact startsWith_append_right _ _ _ (startsWith_self_append _ _)
  · rw [hb]
    simp only [List.append_assoc]
    exact startsWith_self_append _ _

theorem mem_importsOf_startsWith (allLines imports : List Str)
    (h : importsOf allLines = some imports) :
    ∀ l ∈ imports, startsWith l "import ".toList = true := by
  intro l hl
  unfold importsOf at h
  cases hd : importByPath allLines [] with
  | none => simp [hd] at h
  | some d =>
    simp only [hd, Option.map_some', Option.some.injEq] at h
    subst h
    rw [sortDefault, List.mem_insertionSort] at hl
    obtain ⟨e, _, rfl⟩ := List.mem_map.1 hl
    exact importStatement_startsWith e

theorem sorted_importsOf (allLines imports : List Str)
    (h : importsOf allLines = some imports) : imports.Sorted codeUnitLE := by
  unfold importsOf at h
  cases hd : importByPath allLines [] with
  | none => simp [hd] at h
  | some d =>
    simp only [hd, Option.map_some', Option.some.injEq] at h
    subst h
    exact List.sorted_insertionSort codeUnitLE _

theorem mem_put {V : Type} (d : Dict V) (k : Str) (v : V) (x : Str × V)
    (h : x ∈ Dict.put d k v) : x ∈ d ∨ x.2 = v := by
  induction d with
  | nil =>
    simp only [Dict.put, List.mem_singleton] at h
    exact Or.inr (by rw [h])
  | cons a d ih =>
    obtain ⟨j, w⟩ := a
    simp only [Dict.put] at h
    split_ifs at h
    · rcases List.mem_cons.1 h with h | h
      · exact Or.inr (by rw [h])
      · exact Or.inl (List.mem_cons_of_mem _ h)
    · rcases List.mem_cons.1 h with h | h
      · exact Or.inl (h ▸ List.mem_cons_self _ _)
      · rcases ih h with h | h
        · exact Or.inl (List.mem_cons_of_mem _ h)
        · exact Or.inr h

theorem mem_entries {V : Type} (d : Dict V) (x : Str × V) (h : x ∈ d.entries) : x ∈ d := by
  unfold Dict.entries at h
  rcases List.mem_append.1 h with h | h
  · rw [List.mem_insertionSort] at h
    exact (List.mem_filter.1 h).1
  · exact (List.mem_filter.1 h).1

theorem registerMock_startsWith (o : MockObj) (m : Option Str) (e : MockEntry)
    (ho : MocksStartWithCall o) (he : startsWith e.code "jest.mock(".toList = true) :
    MocksStartWithCall (registerMock o m e) := by
  unfold registerMock
  cases m with
  | none => exact ho
  | some k =>
    simp only []
    split_ifs
    · unfold MockObj.assign
      split_ifs
      · exact ho
      · intro x hx
        rcases mem_put _ _ _ _ hx with h | h
        · exact ho x h
        · rw [h]; exact he
    · exact ho

theorem closeBlock_startsWith (o : MockObj) (m : Option Str) (revLines : List Str) (ext : Bool)
    (first : Str) (tl : List Str) (ho : MocksStartWithCall o)
    (hr : revLines.reverse = first :: tl)
    (hf : startsWith first "jest.mock(".toList = true) :
    MocksStartWithCall (closeBlock o m revLines ext) := by
  unfold closeBlock
  apply registerMock_startsWith _ _ _ ho
  simp only [hr]
  exact startsWith_join_cons _ _ _ _ hf

theorem mockStep_invariant (st : MockScan) (i : Nat) (line : Str)
    (ho : MocksStartWithCall st.obj) (hp : PendingStartsWithCall st.pending) :
    MocksStartWithCall (mockStep st i line).obj
      ∧ PendingStartsWithCall (mockStep st i line).pending := by
  unfold mockStep
  cases hpend : st.pending with
  | some pr =>
    obtain ⟨m, revLines⟩ := pr
    obtain ⟨first, tl, hr, hf⟩ := hp m revLines hpend
    simp only []
    split_ifs
    · refine ⟨closeBlock_startsWith _ _ _ _ first (tl ++ [line]) ho (by simp [hr]) hf, ?_⟩
      intro m' rl h; simp at h
    · refine ⟨ho, ?_⟩
      intro m' rl h
      simp only [Option.some.injEq, Prod.mk.injEq] at h
      obtain ⟨_, rfl⟩ := h
      exact ⟨first, tl ++ [line], by simp [hr], hf⟩
  | none =>
    simp only []
    split_ifs with h1 h2
    · refine ⟨ho, ?_⟩
      intro m' rl h
      simp only [Option.some.injEq, Prod.mk.injEq] at h
      obtain ⟨_, rfl⟩ := h
      exact ⟨line, [], by simp, h1⟩
    · refine ⟨closeBlock_startsWith _ _ _ _ line [] ho (by simp) h1, ?_⟩
      intro m' rl h; simp [hpend] at h
    · refine ⟨ho, ?_⟩
      intro m' rl h; simp [hpend] at h

theorem mockScan_invariant (lines : List Str) :
    ∀ (i : Nat) (st : MockScan), MocksStartWithCall st.obj → PendingStartsWithCall st.pending →
      MocksStartWithCall (mockScan i lines st).obj := by
  induction lines with
  | nil =>
    intro i st ho hp
    unfold mockScan
    cases hpend : st.pending with
    | some pr =>
      obtain ⟨m, revLines⟩ := pr
      obtain ⟨first, tl, hr, hf⟩ := hp m revLines hpend
      exact closeBlock_startsWith _ _ _ _ first tl ho hr hf
    | none => exact ho
  | cons line rest ih =>
    intro i st ho hp
    unfold mockScan
    exact ih (i + 1) _ (mockStep_invariant st i line ho hp).1 (mockStep_invariant st i line ho hp).2

theorem mem_mocksOf_startsWith (localeCompare : Str → Str → Int) (allLines : List Str) :
    ∀ b ∈ mocksOf localeCompare allLines, startsWith b "jest.mock(".toList = true := by
  intro b hb
  unfold mocksOf sortBy at hb
  rw [List.mem_insertionSort] at hb
  obtain ⟨e, he, rfl⟩ := List.mem_map.1 hb
  have hinv := mockScan_invariant allLines 0 ⟨⟨[], none⟩, [], none⟩
    (by intro x hx; simp at hx) (by intro m rl h; simp at h)
  exact hinv e (mem_entries _ e he)

theorem mem_otherLines (consumed : List Nat) (lines : List Str) :
    ∀ (i : Nat) (seen : List Str) (l : Str), l ∈ otherLines consumed i lines seen →
      startsWith l "import ".toList = false ∧ startsWith l "jest.mock(".toList = false := by
  induction lines with
  | nil => intro _ _ l h; simp [otherLines] at h
  | cons line rest ih =>
    intro i seen l h
    unfold otherLines at h
    split_ifs at h with h1 h2
    · rcases List.mem_cons.1 h with h | h
      · subst h
        simp only [Bool.and_eq_true, Bool.not_eq_true'] at h1
        exact ⟨h1.1.1, h1.1.2⟩
      · exact ih _ _ l h
    · exact ih _ _ l h
    · exact ih _ _ l h

theorem otherLines_sublist (consumed : List Nat) (lines : List Str) :
    ∀ (i : Nat) (seen : List Str), (otherLines consumed i lines seen).Sublist lines := by
  induction lines with
  | nil => intro _ _; simp [otherLines]
  | cons line rest ih =>
    intro i seen
    unfold otherLines
    split_ifs
    · exact (ih _ _).cons₂ _
    · exact (ih _ _).cons _
    · exact (ih _ _).cons _

theorem otherLines_nodup (consumed : List Nat) (lines : List Str) :
    ∀ (i : Nat) (seen : List Str),
      (otherLines consumed i lines seen).Nodup
        ∧ ∀ l ∈ otherLines consumed i lines seen, l ∉ seen := by
  induction lines with
  | nil => intro _ _; simp [otherLines]
  | cons line rest ih =>
    intro i seen
    unfold otherLines
    split_ifs with h1 h2
    · have hrec := ih (i + 1) (line :: seen)
      have hnot : line ∉ seen := by simpa using h2
      refine ⟨List.nodup_cons.2 ⟨fun hmem => hrec.2 line hmem (List.mem_cons_self _ _), hrec.1⟩, ?_⟩
      intro l hl
      rcases List.mem_cons.1 hl with hl | hl
      · rw [hl]; exact hnot
      · exact fun hs => hrec.2 l hl (List.mem_cons_of_mem _ hs)
    · exact ih _ _
    · exact ih _ _

/-- X4. The output of `mergeLinesHelper` is made of three sections joined by
line breaks: first the import statements it rebuilds (`importsOf`), each
starting with `import ` and in ascending order of their whole text (by UTF-16
code units); then the surviving mock blocks (`mocksOf`), each starting with
`jest.mock(`; then the remaining lines (`othersOf`), none of which starts
an import or a mock, without repetition and in their order among all the
lines. -/
theorem mergeLinesHelper_sections (localeCompare : Str → Str → Int)
    (originalContent mergedLines out : Str)
    (h : mergeLinesHelper localeCompare originalContent mergedLines = some out) :
    ∃ imports : List Str,
      importsOf (allLinesOf originalContent mergedLines) = some imports
        ∧ out = join "\n".toList
            (imports ++ mocksOf localeCompare (allLinesOf originalContent mergedLines)
              ++ othersOf (allLinesOf originalContent mergedLines)) ++ "\n".toList
        ∧ imports.Sorted codeUnitLE
        ∧ (∀ l ∈ imports, startsWith l "import ".toList = true)
        ∧ (∀ b ∈ mocksOf localeCompare (allLinesOf originalContent mergedLines),
              startsWith b "jest.mock(".toList = true)
        ∧ (∀ l ∈ othersOf (allLinesOf originalContent mergedLines),
              startsWith l "import ".toList = false
                ∧ startsWith l "jest.mock(".toList = false)
        ∧ (othersOf (allLinesOf originalContent mergedLines)).Nodup
        ∧ (othersOf (allLinesOf originalContent mergedLines)).Sublist
            (allLinesOf originalContent mergedLines) := by
  unfold mergeLinesHelper at h
  simp only [] at h
  cases hi : importsOf (allLinesOf originalContent mergedLines) with
  | none => simp [hi] at h
  | some imports =>
    simp only [hi, Option.some.injEq] at h
    refine ⟨imports, rfl, h.symm, sorted_importsOf _ _ hi, mem_importsOf_startsWith _ _ hi,
      mem_mocksOf_startsWith _ _, ?_, ?_, ?_⟩
    · intro l hl
      exact mem_otherLines _ _ 0 [] l hl
    · exact (otherLines_nodup _ _ 0 []).1
    · exact otherLines_sublist _ _ 0 []

/-- X4, witness. A skeleton with a line repeated, a mock and two imports. -/
theorem mergeLinesHelper_sections_witness :
    mergeLinesHelper (fun _ _ => 0)
        "foo();\njest.mock(\"m\");\nimport b from \"a\";\nfoo();\nimport a from \"b\";".toList []
        = some "import a from \"b\";\nimport b from \"a\";\njest.mock(\"m\");\nfoo();\n".toList
      ∧ ∃ imports : List Str,
          importsOf (allLinesOf
              "foo();\njest.mock(\"m\");\nimport b from \"a\";\nfoo();\nimport a from \"b\";".toList
              []) = some imports
            ∧ "import a from \"b\";\nimport b from \"a\";\njest.mock(\"m\");\nfoo();\n".toList
              = join "\n".toList
                (imports ++ mocksOf (fun _ _ => 0) (allLinesOf
                    "foo();\njest.mock(\"m\");\nimport b from \"a\";\nfoo();\nimport a from \"b\";".toList
                    [])
                  ++ othersOf (allLinesOf
                    "foo();\njest.mock(\"m\");\nimport b from \"a\";\nfoo();\nimport a from \"b\";".toList
                    [])) ++ "\n".toList
            ∧ imports.Sorted codeUnitLE
            ∧ (∀ l ∈ imports, startsWith l "import ".toList = true)
            ∧ (∀ b ∈ mocksOf (fun _ _ => 0) (allLinesOf
                  "foo();\njest.mock(\"m\");\nimport b from \"a\";\nfoo();\nimport a from \"b\";".toList
                  []), startsWith b "jest.mock(".toList = true)
            ∧ (∀ l ∈ othersOf (allLinesOf
                  "foo();\njest.mock(\"m\");\nimport b from \"a\";\nfoo();\nimport a from \"b\";".toList
                  []),
                  startsWith l "import ".toList = false
                    ∧ startsWith l "jest.mock(".toList = false)
            ∧ (othersOf (allLinesOf
                "foo();\njest.mock(\"m\");\nimport b from \"a\";\nfoo();\nimport a from \"b\";".toList
                [])).Nodup
            ∧ (othersOf (allLinesOf
                "foo();\njest.mock(\"m\");\nimport b from \"a\";\nfoo();\nimport a from \"b\";".toList
                [])).Sublist (allLinesOf
                "foo();\njest.mock(\"m\");\nimport b from \"a\";\nfoo();\nimport a from \"b\";".toList
                []) :=
  ⟨rfl, mergeLinesHelper_sections (fun _ _ => 0)
    "foo();\njest.mock(\"m\");\nimport b from \"a\";\nfoo();\nimport a from \"b\";".toList [] _ rfl⟩

/-- C7. For the skeleton lines `import b from "a";` and `import a from "b";`
and any collation, `mergeLinesHelper` returns the statement of the module `b`
before the one of the module `a`: the statements are sorted by their whole
text, so the modules of the output, `b` then `a`, are not in ascending
order. -/
theorem mergeLinesHelper_imports_sorted_by_statement_text
    (localeCompare : Str → Str → Int) :
    mergeLinesHelper localeCompare "import b from \"a\";\nimport a from \"b\";".toList []
        = some "import a from \"b\";\nimport b from \"a\";\n".toList
      ∧ importModulesOf "import a from \"b\";\nimport b from \"a\";\n".toList
        = ["b".toList, "a".toList]
      ∧ ¬ (["b".toList, "a".toList] : List Str).Sorted codeUnitLE :=
  ⟨rfl, by decide, by decide⟩

/-- C7, counterexample. The import statements of the output are not always in
ascending order of their module path: for the skeleton lines
`import b from "a";` and `import a from "b";` the output names the module `b`
before the module `a`. -/
theorem mergeLinesHelper_imports_not_by_module_path :
    ¬ ∀ (localeCompare : Str → Str → Int) (originalContent mergedLines out : Str),
        mergeLinesHelper localeCompare originalContent mergedLines = some out →
        (importModulesOf out).Sorted codeUnitLE := by
  intro h
  have h1 := h (fun _ _ => 0) "import b from \"a\";\nimport a from \"b\";".toList []
    "import a from \"b\";\nimport b from \"a\";\n".toList rfl
  revert h1
  decide

/-! ## `groupMocks` on two mocks of one module -/

theorem mockKey_nil : mockKey [] = none := by decide

theorem entries_singleton {V : Type} (k : Str) (v : V) :
    Dict.entries [(k, v)] = [(k, v)] := by
  unfold Dict.entries
  cases h : arrayIndex k <;> simp [h]

/-- X1. For two mock fragments that target the same module, whose name is not
one that plain objects inherit from `Object.prototype`, `groupMocks` returns
exactly one fragment: the second when it has a factory and the first has
none, the first otherwise. -/
theorem groupMocks_two_mocks_one_module (m1 m2 k : Str) (h1 : mockKey m1 = some k)
    (h2 : mockKey m2 = some k) (hk : objectPrototypeKeys.contains k = false) :
    groupMocks [m1, m2] = [if isFactory m2 && !isFactory m1 then m2 else m1] := by
  have hne1 : m1.isEmpty = false := by
    cases m1 with
    | nil => rw [mockKey_nil] at h1; exact absurd h1 (by simp)
    | cons _ _ => rfl
  have hne2 : m2.isEmpty = false := by
    cases m2 with
    | nil => rw [mockKey_nil] at h2; exact absurd h2 (by simp)
    | cons _ _ => rfl
  have hproto : (k == "__proto__".toList) = false := by
    cases hp : (k == "__proto__".toList) with
    | false => rfl
    | true =>
      have : k = "__proto__".toList := by simpa using hp
      rw [this] at hk
      exact absurd hk (by decide)
  have s1 : groupMocksStep [] m1 = [(k, m1)] := by
    simp only [groupMocksStep, hne1, h1, Dict.own, hproto, hk, Dict.put, Bool.false_eq_true,
      if_false]
  have s2 : groupMocksStep [(k, m1)] m2
      = [(k, if isFactory m2 && !isFactory m1 then m2 else m1)] := by
    simp only [groupMocksStep, hne2, h2, Dict.own, beq_self_eq_true, if_true, Bool.false_eq_true,
      if_false]
    split_ifs <;> simp [Dict.put]
  simp only [groupMocks, List.foldl_cons, List.foldl_nil, s1, s2, entries_singleton,
    List.map_cons, List.map_nil]

/-- X1, witness. A plain mock and a factory mock of the module `m`. -/
theorem groupMocks_two_mocks_one_module_witness :
    mockKey "jest.mock(\"m\");".toList = some "m".toList
      ∧ mockKey "jest.mock('m', () => 1);".toList = some "m".toList
      ∧ objectPrototypeKeys.contains "m".toList = false
      ∧ groupMocks ["jest.mock(\"m\");".toList, "jest.mock('m', () => 1);".toList]
          = [if isFactory "jest.mock('m', () => 1);".toList
                && !isFactory "jest.mock(\"m\");".toList
             then "jest.mock('m', () => 1);".toList else "jest.mock(\"m\");".toList] :=
  ⟨by decide, by decide, by decide,
   groupMocks_two_mocks_one_module _ _ "m".toList (by decide) (by decide) (by decide)⟩


/-! ## One import statement for each path read -/

theorem entries_perm {V : Type} (d : Dict V) : d.entries.Perm d := by
  unfold Dict.entries
  have hq : (fun e : Str × V => (arrayIndex e.1).isNone)
      = fun e => !(fun e : Str × V => (arrayIndex e.1).isSome) e := by
    funext e
    cases h : arrayIndex e.1 <;> simp [h]
  rw [hq]
  exact ((List.perm_insertionSort _ _).append (List.Perm.refl _)).trans
    (List.filter_append_perm _ d)

theorem keys_put {V : Type} (d : Dict V) (k : Str) (v : V) :
    (Dict.put d k v).map Prod.fst
      = if k ∈ d.map Prod.fst then d.map Prod.fst else d.map Prod.fst ++ [k] := by
  induction d with
  | nil => simp [Dict.put]
  | cons a d ih =>
    obtain ⟨j, w⟩ := a
    simp only [Dict.put]
    by_cases hjk : j = k
    · subst hjk
      simp only [beq_self_eq_true, if_true, List.map_cons, List.mem_cons, true_or]
    · have hb : (j == k) = false := by simpa using hjk
      have hkj : ¬ k = j := fun h => hjk h.symm
      simp only [hb, Bool.false_eq_true, if_false, List.map_cons, ih, List.mem_cons, hkj,
        false_or]
      split_ifs <;> rfl

theorem nodup_keys_put {V : Type} (d : Dict V) (k : Str) (v : V)
    (h : (d.map Prod.fst).Nodup) : ((Dict.put d k v).map Prod.fst).Nodup := by
  rw [keys_put]
  split_ifs with hk
  · exact h
  · rw [List.nodup_append]
    refine ⟨h, List.nodup_singleton k, fun x hx hx1 => hk ?_⟩
    rw [List.mem_singleton] at hx1
    exact hx1 ▸ hx

theorem nodup_keys_addImportNames (d d1 : Dict (List Str)) (path : Str) (ns : List Str)
    (h : (d.map Prod.fst).Nodup) (h1 : addImportNames d path ns = some d1) :
    (d1.map Prod.fst).Nodup := by
  unfold addImportNames at h1
  cases ho : d.own path with
  | none => simp [ho] at h1
  | some names =>
    simp only [ho, Option.some.injEq] at h1
    subst h1
    exact nodup_keys_put _ _ _ h

theorem nodup_keys_importStep (d d1 : Dict (List Str)) (line : Str)
    (h : (d.map Prod.fst).Nodup) (h1 : importStep d line = some d1) :
    (d1.map Prod.fst).Nodup := by
  unfold importStep at h1
  split_ifs at h1
  · cases hp : (reFromPath.exec line).bind (fun m => m.get 1) with
    | none =>
      simp only [hp, Option.some.injEq] at h1
      subst h1; exact h
    | some path =>
      simp only [hp] at h1
      have hd : ((if (d.own path).isNone && !objectPrototypeKeys.contains path
          then d.put path [] else d).map Prod.fst).Nodup := by
        split_ifs
        · exact nodup_keys_put _ _ _ h
        · exact h
      cases hn : (reImportNames.exec line).bind (fun m => m.get 1) with
      | some inner =>
        simp only [hn] at h1
        exact nodup_keys_addImportNames _ _ _ _ hd h1
      | none =>
        simp only [hn] at h1
        cases hdef : (reImportDefault.exec line).bind (fun m => m.get 1) with
        | some name =>
          simp only [hdef] at h1
          exact nodup_keys_addImportNames _ _ _ _ hd h1
        | none =>
          simp only [hdef, Option.some.injEq] at h1
          subst h1; exact hd
  · simp only [Option.some.injEq] at h1
    subst h1; exact h

theorem nodup_keys_importByPath (lines : List Str) :
    ∀ (d d1 : Dict (List Str)), (d.map Prod.fst).Nodup → importByPath lines d = some d1 →
      (d1.map Prod.fst).Nodup := by
  induction lines with
  | nil =>
    intro d d1 h h1
    simp only [importByPath, Option.some.injEq] at h1
    subst h1; exact h
  | cons line rest ih =>
    intro d d1 h h1
    unfold importByPath at h1
    cases hs : importStep d line with
    | none => simp [hs] at h1
    | some d2 =>
      simp only [hs] at h1
      exact ih d2 d1 (nodup_keys_importStep d d2 line h hs) h1

theorem importStatement_endsWith (entry : Str × List Str) :
    endsWith (importStatement entry) (" from \"".toList ++ entry.1 ++ "\";".toList) = true := by
  unfold importStatement endsWith
  simp only []
  rw [List.isSuffixOf_iff_suffix]
  split_ifs <;> exact List.suffix_append _ _

/-- X2. The import statements that `mergeLinesHelper` emits are built from
entries with pairwise different paths, one statement for each, and the
statement of an entry ends with `from "<its path>";`. -/
theorem importsOf_one_statement_per_path (allLines imports : List Str)
    (h : importsOf allLines = some imports) :
    ∃ entries : List (Str × List Str),
      (entries.map Prod.fst).Nodup
        ∧ imports.Perm (entries.map importStatement)
        ∧ ∀ e ∈ entries,
            endsWith (importStatement e) (" from \"".toList ++ e.1 ++ "\";".toList) = true := by
  unfold importsOf at h
  cases hd : importByPath allLines [] with
  | none => simp [hd] at h
  | some d =>
    simp only [hd, Option.map_some', Option.some.injEq] at h
    subst h
    refine ⟨d.entries, ?_, List.perm_insertionSort _ _, fun e _ => importStatement_endsWith e⟩
    rw [((entries_perm d).map Prod.fst).nodup_iff]
    exact nodup_keys_importByPath allLines [] d (by simp) hd

/-- X2, witness. Two imports of `p` and one of `q`. -/
theorem importsOf_one_statement_per_path_witness :
    importsOf ["import a from \"p\";".toList, "import b from \"p\";".toList,
               "import c from \"q\";".toList]
        = some ["import c from \"q\";".toList, "import \x7b a, b \x7d from \"p\";".toList]
      ∧ ∃ entries : List (Str × List Str),
          (entries.map Prod.fst).Nodup
            ∧ ["import c from \"q\";".toList, "import \x7b a, b \x7d from \"p\";".toList].Perm
                (entries.map importStatement)
            ∧ ∀ e ∈ entries,
                endsWith (importStatement e) (" from \"".toList ++ e.1 ++ "\";".toList)
                  = true :=
  ⟨by decide, importsOf_one_statement_per_path
    ["import a from \"p\";".toList, "import b from \"p\";".toList,
     "import c from \"q\";".toList]
    ["import c from \"q\";".toList, "import \x7b a, b \x7d from \"p\";".toList] (by decide)⟩

/-! ## The comparison of hook dependencies -/

theorem mem_uniq (l : List Str) (x : Str) : x ∈ uniq l ↔ x ∈ l := by
  induction l with
  | nil => simp [uniq]
  | cons a rest ih =>
    simp only [uniq, List.mem_cons, List.mem_filter, ih, bne_iff_ne, ne_eq]
    constructor
    · rintro (h | ⟨h, _⟩)
      · exact Or.inl h
      · exact Or.inr h
    · intro h
      by_cases hx : x = a
      · exact Or.inl hx
      · rcases h with h | h
        · exact absurd h hx
        · exact Or.inr ⟨h, hx⟩

theorem nodup_uniq (l : List Str) : (uniq l).Nodup := by
  induction l with
  | nil => simp [uniq]
  | cons a rest ih =>
    rw [uniq, List.nodup_cons]
    refine ⟨?_, ih.filter _⟩
    intro h
    have h2 := (List.mem_filter.mp h).2
    simp at h2

theorem uniq_filter (p : Str → Bool) (l : List Str) :
    uniq (l.filter p) = (uniq l).filter p := by
  induction l with
  | nil => simp [uniq]
  | cons a rest ih =>
    by_cases ha : p a = true
    · simp only [List.filter_cons, ha, if_true, uniq, ih, List.filter_filter]
      congr 1
      apply List.filter_congr
      intro x _
      exact Bool.and_comm _ _
    · have ha' : p a = false := by simpa using ha
      simp only [List.filter_cons, ha', Bool.false_eq_true, if_false, uniq, ih,
        List.filter_filter]
      apply List.filter_congr
      intro x hx
      by_cases hxa : x = a
      · subst hxa; simp [ha']
      · simp [hxa]

theorem contains_uniq (l : List Str) (x : Str) : (uniq l).contains x = l.contains x := by
  rw [Bool.eq_iff_iff]
  simp [mem_uniq]


/-! ## The deduplication of suggested blocks -/

theorem cleanStep_seen {Q P : Type} (st : List (List Nat) × List (SuggestedBlock Q P))
    (c : SuggestedBlock Q P) (k : List Nat) :
    (cleanStep st c).1.contains k = (st.1.contains k || c.key == some k) := by
  unfold cleanStep
  cases hk : c.key with
  | none => simp
  | some j =>
    have hjk : (some j == some k) = decide (j = k) := by
      by_cases h : j = k <;> simp [h]
    by_cases hj : st.1.contains j = true
    · simp only [hj, if_true, hjk]
      by_cases h : j = k
      · subst h
        have hmem : j ∈ st.1 := by simpa using hj
        simp [hmem]
      · simp [h]
    · simp only [hj, Bool.false_eq_true, if_false, hjk]
      rw [Bool.eq_iff_iff]
      simp only [List.contains_eq_any_beq, List.any_append, List.any_cons, List.any_nil,
        Bool.or_false, Bool.or_eq_true, beq_iff_eq, decide_eq_true_eq]
      constructor
      · rintro (h | h)
        · exact Or.inl h
        · exact Or.inr h.symm
      · rintro (h | h)
        · exact Or.inl h
        · exact Or.inr h.symm

theorem foldl_cleanStep_seen {Q P : Type} (l : List (SuggestedBlock Q P))
    (st : List (List Nat) × List (SuggestedBlock Q P)) (k : List Nat) :
    (l.foldl cleanStep st).1.contains k
      = (st.1.contains k || l.any (fun c => c.key == some k)) := by
  induction l generalizing st with
  | nil => simp
  | cons c rest ih =>
    rw [List.foldl_cons, ih, cleanStep_seen, List.any_cons, Bool.or_assoc]

/-- C11, as amended. The function `cleanSuggestedTestBlocks` handles the blocks from left
to right: a block without `meta` is always kept, and a block with `meta` is
kept, with its helpers filtered, exactly when no earlier block has the same
key. For one `meta` and one kind, two codes give the same key exactly when
their first 40 UTF-16 code units agree. -/
theorem cleanSuggestedTestBlocks_append {Q P : Type} (l : List (SuggestedBlock Q P))
    (b : SuggestedBlock Q P) :
    cleanSuggestedTestBlocks (l ++ [b])
        = cleanSuggestedTestBlocks l ++
          (match b.key with
           | none => [b]
           | some k => if l.any (fun c => c.key == some k) then [] else [b.cleaned])
      ∧ ∀ (m : BlockMeta Q) (type code₁ code₂ : Option Str),
          uniqueKey m type code₁ = uniqueKey m type code₂
            ↔ (units (code₁.getD [])).take 40 = (units (code₂.getD [])).take 40 := by
  constructor
  · unfold cleanSuggestedTestBlocks
    rw [List.foldl_append, List.foldl_cons, List.foldl_nil]
    cases hk : b.key with
    | none => simp [cleanStep, hk]
    | some k =>
      have hs := foldl_cleanStep_seen l ([], []) k
      simp only [List.contains_nil, Bool.false_or] at hs
      simp only [cleanStep, hk, hs]
      split_ifs <;> simp
  · intro m type code₁ code₂
    unfold uniqueKey keyTail
    cases m.contextsHelpers with
    | some helpers => simp
    | none =>
      cases m.mocksObjs with
      | some mocksKey => simp
      | none => simp

/-- C11, counterexample. Two blocks of the kind `render` whose codes agree on
their first 40 characters and differ after them: only the first is kept. -/
theorem cleanSuggestedTestBlocks_drops_block_differing_after_40 :
    cleanSuggestedTestBlocks
        [({ meta := some ⟨none, none, none⟩, type := some "render".toList,
            code := some "it('renders without crashing', () => \x7b render(<Card />); \x7d);".toList,
            rest := () } : SuggestedBlock Unit Unit),
         { meta := some ⟨none, none, none⟩, type := some "render".toList,
           code := some "it('renders without crashing', () => \x7b render(<Page />); \x7d);".toList,
           rest := () }]
      = [{ meta := some ⟨none, none, none⟩, type := some "render".toList,
           code := some "it('renders without crashing', () => \x7b render(<Card />); \x7d);".toList,
           rest := () }] := by
  decide

/-! ## The rules that fire on the result of `analyzeASTHelper` -/

theorem mem_dedupeBlocks {M : Type} (l : List (Block M)) :
    ∀ (seen : List Str) (c : Block M), c ∈ dedupeBlocks seen l → c ∈ l := by
  induction l with
  | nil => intro _ _ h; simp [dedupeBlocks] at h
  | cons b rest ih =>
    intro seen c h
    by_cases hk : seen.contains (blockKey b) = true
    · simp only [dedupeBlocks, hk, if_true] at h
      exact List.mem_cons_of_mem _ (ih _ c h)
    · simp only [dedupeBlocks, hk, Bool.false_eq_true, if_false, List.mem_cons] at h
      rcases h with h | h
      · subst h; exact List.mem_cons_self _ _
      · exact List.mem_cons_of_mem _ (ih _ c h)

theorem mem_suggestTestBlocks {F M : Type} (g : Generators F M) (context : Results F)
    (b : Block M) (h : b ∈ suggestTestBlocks g context) :
    ∃ r : RuleId, r.condition context = true ∧ b = r.fn g context := by
  rw [suggestTestBlocks_eq_dedupe_produced] at h
  have hp := mem_dedupeBlocks _ _ _ h
  obtain ⟨r, hr, rfl⟩ := List.mem_map.1 hp
  exact ⟨r, (List.mem_filter.1 hr).2, rfl⟩

theorem analyzeASTHelper_isSome {F : Type} (name : F → Str) (d : Detected F) :
    ∃ bundle, analyzeASTHelper name d = some bundle
      ∧ bundle.results.performance = none ∧ bundle.results.exportDefault = none
      ∧ bundle.mainComponent = d.mainComponent
      ∧ bundle.usedVariablesInFunction = []
      ∧ bundle.hooksDependences = compareHookDependencies name [] d.effectDeps
      ∧ bundle.inlineFunctionsInJSX = d.inlineFunctionsInJSX
      ∧ bundle.expensiveCalculationsInJSX = d.expensiveCalculationsInJSX :=
  ⟨_, rfl, rfl, rfl, rfl, rfl, rfl, rfl, rfl⟩

/-- C12. Whatever the detectors return, `analyzeASTHelper` returns a result
in which the member `performance` read by the guard of the rule `performance`
is not set: the guard is false, also when the comparison of hook dependencies
reports a dependency or when an inline function or an expensive calculation was
found in the markup, and no block returned by `suggestTestBlocks` has the kind
`performance`. -/
theorem suggestTestBlocks_no_performance_block {F M : Type} (name : F → Str)
    (g : Generators F M) (d : Detected F) :
    ∃ bundle, analyzeASTHelper name d = some bundle
      ∧ bundle.hooksDependences.unusedDeps = uniq (d.effectDeps.map name)
      ∧ bundle.inlineFunctionsInJSX = d.inlineFunctionsInJSX
      ∧ bundle.expensiveCalculationsInJSX = d.expensiveCalculationsInJSX
      ∧ RuleId.condition .performance bundle.results = false
      ∧ ∀ b ∈ suggestTestBlocks g bundle.results, b.type ≠ some "performance".toList := by
  obtain ⟨bundle, hb, hperf, _, _, _, hdeps, hin, hex⟩ := analyzeASTHelper_isSome name d
  refine ⟨bundle, hb, ?_, hin, hex, ?_, ?_⟩
  · rw [hdeps]
    simp only [compareHookDependencies, List.map_nil, uniq]
    rw [List.filter_eq_self]
    intro a _
    simp
  · simp [RuleId.condition, hperf]
  · intro b hmem
    obtain ⟨r, _, rfl⟩ := mem_suggestTestBlocks g bundle.results b hmem
    cases r <;> simp [RuleId.fn, RuleId.blockType]

/-- C13. Whatever the detectors return, `analyzeASTHelper` returns a result
that carries the entry point as `mainComponent` and in which the member
`exportDefault` read by the guard of the rule `hoc` is not set: the guard is
false, also when the entry point has `isHOC` true, and no block returned by
`suggestTestBlocks` has the kind `hoc`. -/
theorem suggestTestBlocks_no_hoc_block {F M : Type} (name : F → Str)
    (g : Generators F M) (d : Detected F) :
    ∃ bundle, analyzeASTHelper name d = some bundle
      ∧ bundle.mainComponent = d.mainComponent
      ∧ RuleId.condition .hoc bundle.results = false
      ∧ ∀ b ∈ suggestTestBlocks g bundle.results, b.type ≠ some "hoc".toList := by
  obtain ⟨bundle, hb, _, hexp, hmain, _⟩ := analyzeASTHelper_isSome name d
  refine ⟨bundle, hb, hmain, ?_, ?_⟩
  · simp [RuleId.condition, hexp]
  · intro b hmem
    obtain ⟨r, hr, rfl⟩ := mem_suggestTestBlocks g bundle.results b hmem
    cases r <;> simp [RuleId.fn, RuleId.blockType]
    simp [RuleId.condition, hexp] at hr

/-- C14, as amended. The member `contexts` of the `meta` of the block of
`suggestContextBlock` lists the facts with `isProvider` true, in their order,
and no other fact. The value shape of an entry whose fact has a truthy value
shape is the default recorded under its name in `contextDefaultValues` when
the context is created in the file and such a default is recorded, and the
value shape of the fact otherwise. -/
theorem metaContexts_lists_providers {N O P : Type} (host : Host N O)
    (cs : List (ContextFact N O P)) (contextDefaultValues : Str → JSVal N O) :
    (metaContexts host ⟨some cs, contextDefaultValues⟩).map (fun e => e.fact)
        = cs.filter (fun ctx => ctx.isProvider)
      ∧ ∀ e ∈ metaContexts host ⟨some cs, contextDefaultValues⟩,
          e.fact.isProvider = true
            ∧ (e.fact.valueShape.truthy host = true →
                e.valueShape =
                  match e.fact.created, contextDefaultValues (e.fact.name.toStr host) with
                  | true, .undefined => e.fact.valueShape
                  | true, v => v
                  | false, _ => e.fact.valueShape) := by
  constructor
  · simp [metaContexts, List.map_map, Function.comp_def]
  · intro e he
    simp only [metaContexts, List.mem_map, List.mem_filter] at he
    obtain ⟨ctx, ⟨_, hprov⟩, rfl⟩ := he
    refine ⟨hprov, ?_⟩
    intro ht
    simp only [enrichedValueShape, JSVal.or, ht, if_true]
    cases ctx.created
    · simp
    · cases contextDefaultValues (ctx.name.toStr host) <;> simp

/-- C14, counterexample. Two facts for the context `ThemeContext`, the first
hook-style and the second provider-style with a value shape: the metadata has
one entry, the provider-style one. -/
theorem metaContexts_hook_fact_not_listed :
    (metaContexts sampleHost
        ⟨some [ContextFact.simple "ThemeContext".toList false true .undefined,
               ContextFact.simple "ThemeContext".toList true false
                 (.str "\x7b theme: \"dark\" \x7d".toList)],
         fun _ => .undefined⟩).map
      (fun e => (e.fact.isHook, e.fact.isProvider, e.valueShape))
      = [(false, true, .str "\x7b theme: \"dark\" \x7d".toList)] := by
  decide

/-- C15. For all lists `U` of used-variable facts and `D` of declared
dependencies, `compareHookDependencies` returns as `missingDeps` the first
occurrences of the names of `U` that are not names of `D`, as `unusedDeps` the
first occurrences of the names of `D` that are not names of `U`, and as
`mutableDeps` the names of the entries of `D` that contain one of the
characters of an index, object, call or member access, in the order of `D`. The two first
lists have no repetition and hold exactly the names described. For `U = [a, b.c, d]`
and `D = [a, b.c]` the report is `[d]`, `[]`, `[b.c]`. -/
theorem compareHookDependencies_report {F : Type} (name : F → Str) (U D : List F) :
    (compareHookDependencies name U D).missingDeps
        = uniq ((U.map name).filter (fun n => !(D.map name).contains n))
      ∧ (compareHookDependencies name U D).unusedDeps
        = uniq ((D.map name).filter (fun n => !(U.map name).contains n))
      ∧ (compareHookDependencies name U D).mutableDeps
        = (D.map name).filter (fun n =>
            includes n "[".toList || includes n "\x7b".toList
              || includes n "(".toList || includes n ".".toList)
      ∧ (compareHookDependencies name U D).missingDeps.Nodup
      ∧ (compareHookDependencies name U D).unusedDeps.Nodup
      ∧ (∀ n, n ∈ (compareHookDependencies name U D).missingDeps
            ↔ n ∈ U.map name ∧ n ∉ D.map name)
      ∧ (∀ n, n ∈ (compareHookDependencies name U D).unusedDeps
            ↔ n ∈ D.map name ∧ n ∉ U.map name)
      ∧ compareHookDependencies (fun s : Str => s)
          ["a".toList, "b.c".toList, "d".toList] ["a".toList, "b.c".toList]
        = { missingDeps := ["d".toList], unusedDeps := [], mutableDeps := ["b.c".toList] } := by
  have hm : (compareHookDependencies name U D).missingDeps
      = uniq ((U.map name).filter (fun n => !(D.map name).contains n)) := by
    simp only [compareHookDependencies, uniq_filter, contains_uniq]
  have hu : (compareHookDependencies name U D).unusedDeps
      = uniq ((D.map name).filter (fun n => !(U.map name).contains n)) := by
    simp only [compareHookDependencies, uniq_filter, contains_uniq]
  refine ⟨hm, hu, ?_, ?_, ?_, ?_, ?_, by decide⟩
  · simp only [compareHookDependencies, List.filter_map]
    rfl
  · rw [hm]; exact nodup_uniq _
  · rw [hu]; exact nodup_uniq _
  · intro n
    rw [hm, mem_uniq, List.mem_filter]
    simp
  · intro n
    rw [hu, mem_uniq, List.mem_filter]
    simp

/-- C16. The walk `getUsedVariablesInFunction` throws on the first reference
of a node with a body, and `analyzeASTHelper` passes it the entry point, a
record without a body: the list of used variables of the result is empty, so
no dependency is reported missing and every declared dependency is reported
unused. With the declared dependencies `a` and `b.c` the report has
`missingDeps = []` and `unusedDeps = [a, b.c]`. -/
theorem analyzeASTHelper_used_variables_empty {F : Type} (name : F → Str) (d : Detected F) :
    (∀ (r : F) (rs : List F), getUsedVariablesInFunction (some ⟨true, r :: rs⟩) = none)
      ∧ (∃ bundle, analyzeASTHelper name d = some bundle
          ∧ bundle.usedVariablesInFunction = []
          ∧ bundle.hooksDependences.missingDeps = []
          ∧ bundle.hooksDependences.unusedDeps = uniq (d.effectDeps.map name))
      ∧ compareHookDependencies (fun s : Str => s) [] ["a".toList, "b.c".toList]
          = { missingDeps := [], unusedDeps := ["a".toList, "b.c".toList],
              mutableDeps := ["b.c".toList] } := by
  refine ⟨fun _ _ => rfl, ?_, by decide⟩
  obtain ⟨bundle, hb, _, _, _, hused, hdeps, _⟩ := analyzeASTHelper_isSome name d
  refine ⟨bundle, hb, hused, ?_, ?_⟩
  · rw [hdeps]; rfl
  · rw [hdeps]
    simp only [compareHookDependencies, List.map_nil, uniq]
    rw [List.filter_eq_self]
    intro a _
    simp

/-! ## The heuristics of `getExampleValue` -/

theorem find?_cons_of_applies {N O : Type} (r : ExampleRule N O) (rest : List (ExampleRule N O))
    (type nameLower : Str) (h : r.applies type nameLower = true) :
    (r :: rest).find? (fun r => r.applies type nameLower) = some r := by
  simp [List.find?, h]

theorem find?_cons_of_not_applies {N O : Type} (r : ExampleRule N O)
    (rest : List (ExampleRule N O)) (type nameLower : Str)
    (h : r.applies type nameLower = false) :
    (r :: rest).find? (fun r => r.applies type nameLower)
      = rest.find? (fun r => r.applies type nameLower) := by
  simp [List.find?, h]

theorem getGeneralExample_eq_firstRuleValue {N O : Type} (host : Host N O)
    (type nameLower : Str) :
    getGeneralExample host type nameLower
      = firstRuleValue (exampleRules host) type nameLower := by
  unfold getGeneralExample firstRuleValue exampleRules exampleRulesWith
  have happ : ∀ (onType asPrefix : Bool) (tokens : List Str) (value : JSVal N O),
      (ExampleRule.mk onType asPrefix tokens value).applies type nameLower
        = tokens.any (fun t =>
            if asPrefix then startsWith (if onType then type else nameLower) t
            else includes (if onType then type else nameLower) t) := fun _ _ _ _ => rfl
  by_cases h1 : TYPE_STRING.any (fun t => includes type t) = true
  · rw [if_pos h1, find?_cons_of_applies _ _ _ _ (by rw [happ]; exact h1)]
  rw [if_neg h1, find?_cons_of_not_applies _ _ _ _ (by rw [happ]; exact Bool.eq_false_iff.2 h1)]
  by_cases h2 : TYPE_NUMBER.any (fun t => includes type t) = true
  · rw [if_pos h2, find?_cons_of_applies _ _ _ _ (by rw [happ]; exact h2)]
  rw [if_neg h2, find?_cons_of_not_applies _ _ _ _ (by rw [happ]; exact Bool.eq_false_iff.2 h2)]
  by_cases h3 : TYPE_BOOLEAN.any (fun t => includes type t) = true
  · rw [if_pos h3, find?_cons_of_applies _ _ _ _ (by rw [happ]; exact h3)]
  rw [if_neg h3, find?_cons_of_not_applies _ _ _ _ (by rw [happ]; exact Bool.eq_false_iff.2 h3)]
  by_cases h4 : TYPE_ARRAY.any (fun t => includes type t) = true
  · rw [if_pos h4, find?_cons_of_applies _ _ _ _ (by rw [happ]; exact h4)]
  rw [if_neg h4, find?_cons_of_not_applies _ _ _ _ (by rw [happ]; exact Bool.eq_false_iff.2 h4)]
  by_cases h5 : TYPE_OBJECT.any (fun t => includes type t) = true
  · rw [if_pos h5, find?_cons_of_applies _ _ _ _ (by rw [happ]; exact h5)]
  rw [if_neg h5, find?_cons_of_not_applies _ _ _ _ (by rw [happ]; exact Bool.eq_false_iff.2 h5)]
  by_cases h6 : NAME_STRING.any (fun pat => includes nameLower pat) = true
  · rw [if_pos h6, find?_cons_of_applies _ _ _ _ (by rw [happ]; exact h6)]
  rw [if_neg h6, find?_cons_of_not_applies _ _ _ _ (by rw [happ]; exact Bool.eq_false_iff.2 h6)]
  by_cases h7 : NAME_NUMBER.any (fun pat => includes nameLower pat) = true
  · rw [if_pos h7, find?_cons_of_applies _ _ _ _ (by rw [happ]; exact h7)]
  rw [if_neg h7, find?_cons_of_not_applies _ _ _ _ (by rw [happ]; exact Bool.eq_false_iff.2 h7)]
  by_cases h8 : NAME_BOOLEAN.any (fun pat => startsWith nameLower pat) = true
  · rw [if_pos h8, find?_cons_of_applies _ _ _ _ (by rw [happ]; exact h8)]
  rw [if_neg h8, find?_cons_of_not_applies _ _ _ _ (by rw [happ]; exact Bool.eq_false_iff.2 h8)]
  by_cases h9 : NAME_ARRAY.any (fun pat => includes nameLower pat) = true
  · rw [if_pos h9, find?_cons_of_applies _ _ _ _ (by rw [happ]; exact h9)]
  rw [if_neg h9, find?_cons_of_not_applies _ _ _ _ (by rw [happ]; exact Bool.eq_false_iff.2 h9)]
  by_cases h10 : NAME_OBJECT.any (fun pat => includes nameLower pat) = true
  · rw [if_pos h10, find?_cons_of_applies _ _ _ _ (by rw [happ]; exact h10)]
  rw [if_neg h10, find?_cons_of_not_applies _ _ _ _ (by rw [happ]; exact Bool.eq_false_iff.2 h10)]
  rfl

theorem firstHint_eq_none {N O : Type} (host : Host N O) (d : Def N O)
    (h : firstHint host d = none) :
    d.exampleArray.truthy host = false ∧ firstOfArray d.possibleValues = none
      ∧ d.defaultValue = .undefined ∧ firstOfArray d.enum = none ∧ d.default = .undefined := by
  unfold firstHint hintCandidates at h
  simp only [List.findSome?, id] at h
  by_cases h1 : d.exampleArray.truthy host = true
  · simp [h1] at h
  simp only [h1, Bool.false_eq_true, if_false] at h
  cases h2 : firstOfArray d.possibleValues with
  | some w => simp [h2] at h
  | none =>
    simp only [h2, Option.map_none'] at h
    cases h4 : firstOfArray d.enum with
    | some w => cases h3 : d.defaultValue <;> simp [h3, h4] at h
    | none =>
      simp only [h4, Option.map_none'] at h
      refine ⟨by simpa using h1, rfl, ?_, rfl, ?_⟩
      · cases h3 : d.defaultValue <;> simp [h3] at h ⊢
      · cases h3 : d.defaultValue <;> cases h5 : d.default <;> simp [h3, h5] at h ⊢

/-- C17. When one of the hints of a definition applies (the example array
when it is truthy; the first possible value when the list is not empty; the
default value when it is not `undefined`; the first enumerated value when the
list is not empty; the static default when it is not `undefined`),
`getExampleValue` returns the value of the first one that applies, in this
order, whatever the usage category: the example array itself, or the JSON text
of the others. -/
theorem getExampleValue_first_hint {N O : Type} (host : Host N O) (d : Def N O)
    (usageType : Str) (v : JSVal N O) (h : firstHint host d = some v) :
    getExampleValue host (some d) usageType = v := by
  unfold firstHint hintCandidates at h
  unfold getExampleValue
  by_cases h1 : d.exampleArray.truthy host = true
  · simp only [h1, if_true, List.findSome?, id] at h
    simp only [h1, if_true]
    exact Option.some.inj h
  · simp only [h1, Bool.false_eq_true, if_false, List.findSome?, id] at h
    simp only [h1, Bool.false_eq_true, if_false]
    cases h2 : firstOfArray d.possibleValues with
    | some w =>
      simp only [h2, Option.map_some'] at h
      exact Option.some.inj h
    | none =>
      simp only [h2, Option.map_none'] at h
      cases h3 : d.defaultValue <;> simp only [h3] at h <;>
        first
        | exact Option.some.inj h
        | (cases h4 : firstOfArray d.enum with
           | some w =>
             simp only [h4, Option.map_some'] at h
             exact Option.some.inj h
           | none =>
             simp only [h4, Option.map_none'] at h
             cases h5 : d.default <;> simp only [h5] at h <;>
               first
               | exact Option.some.inj h
               | exact absurd h (by simp))

/-- C17, witness. The definition with the name `role` and the possible values
`["admin"]` under the category `prop`: the result is the text `"admin"`,
quotes included. -/
theorem getExampleValue_first_hint_witness :
    firstHint sampleHost
        { (Def.blank : Def Int Unit) with
          name := .str "role".toList, possibleValues := some [.str "admin".toList] }
        = some (.str "\"admin\"".toList)
      ∧ getExampleValue sampleHost
          (some { (Def.blank : Def Int Unit) with
                  name := .str "role".toList, possibleValues := some [.str "admin".toList] })
          "prop".toList = .str "\"admin\"".toList :=
  ⟨by decide, getExampleValue_first_hint sampleHost _ "prop".toList _ (by decide)⟩

/-- C18, as amended. For a definition to which no hint applies, `getExampleValue` returns
the stub `jest.fn()` under the category `handler`; under `render` the
placeholder markup when the lower-cased name is `children`; and otherwise the
value of the first rule that matches in the list `exampleRules`: the type
tokens `string`, then `number`, `int`, `float`, `double`, then `boolean`,
`bool`, then `array`, then `object`, before the name patterns, and the text
`null` when no rule matches. -/
theorem getExampleValue_heuristics {N O : Type} (host : Host N O) (d : Def N O)
    (usageType : Str) (h : firstHint host d = none) :
    getExampleValue host (some d) usageType
      = if usageType = "handler".toList then .str "jest.fn()".toList
        else if usageType = "render".toList ∧ d.nameText host = "children".toList then
          .str "<span data-testid=\"test-child\">Test</span>".toList
        else firstRuleValue (exampleRules host) (d.typeText host) (d.nameText host) := by
  obtain ⟨h1, h2, h3, h4, h5⟩ := firstHint_eq_none host d h
  unfold getExampleValue
  simp only [h1, h2, h3, h4, h5, Bool.false_eq_true, if_false]
  by_cases hh : usageType = "handler".toList
  · subst hh
    have hr : ("handler".toList == "render".toList) = false := by decide
    simp only [hr, Bool.false_eq_true, if_false, beq_self_eq_true, if_true, getHandlerExample]
    split_ifs <;> rfl
  · rw [if_neg hh]
    by_cases hr : usageType = "render".toList
    · subst hr
      simp only [beq_self_eq_true, if_true, getRenderExample, true_and]
      by_cases hc : d.nameText host = "children".toList
      · have hc' := hc
        unfold Def.nameText at hc'
        simp [hc, hc']
      · have hc' := hc
        unfold Def.nameText at hc'
        rw [if_neg hc]
        have hb : (host.toLowerCase (((d.name.or host d.key).or host (.str [])).toStr host)
            == "children".toList) = false := by simpa using hc'
        simp only [hb, Bool.false_eq_true, if_false]
        exact getGeneralExample_eq_firstRuleValue host _ _
    · have hb1 : (usageType == "render".toList) = false := by simpa using hr
      have hb2 : (usageType == "handler".toList) = false := by simpa using hh
      simp only [hb1, hb2, Bool.false_eq_true, if_false, hr, false_and]
      exact getGeneralExample_eq_firstRuleValue host _ _

/-- C18, witness. A definition with the type `double` and no name, under the
category `state`: the result is the number 42. -/
theorem getExampleValue_heuristics_witness :
    firstHint sampleHost { (Def.blank : Def Int Unit) with type := .str "double".toList } = none
      ∧ getExampleValue sampleHost
          (some { (Def.blank : Def Int Unit) with type := .str "double".toList })
          "state".toList = .num 42 :=
  ⟨by decide,
   (getExampleValue_heuristics sampleHost
      { (Def.blank : Def Int Unit) with type := .str "double".toList } "state".toList
      (by decide)).trans (by decide)⟩

/-- C18, counterexample. A definition with the type `int` and the name
`title`, under the category `prop`: no hint applies, the rules with the five
type tokens `string`, `number`, `boolean`, `array`, `object` give the text
`"example"` by the name, and `getExampleValue` returns the number 42 by the
type. -/
theorem getExampleValue_type_int_is_number :
    firstHint sampleHost
        { (Def.blank : Def Int Unit) with type := .str "int".toList, name := .str "title".toList }
        = none
      ∧ firstRuleValue (exampleRulesFiveTokens sampleHost) "int".toList "title".toList
        = .str "\"example\"".toList
      ∧ getExampleValue sampleHost
          (some { (Def.blank : Def Int Unit) with
                  type := .str "int".toList, name := .str "title".toList })
          "prop".toList = .num 42 := by
  decide

/-! ## The hints of `findPropValueHints` -/

theorem own_put_self {V : Type} (d : Dict V) (k : Str) (v : V) :
    (Dict.put d k v).own k = some v := by
  induction d with
  | nil => simp [Dict.put, Dict.own]
  | cons p rest ih =>
    obtain ⟨j, w⟩ := p
    by_cases hj : (j == k) = true
    · simp [Dict.put, Dict.own, hj]
    · simp [Dict.put, Dict.own, hj, ih]

theorem addPossibleValue_adds {N : Type} [DecidableEq N] (hints : Dict (Hint N)) (x : Str)
    (value : HintVal N)
    (hentry : (match hints.own x with
      | some h => h.possibleValues.isSome
      | none => !objectPrototypeKeys.contains x) = true) :
    ∃ hints1 h vs, addPossibleValue hints x value = .ok hints1
      ∧ hints1.own x = some h ∧ h.possibleValues = some vs ∧ value ∈ vs := by
  unfold addPossibleValue
  cases ho : hints.own x with
  | none =>
    simp only [ho, Bool.not_eq_true'] at hentry
    simp only [hentry, Bool.false_eq_true, if_false]
    exact ⟨_, _, _, rfl, own_put_self _ _ _, rfl, List.mem_singleton.2 rfl⟩
  | some h =>
    simp only [ho] at hentry
    cases hp : h.possibleValues with
    | none => simp [hp] at hentry
    | some vs =>
      simp only [hp]
      refine ⟨_, _, if vs.contains value = true then vs else vs ++ [value], rfl,
        own_put_self _ _ _, rfl, ?_⟩
      by_cases hc : vs.contains value = true
      · rw [if_pos hc]; simpa using hc
      · rw [if_neg hc]; simp

/-- X3. When the name `x` has no entry yet and is not the name of a member
of `Object.prototype`, or has an entry with a list of possible values, the
visitor of a comparison of `x` with a numeric literal `n` succeeds, and
afterwards the possible values of `x` hold `n + 1` for the operators `>` and
`>=`, and `n - 1` for `<` and `<=`. -/
theorem visitNode_relational_adds_example {N O : Type} [DecidableEq N] (host : Host N O)
    (hints : Dict (Hint N)) (x operator : Str) (n : N)
    (hop : operator ∈ [">", ">=", "<", "<="].map String.toList)
    (hentry : (match hints.own x with
      | some h => h.possibleValues.isSome
      | none => !objectPrototypeKeys.contains x) = true) :
    ∃ hints1 h vs,
      visitNode host hints (.binaryExpression operator (.identifier x) (.numericLiteral n))
        = .ok hints1
      ∧ hints1.own x = some h ∧ h.possibleValues = some vs
      ∧ (if operator = ">".toList ∨ operator = ">=".toList then HintVal.num (host.plusOne n)
         else HintVal.num (host.minusOne n)) ∈ vs := by
  simp only [List.map_cons, List.map_nil, List.mem_cons, List.mem_singleton,
    List.not_mem_nil, or_false] at hop
  rcases hop with h | h | h | h <;> subst h
  · exact addPossibleValue_adds hints x (.num (host.plusOne n)) hentry
  · exact addPossibleValue_adds hints x (.num (host.plusOne n)) hentry
  · exact addPossibleValue_adds hints x (.num (host.minusOne n)) hentry
  · exact addPossibleValue_adds hints x (.num (host.minusOne n)) hentry

/-- X3, witness. The comparison `count > 5` alone gives the possible value 6
for `count`. -/
theorem visitNode_relational_adds_example_witness :
    ∃ hints1 h vs,
      visitNode sampleHost ([] : Dict (Hint Int))
          (.binaryExpression ">".toList (.identifier "count".toList) (.numericLiteral 5))
        = .ok hints1
      ∧ hints1.own "count".toList = some h ∧ h.possibleValues = some vs
      ∧ (if ">".toList = ">".toList ∨ ">".toList = ">=".toList then
           HintVal.num (sampleHost.plusOne 5)
         else HintVal.num (sampleHost.minusOne 5)) ∈ vs :=
  visitNode_relational_adds_example sampleHost [] "count".toList ">".toList 5
    (by decide) (by decide)

/-- C19. Two components on which `findPropValueHints` throws a `TypeError`
at a numeric comparison instead of recording a possible value: one whose
parameter `count` has the default `0` and whose body has `count > 5` (the
entry made for the default has no list of possible values), and one that
compares the name `constructor`, which a lookup in the empty object of hints
finds on `Object.prototype`. The comparison `count > 5` alone gives the
possible value 6. -/
theorem findPropValueHints_comparison_after_default_throws :
    findPropValueHints sampleHost
        [.assignmentPattern (.identifier "count".toList) (.numericLiteral 0),
         .binaryExpression ">".toList (.identifier "count".toList) (.numericLiteral 5)]
        = .error .typeError
      ∧ findPropValueHints sampleHost
          [.binaryExpression ">".toList (.identifier "constructor".toList) (.numericLiteral 5)]
        = .error .typeError
      ∧ findPropValueHints sampleHost
          [.binaryExpression ">".toList (.identifier "count".toList) (.numericLiteral 5)]
        = .ok [("count".toList, ⟨none, some [.num 6], none⟩)] :=
  ⟨rfl, rfl, rfl⟩

/-- C20. Two components on which `findPropValueHints` throws a `TypeError`
instead of accumulating the hints: one whose parameter `role` has the default
`"user"` and whose body compares `role === "admin"`, and one whose body calls
`items.map(...)` and then negates `items`. In both, the entry that the first
pattern creates has no list of possible values for the second to read. With
the patterns in the other order both hints are recorded. -/
theorem findPropValueHints_default_then_comparison_throws :
    findPropValueHints sampleHost
        [.assignmentPattern (.identifier "role".toList) (.stringLiteral "user".toList),
         .binaryExpression "===".toList (.identifier "role".toList)
           (.stringLiteral "admin".toList)]
        = .error .typeError
      ∧ findPropValueHints sampleHost
          [.callExpression (.memberExpression (.identifier "items".toList) (some "map".toList))
             [.other none],
           .unaryExpression "!".toList (.identifier "items".toList)]
        = .error .typeError
      ∧ findPropValueHints sampleHost
          [.binaryExpression "===".toList (.identifier "role".toList)
             (.stringLiteral "admin".toList),
           .assignmentPattern (.identifier "role".toList) (.stringLiteral "user".toList)]
        = .ok [("role".toList,
                ⟨none, some [.str "admin".toList], some (.str "user".toList)⟩)] :=
  ⟨rfl, rfl, rfl⟩

/-! ## The entry point of a file -/

theorem splitOnCharAux_ne_nil (sep : Char) (s cur : Str) : splitOnCharAux sep s cur ≠ [] := by
  induction s generalizing cur with
  | nil => simp [splitOnCharAux]
  | cons c cs ih =>
    unfold splitOnCharAux
    split_ifs
    · simp
    · exact ih _

theorem head?_splitOnCharAux (sep : Char) (s cur : Str) :
    (splitOnCharAux sep s cur).head?
      = some (cur.reverse ++ s.takeWhile (fun c => c != sep)) := by
  induction s generalizing cur with
  | nil => simp [splitOnCharAux]
  | cons c cs ih =>
    unfold splitOnCharAux
    by_cases h : (c == sep) = true
    · have hc : c = sep := by simpa using h
      simp [h, hc]
    · have hc : c ≠ sep := by simpa using h
      simp only [h, Bool.false_eq_true, if_false, ih]
      simp [List.takeWhile_cons, hc]

theorem takeWhile_reverse_cons (sep c : Char) (cs : Str) :
    ((c :: cs).reverse.takeWhile (fun d => d != sep)).reverse
      = if sep ∈ cs then (cs.reverse.takeWhile (fun d => d != sep)).reverse
        else if c = sep then cs else c :: cs := by
  rw [List.reverse_cons, List.takeWhile_append]
  by_cases hmem : sep ∈ cs
  · have hlt : ¬ (cs.reverse.takeWhile (fun d => d != sep)).length = cs.reverse.length := by
      intro hlen
      have hall := List.takeWhile_eq_self_iff.mp
        (List.IsPrefix.eq_of_length (List.takeWhile_prefix _) hlen)
      have := hall sep (List.mem_reverse.mpr hmem)
      simp at this
    simp only [hlt, if_false, hmem, if_true]
  · have hall : cs.reverse.takeWhile (fun d => d != sep) = cs.reverse := by
      rw [List.takeWhile_eq_self_iff]
      intro d hd
      have hd' : d ∈ cs := List.mem_reverse.mp hd
      have : d ≠ sep := fun h => hmem (h ▸ hd')
      simpa using this
    simp only [hall, if_true, hmem, if_false]
    by_cases hc : c = sep
    · simp [hc]
    · simp [List.takeWhile_cons, hc]

theorem getLast?_cons_of_ne_nil {α : Type} (a : α) (l : List α) (h : l ≠ []) :
    (a :: l).getLast? = l.getLast? := by
  cases l with
  | nil => exact absurd rfl h
  | cons b rest => simp [List.getLast?_cons_cons]

theorem getLast?_splitOnCharAux (sep : Char) (s cur : Str) :
    (splitOnCharAux sep s cur).getLast?
      = some (if sep ∈ s then (s.reverse.takeWhile (fun d => d != sep)).reverse
              else cur.reverse ++ s) := by
  induction s generalizing cur with
  | nil => simp [splitOnCharAux]
  | cons c cs ih =>
    unfold splitOnCharAux
    rw [takeWhile_reverse_cons]
    by_cases h : (c == sep) = true
    · have hc : c = sep := by simpa using h
      simp only [h, if_true]
      rw [getLast?_cons_of_ne_nil _ _ (splitOnCharAux_ne_nil _ _ _), ih]
      simp [hc]
    · have hc : c ≠ sep := by simpa using h
      simp only [h, Bool.false_eq_true, if_false, ih]
      by_cases hm : sep ∈ cs
      · simp [hm]
      · simp [hm, hc, Ne.symm hc]

theorem fileBase_eq (f : Str) : fileBase f = some (beforeFirstDot (lastSegment f)) := by
  unfold fileBase splitOnChar
  rw [getLast?_splitOnCharAux]
  simp only [Option.some_bind, head?_splitOnCharAux, List.reverse_nil, List.nil_append]
  unfold beforeFirstDot lastSegment
  by_cases hm : '/' ∈ f
  · simp [hm]
  · have hall : f.reverse.takeWhile (fun c => c != '/') = f.reverse := by
      rw [List.takeWhile_eq_self_iff]
      intro d hd
      have hd' : d ∈ f := List.mem_reverse.mp hd
      have : d ≠ '/' := fun h => hm (h ▸ hd')
      simpa using this
    simp [hm, hall]

theorem foldl_exportDefaultStep_of_no_default {L : Type} (body : List (Statement L))
    (result : Option (EntryPoint L)) (h : ∀ s ∈ body, s.isExportDefault = false) :
    body.foldl exportDefaultStep result = result := by
  induction body generalizing result with
  | nil => rfl
  | cons s rest ih =>
    have hs := h s (List.mem_cons_self _ _)
    rw [List.foldl_cons]
    have hstep : exportDefaultStep result s = result := by
      cases s <;> first | rfl | simp [Statement.isExportDefault] at hs
    rw [hstep]
    exact ih _ (fun t ht => h t (List.mem_cons_of_mem _ ht))

theorem foldl_declarator_candidates {L : Type} (ds : List (Declarator L))
    (acc : List (EntryPoint L)) :
    ds.foldl (fun acc d => acc ++ d.candidates) acc = acc ++ ds.flatMap Declarator.candidates := by
  induction ds generalizing acc with
  | nil => simp
  | cons d rest ih => simp [List.foldl_cons, ih, List.flatMap_cons, List.append_assoc]

theorem candidates_eq_exported {L : Type} (d : Declaration L) : d.candidates = d.exported := by
  cases d <;> first | rfl | skip
  simp [Declaration.candidates, Declaration.exported, foldl_declarator_candidates]

theorem foldl_candidatesStep {L : Type} (body : List (Statement L))
    (acc : List (EntryPoint L)) :
    body.foldl candidatesStep acc = acc ++ exportedCandidates body := by
  induction body generalizing acc with
  | nil => simp [exportedCandidates]
  | cons s rest ih =>
    rw [List.foldl_cons, ih]
    cases s with
    | exportNamedDeclaration d =>
      cases d with
      | none => simp [candidatesStep, exportedCandidates, List.flatMap_cons]
      | some d =>
        simp [candidatesStep, exportedCandidates, List.flatMap_cons, candidates_eq_exported,
          List.append_assoc]
    | _ => simp [candidatesStep, exportedCandidates, List.flatMap_cons]

theorem nameFromBody_members {L : Type} (body : List (Statement L)) (r : EntryPoint L) :
    ∃ n, nameFromBody body r = { r with name := n } := by
  unfold nameFromBody
  split_ifs
  · split
    · exact ⟨_, rfl⟩
    · exact ⟨r.name, rfl⟩
  · exact ⟨r.name, rfl⟩

theorem nameFromFile_members {L : Type} (fileName : Str) (r : EntryPoint L) :
    ∃ n, nameFromFile fileName r = { r with name := n } := by
  unfold nameFromFile
  split_ifs
  · split
    · split_ifs
      · exact ⟨_, rfl⟩
      · exact ⟨r.name, rfl⟩
    · exact ⟨r.name, rfl⟩
  · exact ⟨r.name, rfl⟩

theorem nameFinal_members {L : Type} (r : EntryPoint L) :
    ∃ n, nameFinal r = { r with name := n } := by
  unfold nameFinal
  split_ifs
  · exact ⟨_, rfl⟩
  · exact ⟨r.name, rfl⟩

theorem inferName_members {L : Type} (body : List (Statement L)) (fileName : Str)
    (r : EntryPoint L) :
    ∃ n, inferName body fileName r = { r with name := n }
      ∧ (nameTruthy r.name = true → n = r.name) := by
  unfold inferName
  by_cases h : nameTruthy r.name = true
  · rw [if_pos h]
    exact ⟨r.name, rfl, fun _ => rfl⟩
  · rw [if_neg h]
    obtain ⟨n1, h1⟩ := nameFromBody_members body r
    obtain ⟨n2, h2⟩ := nameFromFile_members fileName (nameFromBody body r)
    obtain ⟨n3, h3⟩ := nameFinal_members (nameFromFile fileName (nameFromBody body r))
    refine ⟨n3, ?_, fun hn => absurd hn h⟩
    rw [h3, h2, h1]

/-- C21, as amended. For a program body without a default export and
without an exported function, class or function-valued variable,
`findMainComponent` returns an entry point of the type `unknown` whose name is
the text of the last segment of the file path before its first `.`, and
`Component` when that text is empty, as it is for the empty path. -/
theorem findMainComponent_unknown {L : Type} (body : List (Statement L)) (fileName : Str)
    (hdefault : ∀ s ∈ body, s.isExportDefault = false)
    (hnamed : exportedCandidates body = []) :
    findMainComponent body fileName
      = .plain "unknown".toList
          (some (if (beforeFirstDot (lastSegment fileName)).isEmpty then "Component".toList
                 else beforeFirstDot (lastSegment fileName)))
          none none := by
  unfold findMainComponent findExportDefault
  rw [foldl_exportDefaultStep_of_no_default body none hdefault, foldl_candidatesStep, hnamed]
  simp only [Option.map_none', List.nil_append, List.find?_nil, List.head?_nil, fileBase_eq,
    truthy]
  by_cases hf : fileName.length > 0
  · simp only [hf, if_true]
    cases h : (beforeFirstDot (lastSegment fileName)).isEmpty <;> simp [h]
  · have hnil : fileName = [] := by
      cases fileName with
      | nil => rfl
      | cons c cs => simp at hf
    subst hnil
    simp [beforeFirstDot, lastSegment]

/-- C21, witness. A body with one statement that is no export, and the path
`src/Button.jsx`: the name is `Button`. -/
theorem findMainComponent_unknown_witness :
    findMainComponent ([.other] : List (Statement Nat)) "src/Button.jsx".toList
      = .plain "unknown".toList (some "Button".toList) none none :=
  (findMainComponent_unknown ([.other] : List (Statement Nat)) "src/Button.jsx".toList
    (by decide) (by decide)).trans (by decide)

/-- C21, counterexample. For the path `src/Button.test.jsx`, whose base name
without its extension is `Button.test`, the name of the entry point is
`Button`; for the path `src/.config`, which is not empty, it is `Component`. -/
theorem findMainComponent_name_stops_at_first_dot :
    baseNameWithoutExtension "src/Button.test.jsx".toList = "Button.test".toList
      ∧ findMainComponent ([] : List (Statement Nat)) "src/Button.test.jsx".toList
        = .plain "unknown".toList (some "Button".toList) none none
      ∧ findMainComponent ([] : List (Statement Nat)) "src/.config".toList
        = .plain "unknown".toList (some "Component".toList) none none := by
  decide

/-- C22, as amended. When the last default export of a program body is a
function declaration, a class declaration, an identifier or a call, the entry
point that `findMainComponent` returns is the one made from that default
export, with its type, its parameters and its wrapping, whatever named exports
the body has; its name is the one of the declaration when that is not empty,
and an inferred one otherwise. -/
theorem findMainComponent_default_export {L : Type} (pre post : List (Statement L))
    (declaration : Declaration L) (fileName : Str) (r : EntryPoint L)
    (hlast : ∀ s ∈ post, s.isExportDefault = false)
    (hform : exportDefaultResult declaration = some r) :
    findMainComponent (pre ++ .exportDefaultDeclaration declaration :: post) fileName
        = inferName (pre ++ .exportDefaultDeclaration declaration :: post) fileName r
      ∧ (findMainComponent (pre ++ .exportDefaultDeclaration declaration :: post) fileName).type
          = r.type
      ∧ (findMainComponent (pre ++ .exportDefaultDeclaration declaration :: post) fileName).params
          = r.params
      ∧ (findMainComponent (pre ++ .exportDefaultDeclaration declaration :: post) fileName).loc
          = r.loc
      ∧ (findMainComponent (pre ++ .exportDefaultDeclaration declaration :: post) fileName).isHOC
          = r.isHOC
      ∧ (nameTruthy r.name = true →
          (findMainComponent (pre ++ .exportDefaultDeclaration declaration :: post)
            fileName).name = r.name) := by
  have hfold : (pre ++ .exportDefaultDeclaration declaration :: post).foldl exportDefaultStep none
      = some r := by
    rw [List.foldl_append, List.foldl_cons,
      foldl_exportDefaultStep_of_no_default post _ hlast]
    simp [exportDefaultStep, hform]
  have hmain : findMainComponent (pre ++ .exportDefaultDeclaration declaration :: post) fileName
      = inferName (pre ++ .exportDefaultDeclaration declaration :: post) fileName r := by
    simp only [findMainComponent, findExportDefault, hfold, Option.map_some']
  rw [hmain]
  obtain ⟨n, hn, hname⟩ :=
    inferName_members (pre ++ .exportDefaultDeclaration declaration :: post) fileName r
  refine ⟨rfl, ?_, ?_, ?_, ?_, ?_⟩
  · rw [hn]
  · rw [hn]
  · rw [hn]
  · rw [hn]
  · intro h
    rw [hn]
    exact hname h

/-- C22, witness. A named export `helper` followed by the default export of
the function `App`: the entry point is the function `App`. -/
theorem findMainComponent_default_export_witness :
    (findMainComponent
        ([.exportNamedDeclaration (some (.functionDeclaration (some "helper".toList) [] 1))]
          ++ .exportDefaultDeclaration (.functionDeclaration (some "App".toList) [] (2 : Nat))
            :: [])
        "".toList).name = some "App".toList :=
  (findMainComponent_default_export
    [.exportNamedDeclaration (some (.functionDeclaration (some "helper".toList) [] 1))] []
    (.functionDeclaration (some "App".toList) [] (2 : Nat)) "".toList
    (.plain "function".toList (some "App".toList) (some []) (some 2))
    (by decide) rfl).2.2.2.2.2 (by decide)

/-- C22, counterexample. A default export that is an arrow function, in a
file that also exports the function `helper`: the entry point is the one made
from the named export `helper`. -/
theorem findMainComponent_arrow_default_export_ignored :
    findMainComponent
        [.exportDefaultDeclaration .other,
         .exportNamedDeclaration (some (.functionDeclaration (some "helper".toList) [] (2 : Nat)))]
        "src/App.jsx".toList
      = .plain "function".toList (some "helper".toList) (some []) (some 2) := by
  decide

theorem foldl_exportDefaultStep_of_unhandled {L : Type} (body : List (Statement L))
    (result : Option (EntryPoint L))
    (h : ∀ s ∈ body, ∀ d, s = .exportDefaultDeclaration d → exportDefaultResult d = none) :
    body.foldl exportDefaultStep result = result := by
  induction body generalizing result with
  | nil => rfl
  | cons s rest ih =>
    rw [List.foldl_cons]
    have hstep : exportDefaultStep result s = result := by
      cases s with
      | exportDefaultDeclaration d =>
        simp [exportDefaultStep, h _ (List.mem_cons_self _ _) d rfl]
      | _ => rfl
    rw [hstep]
    exact ih _ (fun t ht => h t (List.mem_cons_of_mem _ ht))

theorem exportedCandidates_filter_not_default {L : Type} (body : List (Statement L)) :
    exportedCandidates (body.filter (fun s => !s.isExportDefault)) = exportedCandidates body := by
  induction body with
  | nil => rfl
  | cons s rest ih =>
    unfold exportedCandidates at ih ⊢
    by_cases hs : s.isExportDefault = true
    · cases s with
      | exportDefaultDeclaration d =>
        rw [List.filter_cons_of_neg (by simp [Statement.isExportDefault]), List.flatMap_cons]
        exact ih
      | _ => simp [Statement.isExportDefault] at hs
    · rw [List.filter_cons_of_pos (by simpa using hs), List.flatMap_cons, List.flatMap_cons, ih]

/-- X5. A default export for which the `switch` of `findExportDefault` has
no case (an arrow function, a function expression, an object) is not used: when
every default export of a program body is of such a form, `findMainComponent`
returns what it returns for the body without its default exports. -/
theorem findMainComponent_unhandled_default_export {L : Type} (body : List (Statement L))
    (fileName : Str)
    (h : ∀ s ∈ body, ∀ d, s = .exportDefaultDeclaration d → exportDefaultResult d = none) :
    findMainComponent body fileName
      = findMainComponent (body.filter (fun s => !s.isExportDefault)) fileName := by
  have hnone : ∀ s ∈ body.filter (fun s => !s.isExportDefault), s.isExportDefault = false := by
    intro s hs
    simpa using (List.mem_filter.1 hs).2
  unfold findMainComponent findExportDefault
  rw [foldl_exportDefaultStep_of_unhandled body none h,
    foldl_exportDefaultStep_of_no_default _ none hnone, foldl_candidatesStep,
    foldl_candidatesStep, exportedCandidates_filter_not_default]
  simp only [Option.map_none']

/-- X5, witness. A default export that is an arrow function next to the
exported function `helper`: the entry point is the one of the body that only
exports `helper`. -/
theorem findMainComponent_unhandled_default_export_witness :
    findMainComponent
        [.exportDefaultDeclaration .other,
         .exportNamedDeclaration (some (.functionDeclaration (some "helper".toList) [] (2 : Nat)))]
        "src/App.jsx".toList
      = findMainComponent
          ([.exportDefaultDeclaration .other,
            .exportNamedDeclaration
              (some (.functionDeclaration (some "helper".toList) [] (2 : Nat)))].filter
            (fun s => !s.isExportDefault))
          "src/App.jsx".toList :=
  findMainComponent_unhandled_default_export _ "src/App.jsx".toList (by
    intro s hs d hd
    subst hd
    simp only [List.mem_cons, List.mem_singleton, Statement.exportDefaultDeclaration.injEq,
      List.not_mem_nil, or_false] at hs
    rcases hs with hs | hs
    · rw [hs]; rfl
    · exact absurd hs (by simp))

/-- C23. For a program body without a default export and with at least one
exported function, class or function-valued variable, `findMainComponent`
returns the first candidate in source order whose name matches
`/Provider|Context/i` when there is one, and the first candidate in source
order otherwise. -/
theorem findMainComponent_named_export {L : Type} (body : List (Statement L)) (fileName : Str)
    (hdefault : ∀ s ∈ body, s.isExportDefault = false)
    (hnamed : exportedCandidates body ≠ []) :
    ∃ before c after,
      exportedCandidates body = before ++ c :: after
        ∧ findMainComponent body fileName = c
        ∧ (∀ d ∈ before, d.nameMatches = false)
        ∧ (c.nameMatches = true
            ∨ (before = [] ∧ ∀ d ∈ exportedCandidates body, d.nameMatches = false)) := by
  have hmain : findMainComponent body fileName
      = match (match (exportedCandidates body).find? EntryPoint.nameMatches with
               | some c => some c
               | none => (exportedCandidates body).head?) with
        | some c => c
        | none =>
          if fileName.length > 0 then
            match fileBase fileName with
            | some base =>
              if truthy base then .plain "unknown".toList (some base) none none
              else .plain "unknown".toList (some "Component".toList) none none
            | none => .plain "unknown".toList (some "Component".toList) none none
          else .plain "unknown".toList (some "Component".toList) none none := by
    unfold findMainComponent findExportDefault
    rw [foldl_exportDefaultStep_of_no_default body none hdefault, foldl_candidatesStep]
    simp only [Option.map_none', List.nil_append]
  rw [hmain]
  cases hfind : (exportedCandidates body).find? EntryPoint.nameMatches with
  | some c =>
    obtain ⟨hc, before, after, hsplit, hbefore⟩ := List.find?_eq_some.mp hfind
    refine ⟨before, c, after, hsplit, rfl, ?_, Or.inl hc⟩
    intro d hd
    simpa using hbefore d hd
  | none =>
    have hnone : ∀ d ∈ exportedCandidates body, d.nameMatches = false := by
      intro d hd
      have := List.find?_eq_none.mp hfind d hd
      simpa using this
    cases hlist : exportedCandidates body with
    | nil => exact absurd hlist hnamed
    | cons c rest =>
      refine ⟨[], c, rest, rfl, rfl, by simp, Or.inr ⟨rfl, ?_⟩⟩
      rw [← hlist]
      exact hnone

/-- C23, witness. The exported function `helper` followed by the exported
arrow function `ThemeProvider`: the entry point is `ThemeProvider`. -/
theorem findMainComponent_named_export_witness :
    ∃ before c after,
      exportedCandidates
          ([.exportNamedDeclaration (some (.functionDeclaration (some "helper".toList) [] 1)),
            .exportNamedDeclaration (some (.variableDeclaration
              [⟨some "ThemeProvider".toList, some (.arrowFunctionExpression []), 2⟩]))]
            : List (Statement Nat))
          = before ++ c :: after
        ∧ findMainComponent
            ([.exportNamedDeclaration (some (.functionDeclaration (some "helper".toList) [] 1)),
              .exportNamedDeclaration (some (.variableDeclaration
                [⟨some "ThemeProvider".toList, some (.arrowFunctionExpression []), 2⟩]))]
              : List (Statement Nat))
            "".toList = c
        ∧ (∀ d ∈ before, d.nameMatches = false)
        ∧ (c.nameMatches = true
            ∨ (before = [] ∧ ∀ d ∈ exportedCandidates
                ([.exportNamedDeclaration
                    (some (.functionDeclaration (some "helper".toList) [] 1)),
                  .exportNamedDeclaration (some (.variableDeclaration
                    [⟨some "ThemeProvider".toList, some (.arrowFunctionExpression []), 2⟩]))]
                  : List (Statement Nat)), d.nameMatches = false)) :=
  findMainComponent_named_export _ "".toList (by decide) (by decide)

/-! ## The automatic mocks -/

theorem includes_singleton (s : Str) (c : Char) : includes s [c] = true ↔ c ∈ s := by
  induction s with
  | nil => simp [includes]
  | cons d rest ih =>
    simp only [includes, Bool.or_eq_true, ih, List.mem_cons]
    constructor
    · rintro (h | h)
      · left
        have : ([c] : Str) <+: d :: rest := List.isPrefixOf_iff_prefix.mp h
        obtain ⟨t, ht⟩ := this
        simp only [List.singleton_append, List.cons.injEq] at ht
        exact ht.1
      · exact Or.inr h
    · rintro (h | h)
      · left
        subst h
        exact List.isPrefixOf_iff_prefix.mpr ⟨rest, rfl⟩
      · exact Or.inr h

theorem head?_splitOnChar (sep : Char) (s : Str) :
    (splitOnChar sep s).head? = some (s.takeWhile (fun c => c != sep)) := by
  unfold splitOnChar
  rw [head?_splitOnCharAux]
  simp

theorem specifierUsed_iff (names : List Str) (spec : Str) :
    specifierUsed (uniq names) spec = true
      ↔ spec ∈ names ∨ ∃ name ∈ names, '.' ∈ name ∧ spec = beforeFirstDot name := by
  unfold specifierUsed
  simp only [Bool.or_eq_true, List.any_eq_true, Bool.and_eq_true, beq_iff_eq, mem_uniq,
    head?_splitOnChar, Option.getD_some, beforeFirstDot]
  have hc : (uniq names).contains spec = true ↔ spec ∈ names := by
    rw [contains_uniq]; simp
  rw [hc]
  constructor
  · rintro (h | ⟨name, hn, hinc, hspec⟩)
    · exact Or.inl h
    · exact Or.inr ⟨name, hn, (includes_singleton name '.').mp hinc, hspec⟩
  · rintro (h | ⟨name, hn, hdot, hspec⟩)
    · exact Or.inl h
    · exact Or.inr ⟨name, hn, (includes_singleton name '.').mpr hdot, hspec⟩

theorem mockable_iff (imp : ImportFact) :
    imp.mockable = true ↔ ∃ s, imp.source = some s ∧ s ≠ [] ∧ s ∉ EXCLUDE_AUTOMOCKS := by
  unfold ImportFact.mockable
  cases hs : imp.source with
  | none => simp
  | some s =>
    simp only [Bool.and_eq_true, truthy, Bool.not_eq_true', List.any_eq_false, beq_iff_eq,
      Option.some.injEq, exists_eq_left']
    constructor
    · rintro ⟨h1, h2⟩
      refine ⟨?_, fun hmem => h2 s hmem rfl⟩
      intro hnil
      subst hnil
      simp at h1
    · rintro ⟨h1, h2⟩
      refine ⟨?_, fun x hx hsx => h2 (hsx ▸ hx)⟩
      cases s with
      | nil => exact absurd rfl h1
      | cons c cs => rfl

theorem trimEnd_append_customize (s : Str) :
    trimEnd (s ++ " (customize if needed)".toList) = s ++ " (customize if needed)".toList := by
  have hsplit : " (customize if needed)".toList = " (customize if needed".toList ++ [')'] := by
    decide
  unfold trimEnd
  rw [hsplit, ← List.append_assoc, List.reverse_append, List.reverse_singleton,
    List.singleton_append, List.dropWhile_cons_of_neg (by decide), List.reverse_cons,
    List.reverse_reverse]

/-- C24. The modules that the comment of `getAutoMocks` names are never on
the exclusion list and are named once each. With a collection of used names,
every module named is the source of an import with a binding that is in the
collection or that is the text before the first `.` of a dotted name of the
collection. Without a collection, every source that is not empty and not
excluded is named. The comment lists the modules named, each between
apostrophes, and is empty when there is none. -/
theorem autoMockSources_named (imports : List ImportFact) (usedNames : Option (List Str)) :
    (∀ s ∈ autoMockSources imports usedNames, s ∉ EXCLUDE_AUTOMOCKS)
      ∧ (autoMockSources imports usedNames).Nodup
      ∧ (∀ names, usedNames = some names → ∀ s ∈ autoMockSources imports usedNames,
          ∃ imp ∈ imports, imp.source = some s
            ∧ ∃ specifiers, imp.specifiers = some specifiers
              ∧ ∃ spec ∈ specifiers,
                  spec ∈ names ∨ ∃ name ∈ names, '.' ∈ name ∧ spec = beforeFirstDot name)
      ∧ (usedNames = none → ∀ imp ∈ imports, ∀ s, imp.source = some s → s ≠ [] →
          s ∉ EXCLUDE_AUTOMOCKS → s ∈ autoMockSources imports usedNames)
      ∧ getAutoMocks (some imports) usedNames
          = if (autoMockSources imports usedNames).isEmpty then []
            else "// Uses mock(s): ".toList
              ++ join ", ".toList ((autoMockSources imports usedNames).map
                  (fun m => "'".toList ++ m ++ "'".toList))
              ++ " (customize if needed)".toList := by
  have hres : ∀ s ∈ autoMockResults imports usedNames,
      ∃ imp ∈ imports, imp.source = some s ∧ s ≠ [] ∧ s ∉ EXCLUDE_AUTOMOCKS := by
    intro s hs
    unfold autoMockResults at hs
    cases usedNames with
    | none =>
      simp only [List.mem_map, List.mem_filter] at hs
      obtain ⟨imp, ⟨himp, hmock⟩, rfl⟩ := hs
      obtain ⟨t, ht, hne, hex⟩ := (mockable_iff imp).mp hmock
      exact ⟨imp, himp, by simp [ht], by simpa [ht] using hne, by simpa [ht] using hex⟩
    | some names =>
      simp only [List.mem_map, List.mem_filter] at hs
      obtain ⟨imp, ⟨himp, hkeep⟩, rfl⟩ := hs
      have hmock : imp.mockable = true := by
        by_contra hm
        simp [hm] at hkeep
      obtain ⟨t, ht, hne, hex⟩ := (mockable_iff imp).mp hmock
      exact ⟨imp, himp, by simp [ht], by simpa [ht] using hne, by simpa [ht] using hex⟩
  refine ⟨?_, nodup_uniq _, ?_, ?_, ?_⟩
  · intro s hs
    obtain ⟨_, _, _, _, hex⟩ := hres s ((mem_uniq _ _).mp hs)
    exact hex
  · intro names hnames s hs
    subst hnames
    have hs' := (mem_uniq _ _).mp hs
    unfold autoMockResults at hs'
    simp only [List.mem_map, List.mem_filter] at hs'
    obtain ⟨imp, ⟨himp, hkeep⟩, rfl⟩ := hs'
    have hmock : imp.mockable = true := by
      by_contra hm
      simp [hm] at hkeep
    obtain ⟨t, ht, _, _⟩ := (mockable_iff imp).mp hmock
    refine ⟨imp, himp, by simp [ht], ?_⟩
    cases hspec : imp.specifiers with
    | none => simp [hmock, hspec] at hkeep
    | some specifiers =>
      simp only [hmock, hspec, Bool.not_true, Bool.false_eq_true, if_false,
        List.any_eq_true] at hkeep
      obtain ⟨spec, hmem, hused⟩ := hkeep
      exact ⟨specifiers, rfl, spec, hmem, (specifierUsed_iff names spec).mp hused⟩
  · intro hnone imp himp s hsrc hne hex
    subst hnone
    apply (mem_uniq _ _).mpr
    unfold autoMockResults
    simp only [List.mem_map, List.mem_filter]
    exact ⟨imp, ⟨himp, (mockable_iff imp).mpr ⟨s, hsrc, hne, hex⟩⟩, by simp [hsrc]⟩
  · unfold getAutoMocks
    by_cases hempty : (autoMockSources imports usedNames).isEmpty = true
    · simp only [hempty, Bool.not_true, Bool.false_eq_true, if_false, if_true]
      rfl
    · simp only [hempty, Bool.not_false, if_true, Bool.false_eq_true, if_false]
      exact trimEnd_append_customize _

/-! ## `groupImports` and `groupMocks` on their own output -/

/-- C25. The function `groupImports` changes its own output: for a module
`a` with a default and a named binding and a module `b` with a named binding,
the first pass puts the statement for `a` before the one for `b`, and a second
pass, which reads the statement for `a` as a line to keep as it is and sorts
it by its text, puts it after the one for `b`. -/
theorem groupImports_second_pass_reorders :
    groupImports ["import D from \"a\";".toList, "import \x7b x \x7d from \"a\";".toList,
                  "import \x7b z \x7d from \"b\";".toList]
        = some ["import D\x7b x \x7d from \"a\";".toList,
                "import \x7b z \x7d from \"b\";".toList]
      ∧ groupImports ["import D\x7b x \x7d from \"a\";".toList,
                      "import \x7b z \x7d from \"b\";".toList]
        = some ["import \x7b z \x7d from \"b\";".toList,
                "import D\x7b x \x7d from \"a\";".toList] := by
  decide

/-- C26. For a module `p` with the default binding `D` and the named bindings
`n2` and `n1`, `groupImports` emits the text `import D{ n1, n2 } from "p";`,
without a comma between the default binding and the brace; read again, this
statement is kept as a line of its own and gives no default binding and no
named binding for `p`. -/
theorem groupImports_default_and_named_without_comma :
    groupImports ["import D from \"p\";".toList, "import \x7b n2, n1 \x7d from \"p\";".toList]
        = some ["import D\x7b n1, n2 \x7d from \"p\";".toList]
      ∧ reNamedImport.test "import D\x7b n1, n2 \x7d from \"p\";".toList = false
      ∧ reDefaultImport.test "import D\x7b n1, n2 \x7d from \"p\";".toList = false
      ∧ reStarImport.test "import D\x7b n1, n2 \x7d from \"p\";".toList = false := by
  decide

/-- C27. For two entries that are no `jest.mock` call, `groupMocks` returns
the second only: both are stored under the one name `others`. -/
theorem groupMocks_keeps_last_unrecognised_entry :
    groupMocks ["const mockThemeValue = \x7b\x7d;".toList, "const mockUserValue = \x7b\x7d;".toList]
      = ["const mockUserValue = \x7b\x7d;".toList] := by
  decide

/-! ## The global mocks of the suggested blocks -/

theorem globalMocksFill_of_no_useParamsMockObj (blocks : List (Option BlockMocks))
    (d : Dict NavMock) (h : ∀ m ∈ blocks, m.bind (fun m => m.useParamsMockObj) = none) :
    globalMocksFill blocks d = some d := by
  induction blocks with
  | nil => rfl
  | cons m rest ih =>
    have hm := h m (List.mem_cons_self _ _)
    simp only [globalMocksFill, globalMockStep, hm]
    exact ih (fun x hx => h x (List.mem_cons_of_mem _ hx))

theorem blockMocks_no_useParamsMockObj (mocksObjs : List NavMock) (r : RuleId) :
    (r.blockMocks mocksObjs).bind (fun m => m.useParamsMockObj) = none := by
  unfold RuleId.blockMocks
  split_ifs <;> rfl

/-- C28. Whatever the rules that fire and whatever the navigation mocks
`mocksObjs` that `generateUseMocks` yields, the generators put them in
`meta.mocksObjs` and `allGlobalMockLines` reads `meta.useParamsMockObj`, which
no generator sets: for the blocks of `suggestTestBlocks` the text returned is
empty. A mock that `generateUseParamsMock` or `generateUseRouterMock` yields
has a code that is not empty, so the text does not contain it. -/
theorem allGlobalMockLines_of_suggested_blocks {F : Type}
    (g : Generators F (Option BlockMocks)) (results : Results F) (mocksObjs : List NavMock)
    (hg : ∀ r, g.info r results = r.blockMocks mocksObjs) :
    allGlobalMockLines ((suggestTestBlocks g results).map (fun b => b.info)) = some []
      ∧ ∀ (ast : NavFacts) (m : NavMock),
          generateUseParamsMock ast = some (some m) ∨ generateUseRouterMock ast = some (some m) →
          ∃ code, m.code = some code ∧ includes [] code = false := by
  constructor
  · have hfill := globalMocksFill_of_no_useParamsMockObj
      ((suggestTestBlocks g results).map (fun b => b.info)) [] (by
        intro m hm
        obtain ⟨b, hb, rfl⟩ := List.mem_map.1 hm
        obtain ⟨r, _, rfl⟩ := mem_suggestTestBlocks g results b hb
        simp only [RuleId.fn, hg]
        exact blockMocks_no_useParamsMockObj mocksObjs r)
    simp only [allGlobalMockLines, hfill]
    rfl
  · intro ast m h
    rcases h with h | h
    · unfold generateUseParamsMock at h
      split at h
      · exact absurd h (by simp)
      · dsimp only at h
        split_ifs at h
        · have hm := Option.some.inj (Option.some.inj h)
          subst hm
          exact ⟨_, rfl, by simp [join, includes]⟩
        · exact absurd (Option.some.inj h) (by simp)
    · unfold generateUseRouterMock at h
      split at h
      · exact absurd h (by simp)
      · dsimp only at h
        split_ifs at h
        · have hm := Option.some.inj (Option.some.inj h)
          subst hm
          exact ⟨_, rfl, by simp [join, includes]⟩
        · exact absurd (Option.some.inj h) (by simp)

/-- C28, witness. A component with rendered markup that imports and calls
`useParams` and reads the key `id`: the block `render` carries the mock in
`mocksObjs`, and the text of `allGlobalMockLines` is empty. -/
theorem allGlobalMockLines_of_suggested_blocks_witness :
    generateUseMocks sampleNavFacts
        = some [{ code := some "jest.mock(\"next/navigation\", () => (\x7b\n  ...jest.requireActual(\"next/navigation\"),\n  useParams: jest.fn(() => (\x7b\n  \"id\": \"mocked_id\"\n  \x7d))\n\x7d));".toList,
                  type := some "next/navigation".toList, extended := true }]
      ∧ ((suggestTestBlocks
            (⟨fun _ _ => [], fun r _ => r.blockMocks ((generateUseMocks sampleNavFacts).getD [])⟩
              : Generators Unit (Option BlockMocks))
            { (Results.empty : Results Unit) with returnedJSX := [()] }).map
          (fun b => (b.type, b.info.bind (fun m => m.mocksObjs))))
        = [(some "render".toList, generateUseMocks sampleNavFacts)]
      ∧ allGlobalMockLines
          ((suggestTestBlocks
              (⟨fun _ _ => [], fun r _ => r.blockMocks ((generateUseMocks sampleNavFacts).getD [])⟩
                : Generators Unit (Option BlockMocks))
              { (Results.empty : Results Unit) with returnedJSX := [()] }).map
            (fun b => b.info))
        = some [] :=
  ⟨by decide, by decide,
   (allGlobalMockLines_of_suggested_blocks
      (⟨fun _ _ => [], fun r _ => r.blockMocks ((generateUseMocks sampleNavFacts).getD [])⟩
        : Generators Unit (Option BlockMocks))
      { (Results.empty : Results Unit) with returnedJSX := [()] }
      ((generateUseMocks sampleNavFacts).getD []) (fun _ => rfl)).1⟩

/-! ## The examples of relational comparisons -/

theorem roundToDouble_of_natAbs_le (z : Int) (h : z.natAbs ≤ 2 ^ 53) : roundToDouble z = z := by
  rcases Nat.lt_or_ge z.natAbs (2 ^ 53) with hlt | hge
  · have he : excessBits 1024 z.natAbs = 0 := by
      rw [show (1024 : Nat) = 1023 + 1 from rfl, excessBits, if_pos hlt]
    simp only [roundToDouble, he, if_true]
  · have heq : z.natAbs = 2 ^ 53 := Nat.le_antisymm h hge
    rcases Int.natAbs_eq z with hz | hz
    · rw [hz, heq]; decide
    · rw [hz, heq]; decide

theorem addPossibleValue_ok {N : Type} [DecidableEq N] (hints hints1 : Dict (Hint N)) (x : Str)
    (value : HintVal N) (h : addPossibleValue hints x value = .ok hints1) :
    ∃ e vs, hints1.own x = some e ∧ e.possibleValues = some vs ∧ value ∈ vs
      ∧ ∀ w ∈ vs, w = value
          ∨ ∃ e0 vs0, hints.own x = some e0 ∧ e0.possibleValues = some vs0 ∧ w ∈ vs0 := by
  unfold addPossibleValue at h
  cases ho : hints.own x with
  | none =>
    simp only [ho] at h
    split_ifs at h
    have h1 := Except.ok.inj h
    subst h1
    refine ⟨_, _, own_put_self _ _ _, rfl, List.mem_singleton.2 rfl, ?_⟩
    intro w hw
    exact Or.inl (List.mem_singleton.1 hw)
  | some e0 =>
    simp only [ho] at h
    cases hp : e0.possibleValues with
    | none => simp [hp] at h
    | some vs0 =>
      simp only [hp] at h
      have h1 := Except.ok.inj h
      subst h1
      refine ⟨_, _, own_put_self _ _ _, rfl, ?_, ?_⟩
      · by_cases hc : vs0.contains value = true
        · rw [if_pos hc]; simpa using hc
        · rw [if_neg hc]; simp
      · intro w hw
        by_cases hc : vs0.contains value = true
        · rw [if_pos hc] at hw
          exact Or.inr ⟨e0, vs0, rfl, hp, hw⟩
        · rw [if_neg hc] at hw
          rcases List.mem_append.1 hw with hw | hw
          · exact Or.inr ⟨e0, vs0, rfl, hp, hw⟩
          · exact Or.inl (List.mem_singleton.1 hw)

/-- C29, as amended. For an integer literal `n` below `2 ^ 53` in magnitude
and a comparison `x op n` with one of the operators `<`, `>`, `<=`, `>=`, when
the visitor of `findPropValueHints` succeeds, the possible values of `x` are
those it had before and the example made from `n`, and the example satisfies
the comparison when it is put for `x`. -/
theorem relational_example_satisfies_comparison {O : Type} (base : Host Int O)
    (hints hints1 : Dict (Hint Int)) (x operator : Str) (n : Int)
    (hop : operator ∈ ["<", ">", "<=", ">="].map String.toList)
    (hlow : -(2 ^ 53) < n) (hhigh : n < 2 ^ 53)
    (hvisit : visitNode (doubleHost base) hints
        (.binaryExpression operator (.identifier x) (.numericLiteral n)) = .ok hints1) :
    ∃ e vs, hints1.own x = some e ∧ e.possibleValues = some vs
      ∧ HintVal.num (relationalExample (doubleHost base) operator n) ∈ vs
      ∧ relationHolds operator (relationalExample (doubleHost base) operator n) n = true
      ∧ ∀ w ∈ vs, w = HintVal.num (relationalExample (doubleHost base) operator n)
          ∨ ∃ e0 vs0, hints.own x = some e0 ∧ e0.possibleValues = some vs0 ∧ w ∈ vs0 := by
  have hplus : roundToDouble (n + 1) = n + 1 := roundToDouble_of_natAbs_le _ (by omega)
  have hminus : roundToDouble (n - 1) = n - 1 := roundToDouble_of_natAbs_le _ (by omega)
  have hadd : addPossibleValue hints x
      (.num (relationalExample (doubleHost base) operator n)) = .ok hints1 := by
    simp only [List.map_cons, List.map_nil, List.mem_cons, List.mem_singleton,
      List.not_mem_nil, or_false] at hop
    rcases hop with h | h | h | h <;> subst h <;> exact hvisit
  obtain ⟨e, vs, he, hvs, hmem, hall⟩ := addPossibleValue_ok hints hints1 x _ hadd
  refine ⟨e, vs, he, hvs, hmem, ?_, hall⟩
  simp only [List.map_cons, List.map_nil, List.mem_cons, List.mem_singleton,
    List.not_mem_nil, or_false] at hop
  rcases hop with h | h | h | h <;> subst h
  · have hv : relationalExample (doubleHost base) "<".toList n = n - 1 := hminus
    rw [hv]
    simp [relationHolds]
  · have hv : relationalExample (doubleHost base) ">".toList n = n + 1 := hplus
    rw [hv]
    simp [relationHolds]
  · have hv : relationalExample (doubleHost base) "<=".toList n = n - 1 := hminus
    rw [hv]
    simp [relationHolds]
  · have hv : relationalExample (doubleHost base) ">=".toList n = n + 1 := hplus
    rw [hv]
    simp [relationHolds]

/-- C29, witness. The comparison `count > 5`: the example is 6. -/
theorem relational_example_satisfies_comparison_witness :
    ∃ e vs,
      Dict.own [("count".toList, (⟨none, some [.num 6], none⟩ : Hint Int))] "count".toList = some e
      ∧ e.possibleValues = some vs
      ∧ HintVal.num (relationalExample (doubleHost sampleHost) ">".toList 5) ∈ vs
      ∧ relationHolds ">".toList (relationalExample (doubleHost sampleHost) ">".toList 5) 5 = true
      ∧ ∀ w ∈ vs, w = HintVal.num (relationalExample (doubleHost sampleHost) ">".toList 5)
          ∨ ∃ e0 vs0, Dict.own ([] : Dict (Hint Int)) "count".toList = some e0
              ∧ e0.possibleValues = some vs0 ∧ w ∈ vs0 :=
  relational_example_satisfies_comparison sampleHost [] _ "count".toList ">".toList 5
    (by decide) (by decide) (by decide) rfl

/-- C29, counterexample. For the comparison `count > 9007199254740992`, whose
literal is `2 ^ 53`, the sum `value + 1` is again `2 ^ 53`: this is the
possible value recorded for `count`, and it is not greater than the literal. -/
theorem relational_example_of_two_pow_53_not_greater :
    findPropValueHints (doubleHost sampleHost)
        [.binaryExpression ">".toList (.identifier "count".toList)
          (.numericLiteral 9007199254740992)]
        = .ok [("count".toList, ⟨none, some [.num 9007199254740992], none⟩)]
      ∧ relationalExample (doubleHost sampleHost) ">".toList 9007199254740992
        = 9007199254740992
      ∧ relationHolds ">".toList 9007199254740992 9007199254740992 = false :=
  ⟨rfl, by decide, by decide⟩

/-! ## The block of the rule `context` -/

theorem fn_mem_suggestTestBlocks {F M : Type} (g : Generators F M) (context : Results F)
    (r : RuleId) (h : r.condition context = true) :
    r.fn g context ∈ suggestTestBlocks g context := by
  have hprod : r.fn g context ∈ producedBlocks g context := by
    unfold producedBlocks
    refine List.mem_map.2 ⟨r, List.mem_filter.2 ⟨?_, h⟩, rfl⟩
    cases r <;> simp [blockAlgorithms]
  have heq : suggestTestBlocks g context = dropRepeatedPairs [] (producedBlocks g context) := by
    rw [suggestTestBlocks_eq_dedupe_produced]
    exact dedupeBlocks_eq_dropRepeatedPairs _ [] []
      (fun b hb c hc => producedBlocks_key_iff_pair g context b c hb hc) (by simp)
  obtain ⟨c, hfind, hc⟩ := first_kept_dropRepeatedPairs _ [] (r.fn g context) hprod (by simp)
  have hcmem : c ∈ producedBlocks g context := List.mem_of_find?_eq_some hfind
  have hpair : c.pair = (r.fn g context).pair := by
    have := List.find?_some hfind
    simpa using this
  obtain ⟨r2, _, hr2⟩ := List.mem_map.1 hcmem
  have hr : r2 = r := by
    apply blockKey_fn_injective g context
    rw [hr2]
    exact blockKey_eq_of_pair_eq _ _ hpair
  rw [heq, ← hr, hr2]
  exact hc

/-- C30. For an analysis result whose contexts are not empty and are all
hook-style (`isProvider` false), the guard of the rule `context` holds and
`suggestTestBlocks` returns the block of kind `context`, while
`suggestContextBlock` lists no context and builds no helper: the member
`contextsHelpers` of the block is empty. -/
theorem suggestTestBlocks_context_block_without_helpers {F M N O P : Type}
    (g : Generators F M) (results : Results F) (host : Host N O)
    (view : F → ContextFact N O P) (contextPath : ContextFact N O P → Option Str)
    (contextDefaultValues : Str → JSVal N O) (cs : List F)
    (hcontexts : results.contexts = some cs) (hsome : cs ≠ [])
    (hhook : ∀ c ∈ cs, (view c).isProvider = false) :
    RuleId.fn g .context results ∈ suggestTestBlocks g results
      ∧ (RuleId.fn g .context results).type = some "context".toList
      ∧ metaContexts host ⟨some (cs.map view), contextDefaultValues⟩ = []
      ∧ contextsHelpersImportLines host contextPath ⟨some (cs.map view), contextDefaultValues⟩
          = [] := by
  have hcond : RuleId.condition .context results = true := by
    cases cs with
    | nil => exact absurd rfl hsome
    | cons c rest => simp [RuleId.condition, nonEmptyArray, hcontexts]
  have hmeta : metaContexts host ⟨some (cs.map view), contextDefaultValues⟩ = [] := by
    have hfilter : (cs.map view).filter (fun ctx => ctx.isProvider) = [] := by
      rw [List.filter_eq_nil_iff]
      intro ctx hctx
      obtain ⟨c, hc, rfl⟩ := List.mem_map.1 hctx
      simp [hhook c hc]
    simp only [metaContexts, hfilter, List.map_nil]
  refine ⟨fn_mem_suggestTestBlocks g results .context hcond, rfl, hmeta, ?_⟩
  simp only [contextsHelpersImportLines, hmeta, List.filterMap_nil, uniq]

/-- C30, witness. A component that calls `useState`, for which the analysis
records one hook-style context: the block of kind `context` is returned and it
has no helper. -/
theorem suggestTestBlocks_context_block_without_helpers_witness :
    RuleId.fn (⟨fun _ _ => [], fun _ _ => ()⟩ : Generators (ContextFact Int Unit Unit) Unit)
        .context
        { (Results.empty : Results (ContextFact Int Unit Unit)) with
          contexts := some [ContextFact.simple "useState".toList false true .undefined] }
        ∈ suggestTestBlocks (⟨fun _ _ => [], fun _ _ => ()⟩
            : Generators (ContextFact Int Unit Unit) Unit)
          { (Results.empty : Results (ContextFact Int Unit Unit)) with
            contexts := some [ContextFact.simple "useState".toList false true .undefined] }
      ∧ (RuleId.fn (⟨fun _ _ => [], fun _ _ => ()⟩
            : Generators (ContextFact Int Unit Unit) Unit) .context
          { (Results.empty : Results (ContextFact Int Unit Unit)) with
            contexts := some [ContextFact.simple "useState".toList false true .undefined] }).type
          = some "context".toList
      ∧ metaContexts sampleHost
          ⟨some ([ContextFact.simple "useState".toList false true .undefined].map id),
           fun _ => .undefined⟩ = []
      ∧ contextsHelpersImportLines sampleHost (fun _ => none)
          ⟨some ([ContextFact.simple "useState".toList false true .undefined].map id),
           fun _ => .undefined⟩ = [] :=
  suggestTestBlocks_context_block_without_helpers _ _ sampleHost id (fun _ => none)
    (fun _ => .undefined) [ContextFact.simple "useState".toList false true .undefined]
    rfl (by simp) (by decide)

end TestGen
